import Mathlib

/-!
Verification of openshift-timeline, file events.go.

A shallow embedding of `events.go`, the program that turns a line-oriented
event log into Chrome trace events, followed by theorems about it.

Conventions of the embedding.

* A Go string is a sequence of bytes.  The model keeps one character per
  byte, so `len`, indexing and slicing count characters.
* Go maps are association lists without repeated keys (`GoMap`).
* Standard output is the field `out` of the generator: the list of events
  handed to `Emit`, oldest first.  The JSON rendering is not modelled.
* `int` and `int64` values are integers.  The only arithmetic that could
  leave the 64-bit range is the counter increment in `GetTID`, and each
  increment also stores a map entry, so the counter stays far below `2^63`.
* `log.Fatal` and a run-time index error both stop the program; the model
  returns the state reached at that point, tagged `fatal` or `panic`.
* `time.Parse` and `time.ParseDuration` belong to the Go library and are
  parameters of the model (`Stdlib`).
-/

namespace Timeline

/-! ## Go maps -/

namespace GoMap

/-- Lookup `m[k]` with the comma-ok form: `none` when the key is absent. -/
def get {κ ν : Type} [DecidableEq κ] : List (κ × ν) → κ → Option ν
  | [], _ => none
  | (k1, v) :: m, k => if k1 = k then some v else get m k

/-- The builtin `delete(m, k)`. -/
def delete {κ ν : Type} [DecidableEq κ] (m : List (κ × ν)) (k : κ) : List (κ × ν) :=
  m.filter (fun p => decide (p.1 ≠ k))

/-- Assignment `m[k] = v`. -/
def set {κ ν : Type} [DecidableEq κ] (m : List (κ × ν)) (k : κ) (v : ν) : List (κ × ν) :=
  (k, v) :: delete m k

end GoMap

/-! ## Go strings -/

/-- Go `len(s)`. -/
def len (s : String) : Nat := s.data.length

/-- Go `s[i:]` for `i ≤ len(s)`. -/
def sliceFrom (s : String) (i : Nat) : String := ⟨s.data.drop i⟩

/-- Go `s[:i]` for `i ≤ len(s)`. -/
def sliceTo (s : String) (i : Nat) : String := ⟨s.data.take i⟩

/-- Go `strings.HasPrefix`. -/
def HasPrefix (s p : String) : Bool := p.data.isPrefixOf s.data

/-- Go `strings.HasSuffix`. -/
def HasSuffix (s suf : String) : Bool := suf.data.isSuffixOf s.data

/-- Go `strings.TrimSuffix`. -/
def TrimSuffix (s suf : String) : String :=
  if HasSuffix s suf then sliceTo s (len s - len suf) else s

/-- Position of the first occurrence of `sep` in a byte list. -/
def indexIn (sep : List Char) : List Char → Option Nat
  | [] => if sep.isPrefixOf [] then some 0 else none
  | c :: t => if sep.isPrefixOf (c :: t) then some 0 else (indexIn sep t).map (· + 1)

/-- Go `strings.Index`; `none` stands for the result `-1`. -/
def Index (s sep : String) : Option Nat := indexIn sep.data s.data

/-- Go `strings.SplitN(s, " ", 2)`: element 0 and, when there is one, element 1. -/
def SplitN (s : String) : String × Option String :=
  match Index s " " with
  | none => (s, none)
  | some i => (sliceTo s i, some (sliceFrom s (i + 1)))

/-- Go `strings.TrimLeft(s, string(c))`. -/
def TrimLeft (s : String) (c : Char) : String := ⟨s.data.dropWhile (· == c)⟩

/-- Go `strings.TrimRight(s, string(c))`. -/
def TrimRight (s : String) (c : Char) : String :=
  ⟨(s.data.reverse.dropWhile (· == c)).reverse⟩

/-- Go `fmt.Sprintf("%d:%s", pid, name)`. -/
def sprintfTidKey (pid : Int) (name : String) : String :=
  toString pid ++ ":" ++ name

/-- Go `fmt.Sprintf("%s %s", pid, tid)` with two `int` operands: the verb does
not fit the operand, so each is rendered as `%!s(int=N)`. -/
def sprintfKey (pid tid : Int) : String :=
  "%!s(int=" ++ toString pid ++ ") %!s(int=" ++ toString tid ++ ")"

/-! ## The trace event and the generator -/

/-- The struct `traceEvent`. An empty `Args` is the nil map. -/
structure traceEvent where
  Name : String
  Ph : String
  PID : Int
  TID : Int
  TS : Int := 0
  Cat : String := ""
  Dur : Int := 0
  Args : List (String × String) := []
  deriving DecidableEq, Repr

/-- The struct `traceEventsGenerator`, with standard output as `out`. -/
structure traceEventsGenerator where
  tidsCount : Int
  tids : List (String × Int)
  pids : List (Int × Bool)
  wantComma : Bool
  out : List traceEvent
  deriving DecidableEq, Repr

/-- The constructor `newTraceEventsGenerator` (nothing printed yet). -/
def newTraceEventsGenerator : traceEventsGenerator :=
  { tidsCount := 0, tids := [], pids := [], wantComma := false, out := [] }

/-- The method `Emit`. -/
def Emit (g : traceEventsGenerator) (event : traceEvent) : traceEventsGenerator :=
  { g with wantComma := true, out := g.out ++ [event] }

/-- The method `GetTID`. -/
def GetTID (g : traceEventsGenerator) (pid : Int) (name : String) :
    traceEventsGenerator × Int :=
  let key := sprintfTidKey pid name
  match GoMap.get g.tids key with
  | some tid => (g, tid)
  | none =>
    let tid := g.tidsCount + 1
    let pid := if pid = 0 then tid else pid
    let g1 := { g with tidsCount := tid, tids := GoMap.set g.tids key tid }
    (Emit g1 { Name := "thread_name", Ph := "M", PID := pid, TID := tid,
               Args := [("name", name)] }, tid)

/-- The value of `g.pids[tid]`: false when the key is absent. -/
def pidSeen (g : traceEventsGenerator) (tid : Int) : Bool :=
  (GoMap.get g.pids tid).getD false

/-- The method `GetPID`. -/
def GetPID (g : traceEventsGenerator) (name : String) : traceEventsGenerator × Int :=
  let r := GetTID g 0 name
  let tid := r.2
  if pidSeen r.1 tid then (r.1, tid)
  else
    let g1 := Emit r.1 { Name := "process_name", Ph := "M", PID := tid, TID := tid,
                         Args := [("name", name)] }
    ({ g1 with pids := GoMap.set g1.pids tid true }, tid)

/-- The function `isAbnormal`. -/
def isAbnormal (condition status : String) : Bool :=
  if condition = "condition/Available" then HasPrefix status "status/False"
  else HasPrefix status "status/True"

/-! ## The main loop -/

/-- The two library parsers of package `time` that `main` calls.
`timeParse s` is `time.Parse("2006 Jan 02 15:04:05", s)` followed by
`UnixNano()`, and `ParseDuration` is `time.ParseDuration` in nanoseconds;
`none` is a returned error. -/
structure Stdlib where
  timeParse : String → Option Int
  ParseDuration : String → Option Int

/-- The constant `time.Second`, in nanoseconds. -/
def Second : Int := 1000000000

/-- State of `main` between two iterations of its loop. -/
structure Run where
  g : traceEventsGenerator
  pid1 : Int
  inProgress : List (String × String)
  deriving DecidableEq, Repr

/-- How an iteration ends: normally, in `log.Fatal`, or in an index error. -/
inductive Outcome where
  | ok (s : Run)
  | fatal (s : Run)
  | panic (s : Run)
  deriving DecidableEq, Repr

/-- The state an outcome carries. -/
def Outcome.state : Outcome → Run
  | .ok s => s
  | .fatal s => s
  | .panic s => s

/-- Whether the iteration ended normally. -/
def Outcome.isOk : Outcome → Bool
  | .ok _ => true
  | _ => false

/-- The state of `main` on entering the loop (lines 106 to 109). -/
def mainInit : Run :=
  let r := GetPID newTraceEventsGenerator "other"
  { g := r.1, pid1 := r.2, inProgress := [] }

/-- Why decoding a line stopped the program. -/
inductive Abort where
  | fatal
  | panic
  deriving DecidableEq, Repr

/-- Line 142, `msg = msg[2:]`. -/
def dropSeverity (timestamp duration : Int) (msg : String) : Except Abort (Int × Int × String) :=
  if len msg < 2 then .error .panic else .ok (timestamp, duration, sliceFrom msg 2)

/-- Lines 118 to 142: timestamp, duration and message of a non-blank line. -/
def decode (env : Stdlib) (line : String) : Except Abort (Int × Int × String) :=
  if len line < 20 ∨ line.data.getD 19 'x' ≠ ' ' then .error .fatal
  else
    match env.timeParse ("2021 " ++ sliceTo line 19) with
    | none => .error .fatal
    | some timestamp =>
      let msg := sliceFrom line 20
      match msg.data with
      | [] => .error .panic
      | c :: _ =>
        if c = '-' then
          if len msg < 2 then .error .panic
          else
            let msg1 := sliceFrom msg 2
            match Index msg1 " " with
            | none => .error .panic
            | some idx =>
              match env.ParseDuration (sliceTo msg1 idx) with
              | none => .error .fatal
              | some duration =>
                dropSeverity timestamp duration (TrimLeft (sliceFrom msg1 (idx + 1)) ' ')
        else dropSeverity timestamp 0 msg

/-- Lines 164 to 174 and 194 to 204: close the interval open on `key`, if any. -/
def closePrevious (g : traceEventsGenerator) (inProgress : List (String × String))
    (key : String) (pid tid timestamp : Int) :
    traceEventsGenerator × List (String × String) :=
  match GoMap.get inProgress key with
  | some previous =>
    (Emit g { Name := previous, Cat := "", Ph := "E", PID := pid, TID := tid,
              TS := Int.tdiv timestamp 1000 },
     GoMap.delete inProgress key)
  | none => (g, inProgress)

/-- Lines 212 to 228: the event every accepted record ends with. -/
def finish (s : Run) (g : traceEventsGenerator) (inProgress : List (String × String))
    (pid tid : Int) (phase msg : String) (timestamp duration : Int) : Outcome :=
  let tid1 := if tid = 0 then pid else tid
  let duration1 := if duration < Second then Second else duration
  .ok { s with
        g := Emit g { Name := msg, Cat := "", Ph := phase, PID := pid, TID := tid1,
                      TS := Int.tdiv timestamp 1000, Dur := Int.tdiv duration1 1000 },
        inProgress := inProgress }

/-- Lines 144 to 228: classification of a decoded record and its events. -/
def translate (s : Run) (timestamp duration : Int) (msg : String) : Outcome :=
  let parts := SplitN msg
  if HasPrefix parts.1 "ns/e2e-" then
    let r := GetPID s.g "ns/e2e-*"
    finish s r.1 s.inProgress r.2 0 "X" msg timestamp duration
  else if HasPrefix parts.1 "ns/" then
    let r := GetPID s.g parts.1
    match parts.2 with
    | none => .panic { s with g := r.1 }
    | some rest =>
      let parts1 := SplitN rest
      if HasPrefix parts1.1 "pod/" then
        let r1 := GetTID r.1 r.2 parts1.1
        finish s r1.1 s.inProgress r.2 r1.2 "X" msg timestamp duration
      else finish s r.1 s.inProgress r.2 0 "X" msg timestamp duration
  else if HasPrefix parts.1 "node/" then
    let r := GetPID s.g parts.1
    finish s r.1 s.inProgress r.2 0 "X" msg timestamp duration
  else if HasPrefix parts.1 "clusteroperator/" then
    let r := GetPID s.g parts.1
    match parts.2 with
    | none => .panic { s with g := r.1 }
    | some rest =>
      let parts1 := SplitN rest
      if HasPrefix parts1.1 "condition/" then
        let r1 := GetTID r.1 r.2 parts1.1
        let key := sprintfKey r.2 r1.2
        let c := closePrevious r1.1 s.inProgress key r.2 r1.2 timestamp
        match parts1.2 with
        | none => .panic { s with g := c.1, inProgress := c.2 }
        | some status =>
          if isAbnormal parts1.1 status then
            finish s c.1 (GoMap.set c.2 key msg) r.2 r1.2 "B" msg timestamp duration
          else finish s c.1 c.2 r.2 r1.2 "X" msg timestamp duration
      else finish s r.1 s.inProgress r.2 0 "X" msg timestamp duration
  else if HasPrefix parts.1 "e2e-test/" then
    let r := GetPID s.g "e2e-test/*"
    let started := HasSuffix msg " started"
    let test : Option String :=
      if started then some (TrimSuffix msg " started")
      else (Index msg " finishedStatus/").map (sliceTo msg)
    match test with
    | none => finish s r.1 s.inProgress r.2 0 "X" msg timestamp duration
    | some t =>
      let r1 := GetTID r.1 r.2 t
      if r1.2 ≠ 0 then
        let key := sprintfKey r.2 r1.2
        let c := closePrevious r1.1 s.inProgress key r.2 r1.2 timestamp
        if started then
          finish s c.1 (GoMap.set c.2 key t) r.2 r1.2 "B" t timestamp duration
        else finish s c.1 c.2 r.2 r1.2 "X" msg timestamp duration
      else finish s r1.1 s.inProgress r.2 r1.2 "X" msg timestamp duration
  else finish s s.g s.inProgress s.pid1 0 "X" msg timestamp duration

/-- One iteration of the loop of `main` on the line `line0` as read
(lines 112 to 229), the end-of-line byte included. -/
def processLine (env : Stdlib) (s : Run) (line0 : String) : Outcome :=
  let line := TrimRight line0 '\n'
  if line = "" then .ok s
  else
    match decode env line with
    | .error .fatal => .fatal s
    | .error .panic => .panic s
    | .ok (timestamp, duration, msg) => translate s timestamp duration msg

/-- The loop of `main` over the lines read, from state `s`. -/
def runFrom (env : Stdlib) : Run → List String → Outcome
  | s, [] => .ok s
  | s, line :: rest =>
    match processLine env s line with
    | .ok s1 => runFrom env s1 rest
    | o => o

/-- The whole of `main` on the lines read from standard input. -/
def main (env : Stdlib) (lines : List String) : Outcome :=
  runFrom env mainInit lines


/-! ## Vocabulary of the statements -/

/-- What a sequence of calls on the registry is made of. -/
inductive RegCall where
  | getTID (pid : Int) (name : String)
  | getPID (name : String)
  deriving DecidableEq, Repr

/-- The generator after one registry call. -/
def regStep (g : traceEventsGenerator) : RegCall → traceEventsGenerator
  | .getTID pid name => (GetTID g pid name).1
  | .getPID name => (GetPID g name).1

/-- The generator after a sequence of registry calls. -/
def regRun (g : traceEventsGenerator) (calls : List RegCall) : traceEventsGenerator :=
  calls.foldl regStep g

/-- Invariant of the registry: identifiers lie between 1 and the counter and
no identifier is stored under two keys. -/
structure RegInv (g : traceEventsGenerator) : Prop where
  count_nonneg : 0 ≤ g.tidsCount
  tids_range : ∀ k v, GoMap.get g.tids k = some v → 1 ≤ v ∧ v ≤ g.tidsCount
  tids_inj : ∀ k1 k2 v, GoMap.get g.tids k1 = some v → GoMap.get g.tids k2 = some v → k1 = k2

/-- The `thread_name` metadata event of `GetTID`. -/
def threadEvent (pid tid : Int) (name : String) : traceEvent :=
  { Name := "thread_name", Ph := "M", PID := pid, TID := tid, Args := [("name", name)] }

/-- The `process_name` metadata event of `GetPID`. -/
def procEvent (name : String) (id : Int) : traceEvent :=
  { Name := "process_name", Ph := "M", PID := id, TID := id, Args := [("name", name)] }

/-- The generator after `GetTID` has allocated an identifier for `(pid, name)`. -/
def allocThread (g : traceEventsGenerator) (pid : Int) (name : String) : traceEventsGenerator :=
  Emit { g with tidsCount := g.tidsCount + 1,
                tids := GoMap.set g.tids (sprintfTidKey pid name) (g.tidsCount + 1) }
    (threadEvent (if pid = 0 then g.tidsCount + 1 else pid) (g.tidsCount + 1) name)

/-- The generator after `GetPID` has allocated and announced a process. -/
def allocProc (g : traceEventsGenerator) (name : String) : traceEventsGenerator :=
  { Emit (allocThread g 0 name) (procEvent name (g.tidsCount + 1)) with
    pids := GoMap.set g.pids (g.tidsCount + 1) true }

/-- Whether `e` is an interval event (`B` or `E`) of the pair `(pid, tid)`. -/
def isPairEvent (pid tid : Int) (e : traceEvent) : Bool :=
  decide ((e.Ph = "B" ∨ e.Ph = "E") ∧ e.PID = pid ∧ e.TID = tid)

/-- The interval events of the pair `(pid, tid)` in output order. -/
def track (out : List traceEvent) (pid tid : Int) : List traceEvent :=
  out.filter (isPairEvent pid tid)

/-- One step of the check of a track. The state is the label of the open
interval, if any: a `B` is allowed only when none is open, an `E` only when
one is open and it carries the label of that `B`. -/
def pairStep (st : Option String) (e : traceEvent) : Option (Option String) :=
  match st with
  | none => if e.Ph = "B" then some (some e.Name) else none
  | some lbl => if e.Ph = "E" ∧ e.Name = lbl then some none else none

/-- The check of a whole track from state `st`: `none` when the events do not
alternate or an `E` has the wrong name, otherwise the state at the end. -/
def pairing : Option String → List traceEvent → Option (Option String)
  | st, [] => some st
  | st, e :: es => (pairStep st e).bind (fun st1 => pairing st1 es)

/-- Number of events of phase `ph`. -/
def countPh (ph : String) (out : List traceEvent) : Nat :=
  (out.filter (fun e => decide (e.Ph = ph))).length

/-- A `process_name` metadata event whose `name` argument is `name`. -/
def isProcessName (name : String) (e : traceEvent) : Prop :=
  e.Name = "process_name" ∧ e.Ph = "M" ∧ GoMap.get e.Args "name" = some name

/-- A `thread_name` metadata event for `name` with thread identifier `id`. -/
def isThreadName (name : String) (id : Int) (e : traceEvent) : Prop :=
  e.Name = "thread_name" ∧ e.Ph = "M" ∧ GoMap.get e.Args "name" = some name ∧ e.TID = id

/-- The output announces process `name` with identifier `id` exactly once,
before every other event of that process. -/
def ProcDecl (out : List traceEvent) (name : String) (id : Int) : Prop :=
  ∃ pre post, out = pre ++ procEvent name id :: post ∧
    (∀ e ∈ pre, ¬ isProcessName name e) ∧ (∀ e ∈ post, ¬ isProcessName name e) ∧
    (∀ e ∈ pre, e.Ph ≠ "M" → e.PID ≠ id)

/-- The output announces thread `name` of parent `p` with identifier `id`
exactly once, before every other event of that thread. -/
def ThreadDecl (out : List traceEvent) (p : Int) (name : String) (id : Int) : Prop :=
  ∃ pre post, out = pre ++ threadEvent (if p = 0 then id else p) id name :: post ∧
    (∀ e ∈ pre, ¬ isThreadName name id e) ∧ (∀ e ∈ post, ¬ isThreadName name id e) ∧
    (∀ e ∈ pre, e.Ph ≠ "M" → e.TID ≠ id)

/-- Invariant of the generator and the open-interval map during a run. -/
structure Inv (g : traceEventsGenerator) (ip : List (String × String)) : Prop where
  reg : RegInv g
  pids_proc : ∀ id, pidSeen g id = true →
    ∃ name, GoMap.get g.tids (sprintfTidKey 0 name) = some id
  ev_tid : ∀ e ∈ g.out, 1 ≤ e.TID ∧ e.TID ≤ g.tidsCount
  ev_pid : ∀ e ∈ g.out, e.Ph ≠ "M" → pidSeen g e.PID = true
  ev_proc : ∀ e ∈ g.out, ∀ n, isProcessName n e →
    ∃ id, GoMap.get g.tids (sprintfTidKey 0 n) = some id
  proc_decl : ∀ n id, GoMap.get g.tids (sprintfTidKey 0 n) = some id →
    pidSeen g id = true ∧ ProcDecl g.out n id
  thread_decl : ∀ p n id, GoMap.get g.tids (sprintfTidKey p n) = some id →
    ThreadDecl g.out p n id
  paired : ∀ pid tid, pairing none (track g.out pid tid) = some (GoMap.get ip (sprintfKey pid tid))
  ip_nodup : (ip.map Prod.fst).Nodup
  count_eq : countPh "B" g.out = countPh "E" g.out + ip.length

/-- Invariant of the state of `main` between lines and at a stop. -/
structure RunInv (s : Run) : Prop where
  inv : Inv s.g s.inProgress
  pid1_seen : pidSeen s.g s.pid1 = true

/-- The generator `g2` is a later stage of `g`: the registry has kept what it
held and the output has only grown, the added events being `ms`. -/
structure Ext (g g2 : traceEventsGenerator) (ms : List traceEvent) : Prop where
  tids_mono : ∀ k v, GoMap.get g.tids k = some v → GoMap.get g2.tids k = some v
  pids_mono : ∀ id, pidSeen g id = true → pidSeen g2 id = true
  count_mono : g.tidsCount ≤ g2.tidsCount
  out_eq : g2.out = g.out ++ ms

/-- The event an interval is closed with (lines 165 to 172 and 195 to 202). -/
def endEvent (previous : String) (pid tid timestamp : Int) : traceEvent :=
  { Name := previous, Cat := "", Ph := "E", PID := pid, TID := tid,
    TS := Int.tdiv timestamp 1000 }

/-- The event a record ends with (lines 212 to 228). -/
def finalEvent (pid tid : Int) (phase msg : String) (timestamp duration : Int) : traceEvent :=
  { Name := msg, Cat := "", Ph := phase, PID := pid, TID := if tid = 0 then pid else tid,
    TS := Int.tdiv timestamp 1000,
    Dur := Int.tdiv (if duration < Second then Second else duration) 1000 }

/-- What every iteration keeps: the invariant, the default process of the
run, and what the registry and the output already held. -/
def StepOk (s : Run) (o : Outcome) : Prop :=
  RunInv o.state ∧ o.state.pid1 = s.pid1 ∧ ∃ ms, Ext s.g o.state.g ms

/-- A table standing for the two library parsers on the inputs of the
examples: two timestamps of 1 January 2021 (UTC) and a few durations. -/
def exampleStdlib : Stdlib :=
  { timeParse := fun s =>
      if s = "2021 Jan 01 00:00:00.000" then some 1609459200000000000
      else if s = "2021 Jan 01 00:00:10.000" then some 1609459210000000000
      else if s = "2021 Jan 01 00:01:00.000" then some 1609459260000000000
      else none
    ParseDuration := fun s =>
      if s = "5s" then some 5000000000
      else if s = "0s" then some 0
      else if s = "300ms" then some 300000000
      else if s = "-2s" then some (-2000000000)
      else none }

/-- The output of `g2` is that of `g` followed by metadata and end events only. -/
def Grows (g g2 : traceEventsGenerator) : Prop :=
  ∃ ms, g2.out = g.out ++ ms ∧ ∀ e ∈ ms, e.Ph = "M" ∨ e.Ph = "E"

/-- Shape of the output of an accepted record: metadata and end events, then
the final event of lines 220 to 228 with phase `X` or `B`. -/
def Shape (s : Run) (ts d : Int) (o : Outcome) : Prop :=
  ∀ s2, o = .ok s2 → ∃ pre pid tid phase name,
    s2.g.out = s.g.out ++ pre ++ [finalEvent pid tid phase name ts d] ∧
    (∀ e ∈ pre, e.Ph = "M" ∨ e.Ph = "E") ∧ (phase = "X" ∨ phase = "B")

/-- What `translate` does with a record of operator `op`, condition `cond`
and status `st` (lines 157 to 179, then 212 to 228). -/
def operatorRecord (s : Run) (ts d : Int) (op cond st msg : String) : Outcome :=
  let r := GetPID s.g op
  let r1 := GetTID r.1 r.2 cond
  let key := sprintfKey r.2 r1.2
  let c := closePrevious r1.1 s.inProgress key r.2 r1.2 ts
  if isAbnormal cond st then finish s c.1 (GoMap.set c.2 key msg) r.2 r1.2 "B" msg ts d
  else finish s c.1 c.2 r.2 r1.2 "X" msg ts d

/-! ## The classification of a record, as data -/

/-- The exits of the prefix chain of lines 144 to 211, with the tokens each
one uses. -/
inductive Rule where
  | e2eNamespace
  | nsNoRest (ns : String)
  | nsPod (ns pod : String)
  | nsPlain (ns : String)
  | node (name : String)
  | opNoRest (op : String)
  | opNoStatus (op cond : String)
  | opCondition (op cond status : String)
  | opPlain (op : String)
  | e2eStart (test : String)
  | e2eFinish (test : String)
  | e2ePlain
  | other
  deriving DecidableEq, Repr

/-- The exit the conditions of lines 144 to 211 select for a message. -/
def classify (msg : String) : Rule :=
  let parts := SplitN msg
  if HasPrefix parts.1 "ns/e2e-" then .e2eNamespace
  else if HasPrefix parts.1 "ns/" then
    match parts.2 with
    | none => .nsNoRest parts.1
    | some rest =>
      if HasPrefix (SplitN rest).1 "pod/" then .nsPod parts.1 (SplitN rest).1
      else .nsPlain parts.1
  else if HasPrefix parts.1 "node/" then .node parts.1
  else if HasPrefix parts.1 "clusteroperator/" then
    match parts.2 with
    | none => .opNoRest parts.1
    | some rest =>
      if HasPrefix (SplitN rest).1 "condition/" then
        match (SplitN rest).2 with
        | none => .opNoStatus parts.1 (SplitN rest).1
        | some status => .opCondition parts.1 (SplitN rest).1 status
      else .opPlain parts.1
  else if HasPrefix parts.1 "e2e-test/" then
    if HasSuffix msg " started" then .e2eStart (TrimSuffix msg " started")
    else
      match Index msg " finishedStatus/" with
      | some idx => .e2eFinish (sliceTo msg idx)
      | none => .e2ePlain
  else .other

/-- A record that only resolves the process `name` (no thread, no interval). -/
def plainRecord (s : Run) (ts d : Int) (msg name : String) : Outcome :=
  finish s (GetPID s.g name).1 s.inProgress (GetPID s.g name).2 0 "X" msg ts d

/-- What `translate` does with an e2e-test record keyed by `test`
(lines 181 to 211, then 212 to 228). -/
def e2eRecord (s : Run) (ts d : Int) (msg test : String) (started : Bool) : Outcome :=
  let r := GetPID s.g "e2e-test/*"
  let r1 := GetTID r.1 r.2 test
  if r1.2 ≠ 0 then
    let key := sprintfKey r.2 r1.2
    let c := closePrevious r1.1 s.inProgress key r.2 r1.2 ts
    if started then finish s c.1 (GoMap.set c.2 key test) r.2 r1.2 "B" test ts d
    else finish s c.1 c.2 r.2 r1.2 "X" msg ts d
  else finish s r1.1 s.inProgress r.2 r1.2 "X" msg ts d

/-- What `translate` does on each exit of the prefix chain. -/
def applyRule (s : Run) (ts d : Int) (msg : String) : Rule → Outcome
  | .e2eNamespace => plainRecord s ts d msg "ns/e2e-*"
  | .nsNoRest ns => .panic { s with g := (GetPID s.g ns).1 }
  | .nsPod ns pod =>
    finish s (GetTID (GetPID s.g ns).1 (GetPID s.g ns).2 pod).1 s.inProgress (GetPID s.g ns).2
      (GetTID (GetPID s.g ns).1 (GetPID s.g ns).2 pod).2 "X" msg ts d
  | .nsPlain ns => plainRecord s ts d msg ns
  | .node name => plainRecord s ts d msg name
  | .opNoRest op => .panic { s with g := (GetPID s.g op).1 }
  | .opNoStatus op cond =>
    .panic { s with
      g := (closePrevious (GetTID (GetPID s.g op).1 (GetPID s.g op).2 cond).1 s.inProgress
        (sprintfKey (GetPID s.g op).2 (GetTID (GetPID s.g op).1 (GetPID s.g op).2 cond).2)
        (GetPID s.g op).2 (GetTID (GetPID s.g op).1 (GetPID s.g op).2 cond).2 ts).1,
      inProgress :=
        (closePrevious (GetTID (GetPID s.g op).1 (GetPID s.g op).2 cond).1 s.inProgress
        (sprintfKey (GetPID s.g op).2 (GetTID (GetPID s.g op).1 (GetPID s.g op).2 cond).2)
        (GetPID s.g op).2 (GetTID (GetPID s.g op).1 (GetPID s.g op).2 cond).2 ts).2 }
  | .opCondition op cond status => operatorRecord s ts d op cond status msg
  | .opPlain op => plainRecord s ts d msg op
  | .e2eStart test => e2eRecord s ts d msg test true
  | .e2eFinish test => e2eRecord s ts d msg test false
  | .e2ePlain => plainRecord s ts d msg "e2e-test/*"
  | .other => finish s s.g s.inProgress s.pid1 0 "X" msg ts d

/-- Whether the exit runs the interval logic of lines 163 to 178 or 192 to 210. -/
def Rule.usesInterval : Rule → Bool
  | .opNoStatus _ _ => true
  | .opCondition _ _ _ => true
  | .e2eStart _ => true
  | .e2eFinish _ => true
  | _ => false

/-- Whether the exit is an index error. -/
def Rule.panics : Rule → Bool
  | .nsNoRest _ => true
  | .opNoRest _ => true
  | .opNoStatus _ _ => true
  | _ => false

/-- Whether an outcome is an index error. -/
def Outcome.isPanic : Outcome → Bool
  | .panic _ => true
  | _ => false

/-- Whether an outcome is a `log.Fatal`. -/
def Outcome.isFatal : Outcome → Bool
  | .fatal _ => true
  | _ => false

/-- The events of a list that are not metadata. -/
def nonMeta (l : List traceEvent) : List traceEvent :=
  l.filter (fun e => decide (e.Ph ≠ "M"))

/-- Whether a message reaches the interval logic: an operator record whose
second token has the prefix `condition/`, or an e2e-test record that ends in
` started` or holds ` finishedStatus/` (lines 160 and 184 to 192). -/
def usesIntervalLogic (msg : String) : Bool :=
  (HasPrefix (SplitN msg).1 "clusteroperator/" &&
    (match (SplitN msg).2 with
     | some rest => HasPrefix (SplitN rest).1 "condition/"
     | none => false)) ||
  (HasPrefix (SplitN msg).1 "e2e-test/" &&
    (HasSuffix msg " started" || (Index msg " finishedStatus/").isSome))

/-! ## Decimal rendering and the two map keys -/


theorem toDigitsCore_acc (fuel n : Nat) (ds : List Char) :
    Nat.toDigitsCore 10 fuel n ds = Nat.toDigitsCore 10 fuel n [] ++ ds := by
  induction fuel generalizing n ds with
  | zero => simp [Nat.toDigitsCore]
  | succ f ih =>
    simp only [Nat.toDigitsCore]
    split
    · simp
    · rw [ih (n / 10) (Nat.digitChar (n % 10) :: ds), ih (n / 10) [Nat.digitChar (n % 10)]]
      simp

theorem toDigitsCore_step (fuel n : Nat) :
    Nat.toDigitsCore 10 (fuel + 1) n [] =
      (if n / 10 = 0 then [] else Nat.toDigitsCore 10 fuel (n / 10) []) ++
        [Nat.digitChar (n % 10)] := by
  simp only [Nat.toDigitsCore]
  split
  · simp
  · rw [toDigitsCore_acc]

theorem toDigitsCore_fuel (n : Nat) : ∀ f1 f2 : Nat, n < f1 → n < f2 →
    Nat.toDigitsCore 10 f1 n [] = Nat.toDigitsCore 10 f2 n [] := by
  induction n using Nat.strong_induction_on with
  | _ n ih =>
    intro f1 f2 h1 h2
    obtain ⟨g1, rfl⟩ : ∃ g, f1 = g + 1 := ⟨f1 - 1, by omega⟩
    obtain ⟨g2, rfl⟩ : ∃ g, f2 = g + 1 := ⟨f2 - 1, by omega⟩
    rw [toDigitsCore_step, toDigitsCore_step]
    by_cases h : n / 10 = 0
    · simp [h]
    · simp only [h, if_false]
      rw [ih (n / 10) (by omega) g1 g2 (by omega) (by omega)]

theorem toDigits_step (n : Nat) :
    Nat.toDigits 10 n =
      (if n / 10 = 0 then [] else Nat.toDigits 10 (n / 10)) ++ [Nat.digitChar (n % 10)] := by
  unfold Nat.toDigits
  rw [toDigitsCore_step]
  by_cases h : n / 10 = 0
  · simp [h]
  · simp only [h, if_false]
    rw [toDigitsCore_fuel (n / 10) n (n / 10 + 1) (by omega) (by omega)]

theorem toDigits_ne_nil (n : Nat) : Nat.toDigits 10 n ≠ [] := by
  rw [toDigits_step]; simp

theorem digitChar_isDigit : ∀ d : Nat, d < 10 → (Nat.digitChar d).isDigit = true := by
  decide

theorem digitChar_inj : ∀ a : Nat, a < 10 → ∀ b : Nat, b < 10 →
    Nat.digitChar a = Nat.digitChar b → a = b := by
  decide

theorem toDigits_isDigit (n : Nat) : ∀ c ∈ Nat.toDigits 10 n, c.isDigit = true := by
  induction n using Nat.strong_induction_on with
  | _ n ih =>
    intro c hc
    rw [toDigits_step] at hc
    rcases List.mem_append.1 hc with h | h
    · by_cases h0 : n / 10 = 0
      · simp [h0] at h
      · simp only [h0, if_false] at h
        exact ih (n / 10) (by omega) c h
    · simp at h
      subst h
      exact digitChar_isDigit _ (Nat.mod_lt _ (by decide))

theorem toDigits_inj : ∀ n m : Nat, Nat.toDigits 10 n = Nat.toDigits 10 m → n = m := by
  intro n
  induction n using Nat.strong_induction_on with
  | _ n ih =>
    intro m h
    rw [toDigits_step n, toDigits_step m] at h
    obtain ⟨h1, h2⟩ := List.append_inj' h rfl
    have hd : n % 10 = m % 10 :=
      digitChar_inj _ (Nat.mod_lt _ (by decide)) _ (Nat.mod_lt _ (by decide)) (by simpa using h2)
    have hq : n / 10 = m / 10 := by
      by_cases hn : n / 10 = 0
      · by_cases hm : m / 10 = 0
        · omega
        · simp only [hn, hm, if_true, if_false] at h1
          exact absurd h1.symm (toDigits_ne_nil _)
      · by_cases hm : m / 10 = 0
        · simp only [hn, hm, if_true, if_false] at h1
          exact absurd h1 (toDigits_ne_nil _)
        · simp only [hn, hm, if_false] at h1
          exact ih (n / 10) (by omega) (m / 10) h1
    omega



theorem toString_int_data (i : Int) :
    (toString i).data =
      match i with
      | Int.ofNat m => Nat.toDigits 10 m
      | Int.negSucc m => '-' :: Nat.toDigits 10 (m + 1) := by
  cases i <;> rfl

theorem toString_int_chars (i : Int) :
    ∀ c ∈ (toString i).data, c.isDigit = true ∨ c = '-' := by
  intro c hc
  rw [toString_int_data] at hc
  cases i with
  | ofNat m => exact Or.inl (toDigits_isDigit m c hc)
  | negSucc m =>
    rcases List.mem_cons.1 hc with h | h
    · exact Or.inr h
    · exact Or.inl (toDigits_isDigit _ c h)

theorem toString_int_inj (a b : Int) (h : toString a = toString b) : a = b := by
  have hd : (toString a).data = (toString b).data := by rw [h]
  rw [toString_int_data, toString_int_data] at hd
  cases a with
  | ofNat m =>
    cases b with
    | ofNat k => simp only at hd; rw [toDigits_inj m k hd]
    | negSucc k =>
      simp only at hd
      have := toDigits_isDigit m '-' (by rw [hd]; simp)
      exact absurd this (by decide)
  | negSucc m =>
    cases b with
    | ofNat k =>
      simp only at hd
      have := toDigits_isDigit k '-' (by rw [← hd]; simp)
      exact absurd this (by decide)
    | negSucc k =>
      simp only [List.cons.injEq, true_and] at hd
      have := toDigits_inj _ _ hd
      simp only [Nat.add_right_cancel_iff] at this
      rw [this]

theorem append_cons_split {c : Char} :
    ∀ (l1 l2 r1 r2 : List Char), c ∉ l1 → c ∉ l2 →
      l1 ++ c :: r1 = l2 ++ c :: r2 → l1 = l2 ∧ r1 = r2 := by
  intro l1
  induction l1 with
  | nil =>
    intro l2 r1 r2 _ h2 h
    cases l2 with
    | nil => simpa using h
    | cons d t =>
      simp only [List.nil_append, List.cons_append, List.cons.injEq] at h
      exact absurd (by rw [h.1]; simp) h2
  | cons a t ih =>
    intro l2 r1 r2 h1 h2 h
    cases l2 with
    | nil =>
      simp only [List.nil_append, List.cons_append, List.cons.injEq] at h
      exact absurd (by rw [← h.1]; simp) h1
    | cons d t2 =>
      simp only [List.cons_append, List.cons.injEq] at h
      obtain ⟨e1, e2⟩ := ih t2 r1 r2 (fun hc => h1 (List.mem_cons_of_mem _ hc))
        (fun hc => h2 (List.mem_cons_of_mem _ hc)) h.2
      exact ⟨by rw [h.1, e1], e2⟩

theorem colon_not_mem (i : Int) : ':' ∉ (toString i).data := by
  intro h
  rcases toString_int_chars i _ h with h | h
  · exact absurd h (by decide)
  · exact absurd h (by decide)

theorem paren_not_mem (i : Int) : ')' ∉ (toString i).data := by
  intro h
  rcases toString_int_chars i _ h with h | h
  · exact absurd h (by decide)
  · exact absurd h (by decide)

theorem sprintfTidKey_inj (p1 p2 : Int) (n1 n2 : String)
    (h : sprintfTidKey p1 n1 = sprintfTidKey p2 n2) : p1 = p2 ∧ n1 = n2 := by
  have hd : (sprintfTidKey p1 n1).data = (sprintfTidKey p2 n2).data := by rw [h]
  simp only [sprintfTidKey, String.data_append] at hd
  rw [List.append_assoc, List.append_assoc] at hd
  obtain ⟨e1, e2⟩ := append_cons_split _ _ _ _ (colon_not_mem p1) (colon_not_mem p2) hd
  exact ⟨toString_int_inj _ _ (String.ext e1), String.ext e2⟩

theorem sprintfKey_inj (p1 t1 p2 t2 : Int)
    (h : sprintfKey p1 t1 = sprintfKey p2 t2) : p1 = p2 ∧ t1 = t2 := by
  have hd : (sprintfKey p1 t1).data = (sprintfKey p2 t2).data := by rw [h]
  simp only [sprintfKey, String.data_append] at hd
  simp only [List.append_assoc, List.cons_append, List.nil_append, List.cons.injEq, true_and] at hd
  obtain ⟨e1, e2⟩ := append_cons_split _ _ _ _ (paren_not_mem p1) (paren_not_mem p2) hd
  simp only [List.cons.injEq, true_and] at e2
  obtain ⟨e3, _⟩ := append_cons_split _ _ _ _ (paren_not_mem t1) (paren_not_mem t2) e2
  exact ⟨toString_int_inj _ _ (String.ext e1), toString_int_inj _ _ (String.ext e3)⟩


/-! ## Go maps and strings: basic facts -/

namespace GoMap

variable {κ ν : Type} [DecidableEq κ]

theorem delete_cons_same (m : List (κ × ν)) (k : κ) (v : ν) :
    delete ((k, v) :: m) k = delete m k := by
  simp [delete, List.filter_cons]

theorem delete_cons_other (m : List (κ × ν)) (k k1 : κ) (v : ν) (h : k1 ≠ k) :
    delete ((k1, v) :: m) k = (k1, v) :: delete m k := by
  simp [delete, List.filter_cons, h]

theorem get_cons_same (m : List (κ × ν)) (k : κ) (v : ν) : get ((k, v) :: m) k = some v := by
  simp [get]

theorem get_cons_other (m : List (κ × ν)) (k k1 : κ) (v : ν) (h : k1 ≠ k) :
    get ((k1, v) :: m) k = get m k := by
  simp [get, h]

theorem get_delete_same (m : List (κ × ν)) (k : κ) : get (delete m k) k = none := by
  induction m with
  | nil => rfl
  | cons p m ih =>
    obtain ⟨k1, v⟩ := p
    by_cases h : k1 = k
    · subst h; rw [delete_cons_same]; exact ih
    · rw [delete_cons_other m k k1 v h, get_cons_other _ _ _ _ h]; exact ih

theorem get_delete_other (m : List (κ × ν)) (k k2 : κ) (hk : k2 ≠ k) :
    get (delete m k) k2 = get m k2 := by
  induction m with
  | nil => rfl
  | cons p m ih =>
    obtain ⟨k1, v⟩ := p
    by_cases h : k1 = k
    · subst h
      rw [delete_cons_same, get_cons_other _ _ _ _ (Ne.symm hk)]; exact ih
    · rw [delete_cons_other m k k1 v h]
      by_cases h3 : k1 = k2
      · subst h3; rw [get_cons_same, get_cons_same]
      · rw [get_cons_other _ _ _ _ h3, get_cons_other _ _ _ _ h3]; exact ih

theorem get_set_same (m : List (κ × ν)) (k : κ) (v : ν) : get (set m k v) k = some v :=
  get_cons_same _ _ _

theorem get_set_other (m : List (κ × ν)) (k k2 : κ) (v : ν) (hk : k2 ≠ k) :
    get (set m k v) k2 = get m k2 := by
  unfold set
  rw [get_cons_other _ _ _ _ (Ne.symm hk), get_delete_other m k k2 hk]

theorem delete_of_get_none (m : List (κ × ν)) (k : κ) (h : get m k = none) :
    delete m k = m := by
  induction m with
  | nil => rfl
  | cons p m ih =>
    obtain ⟨k1, v⟩ := p
    by_cases h1 : k1 = k
    · subst h1; rw [get_cons_same] at h; cases h
    · rw [get_cons_other _ _ _ _ h1] at h
      rw [delete_cons_other m k k1 v h1, ih h]

theorem mem_keys_of_get (m : List (κ × ν)) (k : κ) (v : ν) (h : get m k = some v) :
    k ∈ m.map Prod.fst := by
  induction m with
  | nil => simp [get] at h
  | cons p m ih =>
    obtain ⟨k1, v1⟩ := p
    by_cases h1 : k1 = k
    · simp [h1]
    · simp only [get, h1, if_false] at h
      simp [ih h]

theorem get_none_of_not_mem (m : List (κ × ν)) (k : κ) (h : k ∉ m.map Prod.fst) :
    get m k = none := by
  cases hg : get m k with
  | none => rfl
  | some v => exact absurd (mem_keys_of_get m k v hg) h

theorem keys_delete_sublist (m : List (κ × ν)) (k : κ) :
    ((delete m k).map Prod.fst).Sublist (m.map Prod.fst) :=
  (List.filter_sublist m).map Prod.fst

theorem nodup_delete (m : List (κ × ν)) (k : κ) (h : (m.map Prod.fst).Nodup) :
    ((delete m k).map Prod.fst).Nodup :=
  h.sublist (keys_delete_sublist m k)

theorem not_mem_keys_delete (m : List (κ × ν)) (k : κ) : k ∉ (delete m k).map Prod.fst := by
  intro h
  obtain ⟨p, hp, rfl⟩ := List.mem_map.1 h
  simp [delete] at hp

theorem nodup_set (m : List (κ × ν)) (k : κ) (v : ν) (h : (m.map Prod.fst).Nodup) :
    ((set m k v).map Prod.fst).Nodup := by
  simp only [set, List.map_cons, List.nodup_cons]
  exact ⟨not_mem_keys_delete m k, nodup_delete m k h⟩

theorem length_delete (m : List (κ × ν)) (k : κ) (v : ν) (hn : (m.map Prod.fst).Nodup)
    (h : get m k = some v) : (delete m k).length + 1 = m.length := by
  induction m with
  | nil => simp [get] at h
  | cons p m ih =>
    obtain ⟨k1, v1⟩ := p
    simp only [List.map_cons, List.nodup_cons] at hn
    by_cases h1 : k1 = k
    · subst h1
      have hg : get m k1 = none := get_none_of_not_mem m k1 hn.1
      rw [delete_cons_same, delete_of_get_none m k1 hg]; rfl
    · rw [get_cons_other _ _ _ _ h1] at h
      rw [delete_cons_other m k k1 v1 h1, List.length_cons, ih hn.2 h, List.length_cons]

end GoMap

theorem HasPrefix_iff (s p : String) : HasPrefix s p = true ↔ ∃ t : String, s = p ++ t := by
  simp only [HasPrefix, List.isPrefixOf_iff_prefix]
  constructor
  · rintro ⟨t, ht⟩
    exact ⟨⟨t⟩, String.ext (by simp [String.data_append, ht])⟩
  · rintro ⟨t, rfl⟩
    exact ⟨t.data, by simp [String.data_append]⟩

theorem HasPrefix_append (p t : String) : HasPrefix (p ++ t) p = true :=
  (HasPrefix_iff _ _).2 ⟨t, rfl⟩

/-! ## The registry -/

theorem GetTID_hit (g : traceEventsGenerator) (p : Int) (n : String) (id : Int)
    (h : GoMap.get g.tids (sprintfTidKey p n) = some id) : GetTID g p n = (g, id) := by
  simp [GetTID, h]

theorem GetTID_miss (g : traceEventsGenerator) (p : Int) (n : String)
    (h : GoMap.get g.tids (sprintfTidKey p n) = none) :
    GetTID g p n = (allocThread g p n, g.tidsCount + 1) := by
  simp [GetTID, h, allocThread, threadEvent]

theorem allocThread_tids (g : traceEventsGenerator) (p : Int) (n : String) :
    (allocThread g p n).tids = GoMap.set g.tids (sprintfTidKey p n) (g.tidsCount + 1) := rfl

theorem allocThread_count (g : traceEventsGenerator) (p : Int) (n : String) :
    (allocThread g p n).tidsCount = g.tidsCount + 1 := rfl

theorem allocThread_out (g : traceEventsGenerator) (p : Int) (n : String) :
    (allocThread g p n).out =
      g.out ++ [threadEvent (if p = 0 then g.tidsCount + 1 else p) (g.tidsCount + 1) n] := rfl

theorem allocThread_pids (g : traceEventsGenerator) (p : Int) (n : String) :
    (allocThread g p n).pids = g.pids := rfl

theorem RegInv_allocThread (g : traceEventsGenerator) (p : Int) (n : String)
    (hg : RegInv g) : RegInv (allocThread g p n) := by
  have h0 := hg.count_nonneg
  refine ⟨?_, ?_, ?_⟩
  · rw [allocThread_count]; omega
  · intro k v hk
    rw [allocThread_tids] at hk
    rw [allocThread_count]
    by_cases e : k = sprintfTidKey p n
    · subst e
      rw [GoMap.get_set_same] at hk
      cases hk; omega
    · rw [GoMap.get_set_other _ _ _ _ e] at hk
      have := hg.tids_range k v hk
      omega
  · intro k1 k2 v h1 h2
    rw [allocThread_tids] at h1 h2
    by_cases e1 : k1 = sprintfTidKey p n
    · by_cases e2 : k2 = sprintfTidKey p n
      · rw [e1, e2]
      · subst e1
        rw [GoMap.get_set_same] at h1
        rw [GoMap.get_set_other _ _ _ _ e2] at h2
        cases h1
        have := hg.tids_range k2 _ h2
        omega
    · by_cases e2 : k2 = sprintfTidKey p n
      · subst e2
        rw [GoMap.get_set_same] at h2
        rw [GoMap.get_set_other _ _ _ _ e1] at h1
        cases h2
        have := hg.tids_range k1 _ h1
        omega
      · rw [GoMap.get_set_other _ _ _ _ e1] at h1
        rw [GoMap.get_set_other _ _ _ _ e2] at h2
        exact hg.tids_inj k1 k2 v h1 h2

theorem GetTID_cases (g : traceEventsGenerator) (p : Int) (n : String) :
    (∃ id, GoMap.get g.tids (sprintfTidKey p n) = some id ∧ GetTID g p n = (g, id)) ∨
    (GoMap.get g.tids (sprintfTidKey p n) = none ∧
      GetTID g p n = (allocThread g p n, g.tidsCount + 1)) := by
  cases h : GoMap.get g.tids (sprintfTidKey p n) with
  | none => exact Or.inr ⟨rfl, GetTID_miss g p n h⟩
  | some id => exact Or.inl ⟨id, rfl, GetTID_hit g p n id h⟩

theorem RegInv_GetTID (g : traceEventsGenerator) (p : Int) (n : String) (hg : RegInv g) :
    RegInv (GetTID g p n).1 := by
  rcases GetTID_cases g p n with ⟨id, _, e⟩ | ⟨h, e⟩
  · rw [e]; exact hg
  · rw [e]; exact RegInv_allocThread g p n hg

theorem GetTID_stored (g : traceEventsGenerator) (p : Int) (n : String) :
    GoMap.get (GetTID g p n).1.tids (sprintfTidKey p n) = some (GetTID g p n).2 := by
  rcases GetTID_cases g p n with ⟨id, h, e⟩ | ⟨_, e⟩
  · rw [e]; exact h
  · rw [e]; exact GoMap.get_set_same _ _ _

theorem GetTID_mono (g : traceEventsGenerator) (p : Int) (n : String) (k : String) (v : Int)
    (hk : GoMap.get g.tids k = some v) : GoMap.get (GetTID g p n).1.tids k = some v := by
  rcases GetTID_cases g p n with ⟨id, _, e⟩ | ⟨h, e⟩
  · rw [e]; exact hk
  · rw [e]
    show GoMap.get (allocThread g p n).tids k = some v
    rw [allocThread_tids, GoMap.get_set_other _ _ _ _ (fun e => by rw [e, h] at hk; cases hk)]
    exact hk

theorem GetPID_tids (g : traceEventsGenerator) (n : String) :
    (GetPID g n).1.tids = (GetTID g 0 n).1.tids ∧
    (GetPID g n).1.tidsCount = (GetTID g 0 n).1.tidsCount ∧
    (GetPID g n).2 = (GetTID g 0 n).2 := by
  unfold GetPID
  simp only
  split <;> exact ⟨rfl, rfl, rfl⟩

theorem RegInv_GetPID (g : traceEventsGenerator) (n : String) (hg : RegInv g) :
    RegInv (GetPID g n).1 := by
  have h := RegInv_GetTID g 0 n hg
  obtain ⟨e1, e2, _⟩ := GetPID_tids g n
  exact ⟨by rw [e2]; exact h.count_nonneg,
    by rw [e1, e2]; exact h.tids_range,
    by rw [e1]; exact h.tids_inj⟩

theorem GetPID_mono (g : traceEventsGenerator) (n : String) (k : String) (v : Int)
    (hk : GoMap.get g.tids k = some v) : GoMap.get (GetPID g n).1.tids k = some v := by
  rw [(GetPID_tids g n).1]; exact GetTID_mono g 0 n k v hk

theorem RegInv_new : RegInv newTraceEventsGenerator :=
  ⟨le_refl _, fun _ _ h => by simp [newTraceEventsGenerator, GoMap.get] at h,
    fun _ _ _ h => by simp [newTraceEventsGenerator, GoMap.get] at h⟩

theorem RegInv_regRun (calls : List RegCall) :
    ∀ g : traceEventsGenerator, RegInv g → RegInv (regRun g calls) := by
  induction calls with
  | nil => intro g hg; exact hg
  | cons c cs ih =>
    intro g hg
    show RegInv (regRun (regStep g c) cs)
    apply ih
    cases c with
    | getTID p n => exact RegInv_GetTID g p n hg
    | getPID n => exact RegInv_GetPID g n hg

theorem regRun_mono (calls : List RegCall) :
    ∀ (g : traceEventsGenerator) (k : String) (v : Int),
      GoMap.get g.tids k = some v → GoMap.get (regRun g calls).tids k = some v := by
  induction calls with
  | nil => intro g k v h; exact h
  | cons c cs ih =>
    intro g k v h
    show GoMap.get (regRun (regStep g c) cs).tids k = some v
    apply ih
    cases c with
    | getTID p n => exact GetTID_mono g p n k v h
    | getPID n => exact GetPID_mono g n k v h

/-! ## Appending an event to the output -/

theorem pairing_append (l1 l2 : List traceEvent) :
    ∀ st, pairing st (l1 ++ l2) = (pairing st l1).bind (fun st1 => pairing st1 l2) := by
  induction l1 with
  | nil => intro st; rfl
  | cons e es ih =>
    intro st
    simp only [List.cons_append, pairing]
    cases pairStep st e with
    | none => rfl
    | some st1 => simpa using ih st1

theorem track_append (out : List traceEvent) (e : traceEvent) (pid tid : Int) :
    track (out ++ [e]) pid tid =
      track out pid tid ++ (if isPairEvent pid tid e = true then [e] else []) := by
  simp only [track, List.filter_append, List.filter_cons, List.filter_nil]

theorem track_append_skip (out : List traceEvent) (e : traceEvent) (pid tid : Int)
    (h : isPairEvent pid tid e = false) : track (out ++ [e]) pid tid = track out pid tid := by
  rw [track_append, h]; simp

theorem isPairEvent_of_ph (e : traceEvent) (pid tid : Int)
    (hB : e.Ph ≠ "B") (hE : e.Ph ≠ "E") : isPairEvent pid tid e = false := by
  simp [isPairEvent, hB, hE]

theorem isPairEvent_of_ne (e : traceEvent) (pid tid : Int)
    (h : ¬ (e.PID = pid ∧ e.TID = tid)) : isPairEvent pid tid e = false := by
  simp only [isPairEvent, decide_eq_false_iff_not]
  exact fun hc => h hc.2

theorem countPh_append (ph : String) (out : List traceEvent) (e : traceEvent) :
    countPh ph (out ++ [e]) = countPh ph out + (if e.Ph = ph then 1 else 0) := by
  simp only [countPh, List.filter_append, List.length_append, List.filter_cons, List.filter_nil]
  by_cases h : e.Ph = ph <;> simp [h]

theorem ProcDecl_append (out : List traceEvent) (n : String) (id : Int) (e : traceEvent)
    (h : ProcDecl out n id) (he : ¬ isProcessName n e) : ProcDecl (out ++ [e]) n id := by
  obtain ⟨pre, post, e1, h1, h2, h3⟩ := h
  refine ⟨pre, post ++ [e], by rw [e1]; simp, h1, ?_, h3⟩
  intro x hx
  rcases List.mem_append.1 hx with hx | hx
  · exact h2 x hx
  · simp only [List.mem_singleton] at hx
    rw [hx]; exact he

theorem ThreadDecl_append (out : List traceEvent) (p : Int) (n : String) (id : Int)
    (e : traceEvent) (h : ThreadDecl out p n id) (he : ¬ isThreadName n id e) :
    ThreadDecl (out ++ [e]) p n id := by
  obtain ⟨pre, post, e1, h1, h2, h3⟩ := h
  refine ⟨pre, post ++ [e], by rw [e1]; simp, h1, ?_, h3⟩
  intro x hx
  rcases List.mem_append.1 hx with hx | hx
  · exact h2 x hx
  · simp only [List.mem_singleton] at hx
    rw [hx]; exact he

theorem Emit_out (g : traceEventsGenerator) (e : traceEvent) : (Emit g e).out = g.out ++ [e] :=
  rfl

/-- Appending an event that is not metadata keeps the invariant, once the
interval bookkeeping of the new output is settled. -/
theorem Inv_emit (g : traceEventsGenerator) (ip ip2 : List (String × String)) (e : traceEvent)
    (hI : Inv g ip) (hM : e.Ph ≠ "M") (hp : pidSeen g e.PID = true)
    (ht : 1 ≤ e.TID ∧ e.TID ≤ g.tidsCount)
    (hpair : ∀ pid tid,
      pairing none (track (g.out ++ [e]) pid tid) = some (GoMap.get ip2 (sprintfKey pid tid)))
    (hnd : (ip2.map Prod.fst).Nodup)
    (hcnt : countPh "B" (g.out ++ [e]) = countPh "E" (g.out ++ [e]) + ip2.length) :
    Inv (Emit g e) ip2 := by
  refine ⟨⟨hI.reg.count_nonneg, hI.reg.tids_range, hI.reg.tids_inj⟩, hI.pids_proc,
    ?_, ?_, ?_, ?_, ?_, hpair, hnd, hcnt⟩
  · intro x hx
    rcases List.mem_append.1 hx with hx | hx
    · exact hI.ev_tid x hx
    · simp only [List.mem_singleton] at hx
      rw [hx]; exact ht
  · intro x hx hxM
    rcases List.mem_append.1 hx with hx | hx
    · exact hI.ev_pid x hx hxM
    · simp only [List.mem_singleton] at hx
      rw [hx]; exact hp
  · intro x hx n hn
    rcases List.mem_append.1 hx with hx | hx
    · exact hI.ev_proc x hx n hn
    · simp only [List.mem_singleton] at hx
      rw [hx] at hn
      exact absurd hn.2.1 hM
  · intro n id h
    obtain ⟨h1, h2⟩ := hI.proc_decl n id h
    exact ⟨h1, ProcDecl_append _ _ _ _ h2 (fun hc => hM hc.2.1)⟩
  · intro p n id h
    exact ThreadDecl_append _ _ _ _ _ (hI.thread_decl p n id h) (fun hc => hM hc.2.1)

theorem Inv_emitX (g : traceEventsGenerator) (ip : List (String × String)) (e : traceEvent)
    (hI : Inv g ip) (hX : e.Ph = "X") (hp : pidSeen g e.PID = true)
    (ht : 1 ≤ e.TID ∧ e.TID ≤ g.tidsCount) : Inv (Emit g e) ip := by
  refine Inv_emit g ip ip e hI (by rw [hX]; decide) hp ht ?_ hI.ip_nodup ?_
  · intro pid tid
    rw [track_append_skip _ _ _ _
      (isPairEvent_of_ph e pid tid (by rw [hX]; decide) (by rw [hX]; decide))]
    exact hI.paired pid tid
  · rw [countPh_append, countPh_append, hX]
    simpa using hI.count_eq

theorem Inv_emitE (g : traceEventsGenerator) (ip : List (String × String)) (e : traceEvent)
    (hI : Inv g ip) (hE : e.Ph = "E") (hp : pidSeen g e.PID = true)
    (ht : 1 ≤ e.TID ∧ e.TID ≤ g.tidsCount)
    (hprev : GoMap.get ip (sprintfKey e.PID e.TID) = some e.Name) :
    Inv (Emit g e) (GoMap.delete ip (sprintfKey e.PID e.TID)) := by
  refine Inv_emit g ip _ e hI (by rw [hE]; decide) hp ht ?_ (GoMap.nodup_delete _ _ hI.ip_nodup) ?_
  · intro pid tid
    by_cases hk : e.PID = pid ∧ e.TID = tid
    · obtain ⟨rfl, rfl⟩ := hk
      have hpe : isPairEvent e.PID e.TID e = true := by simp [isPairEvent, hE]
      rw [track_append, hpe, if_pos rfl, pairing_append, hI.paired, hprev,
        GoMap.get_delete_same]
      simp [pairing, pairStep, hE]
    · rw [track_append_skip _ _ _ _ (isPairEvent_of_ne e pid tid hk), hI.paired,
        GoMap.get_delete_other]
      intro hc
      obtain ⟨h1, h2⟩ := sprintfKey_inj _ _ _ _ hc
      exact hk ⟨h1.symm, h2.symm⟩
  · rw [countPh_append, countPh_append, hE]
    have := GoMap.length_delete ip _ _ hI.ip_nodup hprev
    have := hI.count_eq
    simp
    omega

theorem Inv_emitB (g : traceEventsGenerator) (ip : List (String × String)) (e : traceEvent)
    (hI : Inv g ip) (hB : e.Ph = "B") (hp : pidSeen g e.PID = true)
    (ht : 1 ≤ e.TID ∧ e.TID ≤ g.tidsCount)
    (hprev : GoMap.get ip (sprintfKey e.PID e.TID) = none) :
    Inv (Emit g e) (GoMap.set ip (sprintfKey e.PID e.TID) e.Name) := by
  refine Inv_emit g ip _ e hI (by rw [hB]; decide) hp ht ?_ (GoMap.nodup_set _ _ _ hI.ip_nodup) ?_
  · intro pid tid
    by_cases hk : e.PID = pid ∧ e.TID = tid
    · obtain ⟨rfl, rfl⟩ := hk
      have hpe : isPairEvent e.PID e.TID e = true := by simp [isPairEvent, hB]
      rw [track_append, hpe, if_pos rfl, pairing_append, hI.paired, hprev,
        GoMap.get_set_same]
      simp [pairing, pairStep, hB]
    · rw [track_append_skip _ _ _ _ (isPairEvent_of_ne e pid tid hk), hI.paired,
        GoMap.get_set_other]
      intro hc
      obtain ⟨h1, h2⟩ := sprintfKey_inj _ _ _ _ hc
      exact hk ⟨h1.symm, h2.symm⟩
  · rw [countPh_append, countPh_append, hB]
    have hd := GoMap.delete_of_get_none ip _ hprev
    have := hI.count_eq
    simp [GoMap.set, hd]
    omega

/-! ## Allocation keeps the invariant -/

theorem track_threadEvent (out : List traceEvent) (a b : Int) (n : String) (pid tid : Int) :
    track (out ++ [threadEvent a b n]) pid tid = track out pid tid :=
  track_append_skip _ _ _ _
    (isPairEvent_of_ph _ _ _ (by simp [threadEvent]) (by simp [threadEvent]))

theorem track_procEvent (out : List traceEvent) (n : String) (a : Int) (pid tid : Int) :
    track (out ++ [procEvent n a]) pid tid = track out pid tid :=
  track_append_skip _ _ _ _
    (isPairEvent_of_ph _ _ _ (by simp [procEvent]) (by simp [procEvent]))

theorem not_isProcessName_threadEvent (n n2 : String) (a b : Int) :
    ¬ isProcessName n (threadEvent a b n2) := fun h => absurd h.1 (by simp [threadEvent])

theorem not_isThreadName_procEvent (n n2 : String) (a id : Int) :
    ¬ isThreadName n id (procEvent n2 a) := fun h => absurd h.1 (by simp [procEvent])

theorem not_isThreadName_of_tid (n : String) (id : Int) (e : traceEvent) (h : e.TID ≠ id) :
    ¬ isThreadName n id e := fun hc => h hc.2.2.2

theorem pidSeen_range (g : traceEventsGenerator) (ip : List (String × String)) (hI : Inv g ip)
    (id : Int) (h : pidSeen g id = true) : 1 ≤ id ∧ id ≤ g.tidsCount := by
  obtain ⟨n, hn⟩ := hI.pids_proc id h
  exact hI.reg.tids_range _ _ hn

theorem Inv_allocThread (g : traceEventsGenerator) (ip : List (String × String))
    (p : Int) (n : String) (hI : Inv g ip) (hp : p ≠ 0)
    (h : GoMap.get g.tids (sprintfTidKey p n) = none) : Inv (allocThread g p n) ip := by
  have hother : ∀ k v, GoMap.get g.tids k = some v →
      GoMap.get (allocThread g p n).tids k = some v := by
    intro k v hk
    rw [allocThread_tids, GoMap.get_set_other _ _ _ _ (fun e => by rw [e, h] at hk; cases hk)]
    exact hk
  have hkey0 : ∀ m, sprintfTidKey 0 m ≠ sprintfTidKey p n :=
    fun m e => hp (sprintfTidKey_inj _ _ _ _ e).1.symm
  refine ⟨RegInv_allocThread g p n hI.reg, ?_, ?_, ?_, ?_, ?_, ?_, ?_, hI.ip_nodup, ?_⟩
  · intro id hid
    obtain ⟨m, hm⟩ := hI.pids_proc id hid
    exact ⟨m, hother _ _ hm⟩
  · intro x hx
    rw [allocThread_out] at hx
    rw [allocThread_count]
    rcases List.mem_append.1 hx with hx | hx
    · have := hI.ev_tid x hx
      omega
    · simp only [List.mem_singleton] at hx
      have h0 := hI.reg.count_nonneg
      rw [hx]; simp only [threadEvent]; omega
  · intro x hx hxM
    rw [allocThread_out] at hx
    rcases List.mem_append.1 hx with hx | hx
    · exact hI.ev_pid x hx hxM
    · simp only [List.mem_singleton] at hx
      rw [hx] at hxM
      exact absurd rfl hxM
  · intro x hx m hm
    rw [allocThread_out] at hx
    rcases List.mem_append.1 hx with hx | hx
    · obtain ⟨id, hid⟩ := hI.ev_proc x hx m hm
      exact ⟨id, hother _ _ hid⟩
    · simp only [List.mem_singleton] at hx
      rw [hx] at hm
      exact absurd hm (not_isProcessName_threadEvent _ _ _ _)
  · intro m id hm
    rw [allocThread_tids, GoMap.get_set_other _ _ _ _ (hkey0 m)] at hm
    obtain ⟨h1, h2⟩ := hI.proc_decl m id hm
    exact ⟨h1, ProcDecl_append _ _ _ _ h2 (not_isProcessName_threadEvent _ _ _ _)⟩
  · intro q m id hm
    rw [allocThread_tids] at hm
    rw [allocThread_out]
    by_cases e : sprintfTidKey q m = sprintfTidKey p n
    · obtain ⟨rfl, rfl⟩ := sprintfTidKey_inj _ _ _ _ e
      rw [GoMap.get_set_same] at hm
      cases hm
      refine ⟨g.out, [], by simp [hp], ?_, by simp, ?_⟩
      · intro x hx
        have := hI.ev_tid x hx
        exact not_isThreadName_of_tid _ _ _ (by omega)
      · intro x hx _
        have := hI.ev_tid x hx
        omega
    · rw [GoMap.get_set_other _ _ _ _ e] at hm
      have := hI.reg.tids_range _ _ hm
      exact ThreadDecl_append _ _ _ _ _ (hI.thread_decl q m id hm)
        (not_isThreadName_of_tid _ _ _ (by simp only [threadEvent]; omega))
  · intro pid tid
    rw [allocThread_out, track_threadEvent]
    exact hI.paired pid tid
  · rw [allocThread_out, countPh_append, countPh_append]
    simpa [threadEvent] using hI.count_eq

theorem allocProc_tids (g : traceEventsGenerator) (n : String) :
    (allocProc g n).tids = GoMap.set g.tids (sprintfTidKey 0 n) (g.tidsCount + 1) := rfl

theorem allocProc_count (g : traceEventsGenerator) (n : String) :
    (allocProc g n).tidsCount = g.tidsCount + 1 := rfl

theorem allocProc_out (g : traceEventsGenerator) (n : String) :
    (allocProc g n).out =
      (g.out ++ [threadEvent (g.tidsCount + 1) (g.tidsCount + 1) n]) ++
        [procEvent n (g.tidsCount + 1)] := rfl

theorem pidSeen_allocProc (g : traceEventsGenerator) (n : String) (id : Int) :
    pidSeen (allocProc g n) id = if id = g.tidsCount + 1 then true else pidSeen g id := by
  by_cases e : id = g.tidsCount + 1
  · subst e
    simp [pidSeen, allocProc, GoMap.get_set_same]
  · simp only [pidSeen, allocProc, e, if_false]
    rw [GoMap.get_set_other _ _ _ _ e]

theorem pidSeen_allocProc_of (g : traceEventsGenerator) (n : String) (id : Int)
    (h : pidSeen g id = true) : pidSeen (allocProc g n) id = true := by
  rw [pidSeen_allocProc]; split <;> simp [h]

theorem Inv_allocProc (g : traceEventsGenerator) (ip : List (String × String))
    (n : String) (hI : Inv g ip)
    (h : GoMap.get g.tids (sprintfTidKey 0 n) = none) : Inv (allocProc g n) ip := by
  have h0 := hI.reg.count_nonneg
  have hother : ∀ k v, GoMap.get g.tids k = some v →
      GoMap.get (allocProc g n).tids k = some v := by
    intro k v hk
    rw [allocProc_tids, GoMap.get_set_other _ _ _ _ (fun e => by rw [e, h] at hk; cases hk)]
    exact hk
  have hreg := RegInv_allocThread g 0 n hI.reg
  have hmem : ∀ x ∈ (allocProc g n).out, x ∈ g.out ∨
      x = threadEvent (g.tidsCount + 1) (g.tidsCount + 1) n ∨
      x = procEvent n (g.tidsCount + 1) := by
    intro x hx
    rw [allocProc_out] at hx
    simpa [or_assoc] using hx
  refine ⟨⟨hreg.count_nonneg, hreg.tids_range, hreg.tids_inj⟩,
    ?_, ?_, ?_, ?_, ?_, ?_, ?_, hI.ip_nodup, ?_⟩
  · intro id hid
    rw [pidSeen_allocProc] at hid
    by_cases e : id = g.tidsCount + 1
    · exact ⟨n, by rw [allocProc_tids, e, GoMap.get_set_same]⟩
    · simp only [e, if_false] at hid
      obtain ⟨m, hm⟩ := hI.pids_proc id hid
      exact ⟨m, hother _ _ hm⟩
  · intro x hx
    rw [allocProc_count]
    rcases hmem x hx with hx | hx | hx
    · have := hI.ev_tid x hx
      omega
    · rw [hx]; simp only [threadEvent]; omega
    · rw [hx]; simp only [procEvent]; omega
  · intro x hx hxM
    rcases hmem x hx with hx | hx | hx
    · exact pidSeen_allocProc_of g n _ (hI.ev_pid x hx hxM)
    · rw [hx] at hxM; exact absurd rfl hxM
    · rw [hx] at hxM; exact absurd rfl hxM
  · intro x hx m hm
    rcases hmem x hx with hx | hx | hx
    · obtain ⟨id, hid⟩ := hI.ev_proc x hx m hm
      exact ⟨id, hother _ _ hid⟩
    · rw [hx] at hm
      exact absurd hm (not_isProcessName_threadEvent _ _ _ _)
    · rw [hx] at hm
      have e : n = m := by simpa [procEvent, GoMap.get] using hm.2.2
      subst e
      exact ⟨_, by rw [allocProc_tids, GoMap.get_set_same]⟩
  · intro m id hm
    rw [allocProc_tids] at hm
    rw [allocProc_out]
    by_cases e : m = n
    · subst e
      rw [GoMap.get_set_same] at hm
      cases hm
      refine ⟨by rw [pidSeen_allocProc]; simp, _, [], rfl, ?_, by simp, ?_⟩
      · intro x hx hc
        rcases List.mem_append.1 hx with hx | hx
        · obtain ⟨id, hid⟩ := hI.ev_proc x hx m hc
          rw [h] at hid; cases hid
        · simp only [List.mem_singleton] at hx
          rw [hx] at hc
          exact not_isProcessName_threadEvent _ _ _ _ hc
      · intro x hx hxM
        rcases List.mem_append.1 hx with hx | hx
        · have := pidSeen_range g ip hI _ (hI.ev_pid x hx hxM)
          omega
        · simp only [List.mem_singleton] at hx
          rw [hx] at hxM; exact absurd rfl hxM
    · have hk : sprintfTidKey 0 m ≠ sprintfTidKey 0 n :=
        fun hc => e (sprintfTidKey_inj _ _ _ _ hc).2
      rw [GoMap.get_set_other _ _ _ _ hk] at hm
      obtain ⟨h1, h2⟩ := hI.proc_decl m id hm
      refine ⟨pidSeen_allocProc_of g n _ h1, ?_⟩
      refine ProcDecl_append _ _ _ _
        (ProcDecl_append _ _ _ _ h2 (not_isProcessName_threadEvent _ _ _ _)) ?_
      intro hc
      have e2 : n = m := by simpa [procEvent, GoMap.get] using hc.2.2
      exact e e2.symm
  · intro q m id hm
    rw [allocProc_tids] at hm
    rw [allocProc_out]
    by_cases e : sprintfTidKey q m = sprintfTidKey 0 n
    · obtain ⟨rfl, rfl⟩ := sprintfTidKey_inj _ _ _ _ e
      rw [GoMap.get_set_same] at hm
      cases hm
      refine ⟨g.out, [procEvent m (g.tidsCount + 1)], by simp, ?_, ?_, ?_⟩
      · intro x hx
        have := hI.ev_tid x hx
        exact not_isThreadName_of_tid _ _ _ (by omega)
      · intro x hx
        simp only [List.mem_singleton] at hx
        rw [hx]; exact not_isThreadName_procEvent _ _ _ _
      · intro x hx _
        have := hI.ev_tid x hx
        omega
    · rw [GoMap.get_set_other _ _ _ _ e] at hm
      have := hI.reg.tids_range _ _ hm
      exact ThreadDecl_append _ _ _ _ _
        (ThreadDecl_append _ _ _ _ _ (hI.thread_decl q m id hm)
          (not_isThreadName_of_tid _ _ _ (by simp only [threadEvent]; omega)))
        (not_isThreadName_procEvent _ _ _ _)
  · intro pid tid
    rw [allocProc_out, track_procEvent, track_threadEvent]
    exact hI.paired pid tid
  · rw [allocProc_out, countPh_append, countPh_append, countPh_append, countPh_append]
    simpa [threadEvent, procEvent] using hI.count_eq

/-! ## The steps of the translator keep the invariant -/

theorem Ext_refl (g : traceEventsGenerator) : Ext g g [] :=
  ⟨fun _ _ h => h, fun _ h => h, le_refl _, by simp⟩

theorem Ext_trans (g1 g2 g3 : traceEventsGenerator) (m1 m2 : List traceEvent)
    (h1 : Ext g1 g2 m1) (h2 : Ext g2 g3 m2) : Ext g1 g3 (m1 ++ m2) :=
  ⟨fun k v h => h2.tids_mono k v (h1.tids_mono k v h),
    fun id h => h2.pids_mono id (h1.pids_mono id h),
    le_trans h1.count_mono h2.count_mono,
    by rw [h2.out_eq, h1.out_eq, List.append_assoc]⟩

theorem Ext_Emit (g : traceEventsGenerator) (e : traceEvent) : Ext g (Emit g e) [e] :=
  ⟨fun _ _ h => h, fun _ h => h, le_refl _, rfl⟩

theorem GetPID_cases (g : traceEventsGenerator) (ip : List (String × String)) (n : String)
    (hI : Inv g ip) :
    (∃ id, GoMap.get g.tids (sprintfTidKey 0 n) = some id ∧ GetPID g n = (g, id)) ∨
    (GoMap.get g.tids (sprintfTidKey 0 n) = none ∧
      GetPID g n = (allocProc g n, g.tidsCount + 1)) := by
  rcases GetTID_cases g 0 n with ⟨id, h, e⟩ | ⟨h, e⟩
  · refine Or.inl ⟨id, h, ?_⟩
    have hs := (hI.proc_decl n id h).1
    unfold GetPID
    simp only [e, hs, if_true]
  · refine Or.inr ⟨h, ?_⟩
    have hs : pidSeen (allocThread g 0 n) (g.tidsCount + 1) = false := by
      cases hc : pidSeen g (g.tidsCount + 1) with
      | false => exact hc
      | true =>
        have := pidSeen_range g ip hI _ hc
        omega
    unfold GetPID
    simp only [e, hs]
    rfl

theorem Ext_allocThread (g : traceEventsGenerator) (p : Int) (n : String)
    (h : GoMap.get g.tids (sprintfTidKey p n) = none) :
    Ext g (allocThread g p n)
      [threadEvent (if p = 0 then g.tidsCount + 1 else p) (g.tidsCount + 1) n] := by
  refine ⟨?_, fun _ hh => hh, by rw [allocThread_count]; omega, rfl⟩
  intro k v hk
  rw [allocThread_tids, GoMap.get_set_other _ _ _ _ (fun e => by rw [e, h] at hk; cases hk)]
  exact hk

theorem Ext_allocProc (g : traceEventsGenerator) (n : String)
    (h : GoMap.get g.tids (sprintfTidKey 0 n) = none) :
    Ext g (allocProc g n)
      [threadEvent (g.tidsCount + 1) (g.tidsCount + 1) n, procEvent n (g.tidsCount + 1)] := by
  refine ⟨?_, fun id hh => pidSeen_allocProc_of g n id hh, by rw [allocProc_count]; omega,
    by rw [allocProc_out]; simp⟩
  intro k v hk
  rw [allocProc_tids, GoMap.get_set_other _ _ _ _ (fun e => by rw [e, h] at hk; cases hk)]
  exact hk

/-- What a call of `GetPID` leaves behind. -/
theorem GetPID_spec (g : traceEventsGenerator) (ip : List (String × String)) (n : String)
    (hI : Inv g ip) :
    Inv (GetPID g n).1 ip ∧ pidSeen (GetPID g n).1 (GetPID g n).2 = true ∧
    GoMap.get (GetPID g n).1.tids (sprintfTidKey 0 n) = some (GetPID g n).2 ∧
    ∃ ms, Ext g (GetPID g n).1 ms ∧ ∀ e ∈ ms, e.Ph = "M" := by
  rcases GetPID_cases g ip n hI with ⟨id, h, e⟩ | ⟨h, e⟩
  · rw [e]
    exact ⟨hI, (hI.proc_decl n id h).1, h, [], Ext_refl g, by simp⟩
  · rw [e]
    refine ⟨Inv_allocProc g ip n hI h, by rw [pidSeen_allocProc]; simp,
      by rw [allocProc_tids, GoMap.get_set_same], _, Ext_allocProc g n h, ?_⟩
    intro x hx
    simp only [List.mem_cons, List.mem_singleton, List.not_mem_nil, or_false] at hx
    rcases hx with hx | hx <;> rw [hx] <;> rfl

/-- What a call of `GetTID` under a process leaves behind. -/
theorem GetTID_spec (g : traceEventsGenerator) (ip : List (String × String)) (p : Int)
    (n : String) (hI : Inv g ip) (hp : p ≠ 0) :
    Inv (GetTID g p n).1 ip ∧
    (1 ≤ (GetTID g p n).2 ∧ (GetTID g p n).2 ≤ (GetTID g p n).1.tidsCount) ∧
    GoMap.get (GetTID g p n).1.tids (sprintfTidKey p n) = some (GetTID g p n).2 ∧
    ∃ ms, Ext g (GetTID g p n).1 ms ∧ ∀ e ∈ ms, e.Ph = "M" := by
  rcases GetTID_cases g p n with ⟨id, h, e⟩ | ⟨h, e⟩
  · rw [e]
    exact ⟨hI, hI.reg.tids_range _ _ h, h, [], Ext_refl g, by simp⟩
  · rw [e]
    have h0 := hI.reg.count_nonneg
    refine ⟨Inv_allocThread g ip p n hI hp h, by rw [allocThread_count]; omega,
      by rw [allocThread_tids, GoMap.get_set_same], _, Ext_allocThread g p n h, ?_⟩
    intro x hx
    simp only [List.mem_singleton] at hx
    rw [hx]; rfl

theorem closePrevious_none (g : traceEventsGenerator) (ip : List (String × String))
    (key : String) (pid tid ts : Int) (h : GoMap.get ip key = none) :
    closePrevious g ip key pid tid ts = (g, ip) := by
  simp [closePrevious, h]

theorem closePrevious_some (g : traceEventsGenerator) (ip : List (String × String))
    (key : String) (pid tid ts : Int) (prev : String) (h : GoMap.get ip key = some prev) :
    closePrevious g ip key pid tid ts =
      (Emit g (endEvent prev pid tid ts), GoMap.delete ip key) := by
  simp [closePrevious, h, endEvent]

theorem finish_eq (s : Run) (g : traceEventsGenerator) (ip : List (String × String))
    (pid tid : Int) (phase msg : String) (ts d : Int) :
    finish s g ip pid tid phase msg ts d =
      .ok { s with g := Emit g (finalEvent pid tid phase msg ts d), inProgress := ip } := rfl

/-- Closing the interval of a pair keeps the invariant and leaves the pair closed. -/
theorem closePrevious_spec (g : traceEventsGenerator) (ip : List (String × String))
    (pid tid ts : Int) (hI : Inv g ip) (hp : pidSeen g pid = true)
    (ht : 1 ≤ tid ∧ tid ≤ g.tidsCount) :
    Inv (closePrevious g ip (sprintfKey pid tid) pid tid ts).1
        (closePrevious g ip (sprintfKey pid tid) pid tid ts).2 ∧
    GoMap.get (closePrevious g ip (sprintfKey pid tid) pid tid ts).2 (sprintfKey pid tid) = none ∧
    (closePrevious g ip (sprintfKey pid tid) pid tid ts).1.tidsCount = g.tidsCount ∧
    ∃ ms, Ext g (closePrevious g ip (sprintfKey pid tid) pid tid ts).1 ms := by
  cases h : GoMap.get ip (sprintfKey pid tid) with
  | none =>
    rw [closePrevious_none _ _ _ _ _ _ h]
    exact ⟨hI, h, rfl, [], Ext_refl g⟩
  | some prev =>
    rw [closePrevious_some _ _ _ _ _ _ prev h]
    exact ⟨Inv_emitE g ip (endEvent prev pid tid ts) hI rfl hp ht h,
      GoMap.get_delete_same _ _, rfl, _, Ext_Emit g _⟩

theorem StepOk_finishX (s : Run) (g : traceEventsGenerator) (ip : List (String × String))
    (pid tid : Int) (msg : String) (ts d : Int) (ms : List traceEvent)
    (hs : RunInv s) (hI : Inv g ip) (hext : Ext s.g g ms) (hp : pidSeen g pid = true)
    (ht : tid = 0 ∨ (1 ≤ tid ∧ tid ≤ g.tidsCount)) :
    StepOk s (finish s g ip pid tid "X" msg ts d) := by
  rw [finish_eq]
  refine ⟨⟨?_, hext.pids_mono _ hs.pid1_seen⟩, rfl, _, Ext_trans _ _ _ _ _ hext (Ext_Emit g _)⟩
  refine Inv_emitX g ip _ hI rfl hp ?_
  show 1 ≤ (if tid = 0 then pid else tid) ∧ (if tid = 0 then pid else tid) ≤ g.tidsCount
  rcases ht with ht | ht
  · rw [if_pos ht]; exact pidSeen_range g ip hI pid hp
  · rw [if_neg (by omega)]; exact ht

theorem StepOk_finishB (s : Run) (g : traceEventsGenerator) (ip : List (String × String))
    (pid tid : Int) (msg : String) (ts d : Int) (ms : List traceEvent)
    (hs : RunInv s) (hI : Inv g ip) (hext : Ext s.g g ms) (hp : pidSeen g pid = true)
    (ht : 1 ≤ tid ∧ tid ≤ g.tidsCount)
    (hnone : GoMap.get ip (sprintfKey pid tid) = none) :
    StepOk s (finish s g (GoMap.set ip (sprintfKey pid tid) msg) pid tid "B" msg ts d) := by
  rw [finish_eq]
  refine ⟨⟨?_, hext.pids_mono _ hs.pid1_seen⟩, rfl, _, Ext_trans _ _ _ _ _ hext (Ext_Emit g _)⟩
  have hne : tid ≠ 0 := by omega
  have e : finalEvent pid tid "B" msg ts d =
      { finalEvent pid tid "B" msg ts d with TID := tid } := by
    simp [finalEvent, hne]
  have := Inv_emitB g ip (finalEvent pid tid "B" msg ts d) hI rfl hp
    (by rw [e]; exact ht) (by rw [e]; exact hnone)
  rw [e] at this
  rw [e]
  exact this

theorem StepOk_panic (s : Run) (g : traceEventsGenerator) (ip : List (String × String))
    (ms : List traceEvent) (hs : RunInv s) (hI : Inv g ip) (hext : Ext s.g g ms) :
    StepOk s (.panic { s with g := g, inProgress := ip }) :=
  ⟨⟨hI, hext.pids_mono _ hs.pid1_seen⟩, rfl, ms, hext⟩

/-- The interval logic (close, then reopen or not) keeps the invariant,
whichever of its three exits is taken. -/
theorem StepOk_interval (s : Run) (g : traceEventsGenerator) (pid tid ts d : Int)
    (name msg : String) (ms : List traceEvent)
    (hs : RunInv s) (hI : Inv g s.inProgress) (hext : Ext s.g g ms)
    (hp : pidSeen g pid = true) (ht : 1 ≤ tid ∧ tid ≤ g.tidsCount) :
    StepOk s (.panic { s with
      g := (closePrevious g s.inProgress (sprintfKey pid tid) pid tid ts).1,
      inProgress := (closePrevious g s.inProgress (sprintfKey pid tid) pid tid ts).2 }) ∧
    StepOk s (finish s (closePrevious g s.inProgress (sprintfKey pid tid) pid tid ts).1
      (GoMap.set (closePrevious g s.inProgress (sprintfKey pid tid) pid tid ts).2
        (sprintfKey pid tid) name) pid tid "B" name ts d) ∧
    StepOk s (finish s (closePrevious g s.inProgress (sprintfKey pid tid) pid tid ts).1
      (closePrevious g s.inProgress (sprintfKey pid tid) pid tid ts).2 pid tid "X" msg ts d) := by
  obtain ⟨hI2, hnone, hcnt, ms2, hext2⟩ := closePrevious_spec g s.inProgress pid tid ts hI hp ht
  have hext3 := Ext_trans _ _ _ _ _ hext hext2
  have hp2 := hext2.pids_mono _ hp
  have ht2 : 1 ≤ tid ∧
      tid ≤ (closePrevious g s.inProgress (sprintfKey pid tid) pid tid ts).1.tidsCount := by
    rw [hcnt]; exact ht
  exact ⟨StepOk_panic s _ _ _ hs hI2 hext3,
    StepOk_finishB s _ _ pid tid name ts d _ hs hI2 hext3 hp2 ht2 hnone,
    StepOk_finishX s _ _ pid tid msg ts d _ hs hI2 hext3 hp2 (Or.inr ht2)⟩

/-- Every exit of `translate` keeps the invariant. -/
theorem StepOk_translate (s : Run) (ts d : Int) (msg : String) (hs : RunInv s) :
    StepOk s (translate s ts d msg) := by
  have hP : ∀ n, StepOk s (finish s (GetPID s.g n).1 s.inProgress (GetPID s.g n).2 0 "X" msg ts d) ∧
      StepOk s (.panic { s with g := (GetPID s.g n).1 }) ∧
      (∀ m, StepOk s (finish s (GetTID (GetPID s.g n).1 (GetPID s.g n).2 m).1 s.inProgress
        (GetPID s.g n).2 (GetTID (GetPID s.g n).1 (GetPID s.g n).2 m).2 "X" msg ts d)) ∧
      (∀ m name, StepOk s (.panic { s with
        g := (closePrevious (GetTID (GetPID s.g n).1 (GetPID s.g n).2 m).1 s.inProgress
          (sprintfKey (GetPID s.g n).2 (GetTID (GetPID s.g n).1 (GetPID s.g n).2 m).2)
          (GetPID s.g n).2 (GetTID (GetPID s.g n).1 (GetPID s.g n).2 m).2 ts).1,
        inProgress := (closePrevious (GetTID (GetPID s.g n).1 (GetPID s.g n).2 m).1 s.inProgress
          (sprintfKey (GetPID s.g n).2 (GetTID (GetPID s.g n).1 (GetPID s.g n).2 m).2)
          (GetPID s.g n).2 (GetTID (GetPID s.g n).1 (GetPID s.g n).2 m).2 ts).2 }) ∧
      StepOk s (finish s
        (closePrevious (GetTID (GetPID s.g n).1 (GetPID s.g n).2 m).1 s.inProgress
          (sprintfKey (GetPID s.g n).2 (GetTID (GetPID s.g n).1 (GetPID s.g n).2 m).2)
          (GetPID s.g n).2 (GetTID (GetPID s.g n).1 (GetPID s.g n).2 m).2 ts).1
        (GoMap.set (closePrevious (GetTID (GetPID s.g n).1 (GetPID s.g n).2 m).1 s.inProgress
          (sprintfKey (GetPID s.g n).2 (GetTID (GetPID s.g n).1 (GetPID s.g n).2 m).2)
          (GetPID s.g n).2 (GetTID (GetPID s.g n).1 (GetPID s.g n).2 m).2 ts).2
          (sprintfKey (GetPID s.g n).2 (GetTID (GetPID s.g n).1 (GetPID s.g n).2 m).2) name)
        (GetPID s.g n).2 (GetTID (GetPID s.g n).1 (GetPID s.g n).2 m).2 "B" name ts d) ∧
      StepOk s (finish s
        (closePrevious (GetTID (GetPID s.g n).1 (GetPID s.g n).2 m).1 s.inProgress
          (sprintfKey (GetPID s.g n).2 (GetTID (GetPID s.g n).1 (GetPID s.g n).2 m).2)
          (GetPID s.g n).2 (GetTID (GetPID s.g n).1 (GetPID s.g n).2 m).2 ts).1
        (closePrevious (GetTID (GetPID s.g n).1 (GetPID s.g n).2 m).1 s.inProgress
          (sprintfKey (GetPID s.g n).2 (GetTID (GetPID s.g n).1 (GetPID s.g n).2 m).2)
          (GetPID s.g n).2 (GetTID (GetPID s.g n).1 (GetPID s.g n).2 m).2 ts).2
        (GetPID s.g n).2 (GetTID (GetPID s.g n).1 (GetPID s.g n).2 m).2 "X" msg ts d)) := by
    intro n
    obtain ⟨hI1, hp1, _, ms1, hext1, _⟩ := GetPID_spec s.g s.inProgress n hs.inv
    have hne : (GetPID s.g n).2 ≠ 0 := by
      have := pidSeen_range _ _ hI1 _ hp1
      omega
    refine ⟨StepOk_finishX s _ _ _ 0 msg ts d _ hs hI1 hext1 hp1 (Or.inl rfl),
      StepOk_panic s _ _ _ hs hI1 hext1, ?_, ?_⟩
    · intro m
      obtain ⟨hI2, ht2, _, ms2, hext2, _⟩ := GetTID_spec _ s.inProgress _ m hI1 hne
      exact StepOk_finishX s _ _ _ _ msg ts d _ hs hI2 (Ext_trans _ _ _ _ _ hext1 hext2)
        (hext2.pids_mono _ hp1) (Or.inr ht2)
    · intro m name
      obtain ⟨hI2, ht2, _, ms2, hext2, _⟩ := GetTID_spec _ s.inProgress _ m hI1 hne
      exact StepOk_interval s _ _ _ ts d name msg _ hs hI2 (Ext_trans _ _ _ _ _ hext1 hext2)
        (hext2.pids_mono _ hp1) ht2
  unfold translate
  simp only
  split
  · exact (hP _).1
  split
  · split
    · exact (hP _).2.1
    · split
      · exact (hP _).2.2.1 _
      · exact (hP _).1
  split
  · exact (hP _).1
  split
  · split
    · exact (hP _).2.1
    · split
      · split
        · exact ((hP _).2.2.2 _ msg).1
        · split
          · exact ((hP _).2.2.2 _ msg).2.1
          · exact ((hP _).2.2.2 _ msg).2.2
      · exact (hP _).1
  split
  · split
    · exact (hP _).1
    · split
      · split
        · exact ((hP _).2.2.2 _ _).2.1
        · exact ((hP _).2.2.2 _ msg).2.2
      · exact (hP _).2.2.1 _
  · exact StepOk_finishX s s.g s.inProgress s.pid1 0 msg ts d [] hs hs.inv (Ext_refl _)
      hs.pid1_seen (Or.inl rfl)

/-! ## The invariant along a run -/

theorem Inv_new : Inv newTraceEventsGenerator [] := by
  refine ⟨RegInv_new, ?_, ?_, ?_, ?_, ?_, ?_, ?_, by simp, by simp [countPh, newTraceEventsGenerator]⟩
  · intro id h; simp [pidSeen, newTraceEventsGenerator, GoMap.get] at h
  · intro e h; simp [newTraceEventsGenerator] at h
  · intro e h; simp [newTraceEventsGenerator] at h
  · intro e h; simp [newTraceEventsGenerator] at h
  · intro n id h; simp [newTraceEventsGenerator, GoMap.get] at h
  · intro p n id h; simp [newTraceEventsGenerator, GoMap.get] at h
  · intro pid tid; simp [newTraceEventsGenerator, track, pairing, GoMap.get]

theorem RunInv_mainInit : RunInv mainInit := by
  obtain ⟨h1, h2, _⟩ := GetPID_spec newTraceEventsGenerator [] "other" Inv_new
  exact ⟨h1, h2⟩

theorem StepOk_refl (s : Run) (hs : RunInv s) : StepOk s (.ok s) :=
  ⟨hs, rfl, [], Ext_refl _⟩

theorem StepOk_processLine (env : Stdlib) (s : Run) (line : String) (hs : RunInv s) :
    StepOk s (processLine env s line) := by
  unfold processLine
  simp only
  split
  · exact StepOk_refl s hs
  · split
    · exact ⟨hs, rfl, [], Ext_refl _⟩
    · exact ⟨hs, rfl, [], Ext_refl _⟩
    · exact StepOk_translate s _ _ _ hs

theorem StepOk_trans (s s2 : Run) (o : Outcome) (h1 : StepOk s (.ok s2)) (h2 : StepOk s2 o) :
    StepOk s o := by
  obtain ⟨_, e1, ms1, x1⟩ := h1
  obtain ⟨r2, e2, ms2, x2⟩ := h2
  exact ⟨r2, e2.trans e1, _, Ext_trans _ _ _ _ _ x1 x2⟩

theorem StepOk_runFrom (env : Stdlib) (lines : List String) :
    ∀ s : Run, RunInv s → StepOk s (runFrom env s lines) := by
  induction lines with
  | nil => intro s hs; exact StepOk_refl s hs
  | cons l ls ih =>
    intro s hs
    have h := StepOk_processLine env s l hs
    unfold runFrom
    cases hp : processLine env s l with
    | ok s1 =>
      rw [hp] at h
      exact StepOk_trans s s1 _ h (ih s1 h.1)
    | fatal s1 => rw [hp] at h; exact h
    | panic s1 => rw [hp] at h; exact h

theorem RunInv_main (env : Stdlib) (lines : List String) : RunInv (main env lines).state :=
  (StepOk_runFrom env lines mainInit RunInv_mainInit).1

/-! ## What a successful check of a track means -/

theorem pairing_snoc (l : List traceEvent) (e : traceEvent) (st : Option String) :
    pairing st (l ++ [e]) = (pairing st l).bind (fun s1 => pairStep s1 e) := by
  rw [pairing_append]
  congr 1
  funext s1
  simp only [pairing]
  cases pairStep s1 e <;> rfl

theorem pairStep_none_some (e : traceEvent) (st2 : Option String)
    (h : pairStep none e = some st2) : e.Ph = "B" ∧ st2 = some e.Name := by
  simp only [pairStep] at h
  split at h
  · next hB => exact ⟨hB, by cases h; rfl⟩
  · cases h

theorem pairStep_some_some (e : traceEvent) (lbl : String) (st2 : Option String)
    (h : pairStep (some lbl) e = some st2) : e.Ph = "E" ∧ e.Name = lbl ∧ st2 = none := by
  simp only [pairStep] at h
  split at h
  · next hE => exact ⟨hE.1, hE.2, by cases h; rfl⟩
  · cases h

/-- A track that passes the check starts with a `B`, alternates `B` and `E`
with every `E` named after the `B` before it, and ends in state `some n`
exactly when its last event is a `B` named `n`. -/
theorem pairing_explicit (l : List traceEvent) :
    ∀ st2, pairing none l = some st2 →
      (∀ a post, l = a :: post → a.Ph = "B") ∧
      (∀ pre a b post, l = pre ++ a :: b :: post →
        (a.Ph = "B" ∧ b.Ph = "E" ∧ b.Name = a.Name) ∨ (a.Ph = "E" ∧ b.Ph = "B")) ∧
      (st2 = none → l = [] ∨ ∃ pre a, l = pre ++ [a] ∧ a.Ph = "E") ∧
      (∀ n, st2 = some n ↔ ∃ pre a, l = pre ++ [a] ∧ a.Ph = "B" ∧ a.Name = n) := by
  induction l using List.reverseRecOn with
  | nil =>
    intro st2 h
    simp only [pairing, Option.some.injEq] at h
    subst h
    refine ⟨by simp, by simp, fun _ => Or.inl rfl, fun n => ⟨by simp, by simp⟩⟩
  | append_singleton l e ih =>
    intro st2 h
    rw [pairing_snoc] at h
    cases h1 : pairing none l with
    | none => rw [h1] at h; cases h
    | some s1 =>
      rw [h1] at h
      simp only [Option.some_bind] at h
      obtain ⟨ihA, ihB, ihC, ihD⟩ := ih s1 h1
      refine ⟨?_, ?_, ?_, ?_⟩
      · intro a post hl
        cases l with
        | nil =>
          simp only [List.nil_append, List.cons.injEq] at hl
          simp only [pairing, Option.some.injEq] at h1
          subst h1
          rw [← hl.1]
          exact (pairStep_none_some e st2 h).1
        | cons a2 t =>
          simp only [List.cons_append, List.cons.injEq] at hl
          rw [← hl.1]
          exact ihA a2 t rfl
      · intro pre a b post hl
        rcases List.eq_nil_or_concat post with hp | ⟨post2, e2, hp⟩
        · subst hp
          have hl2 : l ++ [e] = (pre ++ [a]) ++ [b] := by rw [hl]; simp
          obtain ⟨el, ee⟩ := List.append_inj' hl2 rfl
          simp only [List.cons.injEq, and_true] at ee
          subst ee
          cases s1 with
          | none =>
            rcases ihC rfl with hnil | ⟨pre2, a2, e2, hE⟩
            · rw [hnil] at el
              simp at el
            · rw [e2] at el
              obtain ⟨_, ea⟩ := List.append_inj' el rfl
              simp only [List.cons.injEq, and_true] at ea
              subst ea
              exact Or.inr ⟨hE, (pairStep_none_some e st2 h).1⟩
          | some lbl =>
            obtain ⟨pre2, a2, e2, hB, hN⟩ := (ihD lbl).1 rfl
            rw [e2] at el
            obtain ⟨_, ea⟩ := List.append_inj' el rfl
            simp only [List.cons.injEq, and_true] at ea
            subst ea
            obtain ⟨hE, hn, _⟩ := pairStep_some_some e lbl st2 h
            exact Or.inl ⟨hB, hE, by rw [hn, hN]⟩
        · subst hp
          have hl2 : l ++ [e] = (pre ++ a :: b :: post2) ++ [e2] := by
            rw [hl]; simp
          obtain ⟨el, _⟩ := List.append_inj' hl2 rfl
          exact ihB pre a b post2 el
      · intro hst
        subst hst
        refine Or.inr ⟨l, e, rfl, ?_⟩
        cases s1 with
        | none =>
          have := (pairStep_none_some e none h).2
          cases this
        | some lbl => exact (pairStep_some_some e lbl none h).1
      · intro n
        constructor
        · intro hst
          subst hst
          cases s1 with
          | none =>
            obtain ⟨hB, hn⟩ := pairStep_none_some e (some n) h
            exact ⟨l, e, rfl, hB, by cases hn; rfl⟩
          | some lbl =>
            have := (pairStep_some_some e lbl (some n) h).2.2
            cases this
        · rintro ⟨pre, a, hl, hB, hN⟩
          obtain ⟨_, ee⟩ := List.append_inj' hl rfl
          simp only [List.cons.injEq, and_true] at ee
          subst ee
          cases s1 with
          | none =>
            rw [(pairStep_none_some e st2 h).2, hN]
          | some lbl =>
            have hE := (pairStep_some_some e lbl st2 h).1
            rw [hB] at hE
            exact absurd hE (by decide)

/-! ## Splitting at the first space -/

theorem indexIn_space_cons (c : Char) (t : List Char) :
    indexIn [' '] (c :: t) = if c = ' ' then some 0 else (indexIn [' '] t).map (· + 1) := by
  by_cases h : c = ' '
  · subst h; simp [indexIn, List.isPrefixOf]
  · have h2 : ¬ (' ' = c) := fun e => h e.symm
    simp [indexIn, List.isPrefixOf, h, h2]

theorem indexIn_space_append (a b : List Char) (ha : ' ' ∉ a) :
    indexIn [' '] (a ++ ' ' :: b) = some a.length := by
  induction a with
  | nil => simp [indexIn_space_cons]
  | cons c t ih =>
    have hc : c ≠ ' ' := fun e => ha (by rw [e]; simp)
    have ht : ' ' ∉ t := fun e => ha (List.mem_cons_of_mem _ e)
    rw [List.cons_append, indexIn_space_cons, if_neg hc, ih ht]
    rfl

theorem indexIn_space_none (l : List Char) (h : ' ' ∉ l) : indexIn [' '] l = none := by
  induction l with
  | nil => simp [indexIn, List.isPrefixOf]
  | cons c t ih =>
    have hc : c ≠ ' ' := fun e => h (by rw [e]; simp)
    have ht : ' ' ∉ t := fun e => h (List.mem_cons_of_mem _ e)
    rw [indexIn_space_cons, if_neg hc, ih ht]
    rfl

theorem indexIn_space_some (l : List Char) :
    ∀ i, indexIn [' '] l = some i →
      ∃ a b, l = a ++ ' ' :: b ∧ ' ' ∉ a ∧ a.length = i := by
  induction l with
  | nil => intro i h; simp [indexIn, List.isPrefixOf] at h
  | cons c t ih =>
    intro i h
    rw [indexIn_space_cons] at h
    by_cases hc : c = ' '
    · rw [if_pos hc] at h
      cases h
      exact ⟨[], t, by rw [hc]; rfl, by simp, rfl⟩
    · rw [if_neg hc] at h
      cases ht : indexIn [' '] t with
      | none => rw [ht] at h; cases h
      | some j =>
        rw [ht] at h
        simp only [Option.map_some', Option.some.injEq] at h
        obtain ⟨a, b, e1, e2, e3⟩ := ih j ht
        refine ⟨c :: a, b, by rw [e1]; rfl, ?_, by rw [← h]; simp [e3]⟩
        intro hm
        rcases List.mem_cons.1 hm with hm | hm
        · exact hc hm.symm
        · exact e2 hm

theorem SplitN_of_data (s : String) (a b : List Char) (h : s.data = a ++ ' ' :: b)
    (ha : ' ' ∉ a) : SplitN s = (⟨a⟩, some ⟨b⟩) := by
  have hi : Index s " " = some a.length := by
    simp only [Index, h]
    exact indexIn_space_append a b ha
  simp only [SplitN, hi, sliceTo, sliceFrom, h]
  simp

theorem SplitN_append (a b : String) (ha : ' ' ∉ a.data) :
    SplitN (a ++ " " ++ b) = (a, some b) :=
  SplitN_of_data _ a.data b.data (by simp [String.data_append]) ha

theorem SplitN_none (s : String) (h : ' ' ∉ s.data) : SplitN s = (s, none) := by
  have hi : Index s " " = none := by
    simp only [Index]
    exact indexIn_space_none _ h
  simp only [SplitN, hi]

/-! ## The events of one record -/

theorem Grows_refl (g : traceEventsGenerator) : Grows g g := ⟨[], by simp, by simp⟩

theorem Grows_trans (g1 g2 g3 : traceEventsGenerator) (h1 : Grows g1 g2) (h2 : Grows g2 g3) :
    Grows g1 g3 := by
  obtain ⟨m1, e1, p1⟩ := h1
  obtain ⟨m2, e2, p2⟩ := h2
  refine ⟨m1 ++ m2, by rw [e2, e1, List.append_assoc], ?_⟩
  intro e he
  rcases List.mem_append.1 he with he | he
  · exact p1 e he
  · exact p2 e he

theorem Grows_Emit (g : traceEventsGenerator) (e : traceEvent) (h : e.Ph = "M" ∨ e.Ph = "E") :
    Grows g (Emit g e) :=
  ⟨[e], rfl, by intro x hx; simp only [List.mem_singleton] at hx; rw [hx]; exact h⟩

theorem Grows_GetTID (g : traceEventsGenerator) (p : Int) (n : String) :
    Grows g (GetTID g p n).1 := by
  rcases GetTID_cases g p n with ⟨id, _, e⟩ | ⟨_, e⟩
  · rw [e]; exact Grows_refl g
  · rw [e]; exact ⟨_, allocThread_out g p n, by simp [threadEvent]⟩

theorem Grows_GetPID (g : traceEventsGenerator) (n : String) : Grows g (GetPID g n).1 := by
  have h := Grows_GetTID g 0 n
  unfold GetPID
  simp only
  split
  · exact h
  · refine Grows_trans _ _ _ h ⟨[_], rfl, ?_⟩
    simp

theorem Grows_closePrevious (g : traceEventsGenerator) (ip : List (String × String))
    (key : String) (pid tid ts : Int) : Grows g (closePrevious g ip key pid tid ts).1 := by
  cases h : GoMap.get ip key with
  | none => rw [closePrevious_none _ _ _ _ _ _ h]; exact Grows_refl g
  | some prev =>
    rw [closePrevious_some _ _ _ _ _ _ prev h]
    exact Grows_Emit g _ (Or.inr rfl)

theorem Shape_finish (s : Run) (g : traceEventsGenerator) (ip : List (String × String))
    (pid tid : Int) (phase name : String) (ts d : Int) (hg : Grows s.g g)
    (hph : phase = "X" ∨ phase = "B") : Shape s ts d (finish s g ip pid tid phase name ts d) := by
  intro s2 h
  rw [finish_eq] at h
  obtain ⟨ms, e1, p1⟩ := hg
  cases h
  exact ⟨ms, pid, tid, phase, name, by simp [Emit, e1], p1, hph⟩

theorem Shape_panic (s s1 : Run) (ts d : Int) : Shape s ts d (.panic s1) := by
  intro s2 h; cases h

/-- Every accepted record adds metadata and end events, then one final event. -/
theorem Shape_translate (s : Run) (ts d : Int) (msg : String) :
    Shape s ts d (translate s ts d msg) := by
  have hP : ∀ n, Grows s.g (GetPID s.g n).1 := fun n => Grows_GetPID s.g n
  have hT : ∀ n p m, Grows s.g (GetTID (GetPID s.g n).1 p m).1 :=
    fun n p m => Grows_trans _ _ _ (hP n) (Grows_GetTID _ p m)
  have hC : ∀ n p m ip key pid tid,
      Grows s.g (closePrevious (GetTID (GetPID s.g n).1 p m).1 ip key pid tid ts).1 :=
    fun n p m ip key pid tid => Grows_trans _ _ _ (hT n p m) (Grows_closePrevious _ _ _ _ _ _)
  unfold translate
  simp only
  repeat' split
  all_goals first
    | exact Shape_panic _ _ _ _
    | exact Shape_finish _ _ _ _ _ _ _ _ _ (Grows_refl _) (Or.inl rfl)
    | exact Shape_finish _ _ _ _ _ _ _ _ _ (hP _) (Or.inl rfl)
    | exact Shape_finish _ _ _ _ _ _ _ _ _ (hT _ _ _) (Or.inl rfl)
    | exact Shape_finish _ _ _ _ _ _ _ _ _ (hC _ _ _ _ _ _ _) (Or.inl rfl)
    | exact Shape_finish _ _ _ _ _ _ _ _ _ (hC _ _ _ _ _ _ _) (Or.inr rfl)

/-! ## Decoding a line -/

theorem clamp_eq_max (d : Int) : (if d < Second then Second else d) = max d Second := by
  by_cases h : d < Second
  · rw [if_pos h, max_eq_right (le_of_lt h)]
  · rw [if_neg h, max_eq_left (not_lt.1 h)]

theorem clamp_tdiv_ge (d : Int) : 1000000 ≤ Int.tdiv (max d Second) 1000 := by
  have h1 : (1000000000 : Int) ≤ max d Second := le_max_right d Second
  generalize max d Second = m at h1
  rw [Int.tdiv_eq_ediv (by omega) (by decide)]
  omega

theorem dropSeverity_ok (ts d : Int) (msg : String) (r : Int × Int × String)
    (h : dropSeverity ts d msg = .ok r) : r.1 = ts ∧ r.2.1 = d := by
  unfold dropSeverity at h
  split at h
  · cases h
  · cases h; exact ⟨rfl, rfl⟩

/-- The duration of a decoded line: zero without a `-` after the timestamp,
otherwise what `ParseDuration` makes of the token that ends at the first space
after the two bytes of the prefix. -/
theorem decode_duration (env : Stdlib) (line : String) (ts d : Int) (msg : String)
    (h : decode env line = .ok (ts, d, msg)) :
    ((line.data.drop 20).head? ≠ some '-' ∧ d = 0) ∨
    (∃ c tok rest, line.data.drop 20 = '-' :: c :: (tok ++ ' ' :: rest) ∧ ' ' ∉ tok ∧
      env.ParseDuration ⟨tok⟩ = some d) := by
  unfold decode at h
  split at h
  · cases h
  split at h
  · cases h
  simp only at h
  split at h
  · cases h
  next c t hm =>
    simp only [sliceFrom] at hm
    split at h
    · next hc =>
      subst hc
      split at h
      · cases h
      next hlen =>
        split at h
        · cases h
        next idx hidx =>
          split at h
          · cases h
          next dur hdur =>
            have hd := (dropSeverity_ok _ _ _ _ h).2
            simp only at hd
            subst hd
            obtain ⟨a, b, e1, e2, e3⟩ := indexIn_space_some _ _ hidx
            simp only [sliceFrom, hm, List.drop_succ_cons] at e1
            cases t with
            | nil => simp [len, sliceFrom, hm] at hlen
            | cons c2 t2 =>
              simp only [List.drop_succ_cons, List.drop_zero] at e1
              refine Or.inr ⟨c2, a, b, by rw [hm, e1], e2, ?_⟩
              rw [← hdur]
              congr 1
              simp only [sliceTo, sliceFrom, hm, List.drop_succ_cons, List.drop_zero, e1, ← e3]
              simp
    · next hc =>
      have hd := (dropSeverity_ok _ _ _ _ h).2
      simp only at hd
      exact Or.inl ⟨by rw [hm]; simpa using hc, hd⟩

theorem processLine_ok (env : Stdlib) (s s2 : Run) (line : String)
    (h : processLine env s line = .ok s2) :
    (TrimRight line '\n' = "" ∧ s2 = s) ∨
    (∃ ts d msg, decode env (TrimRight line '\n') = .ok (ts, d, msg) ∧
      translate s ts d msg = .ok s2) := by
  unfold processLine at h
  simp only at h
  split at h
  · next hb => cases h; exact Or.inl ⟨hb, rfl⟩
  · split at h
    · cases h
    · cases h
    · next ts d msg hd => exact Or.inr ⟨ts, d, msg, hd, h⟩

/-- The last event of an accepted line carries the clamped duration, whatever
its phase, and the events before it are metadata and end events. -/
theorem processLine_final (env : Stdlib) (s s2 : Run) (line : String)
    (h : processLine env s line = .ok s2) :
    ∃ d : Int,
      ((((TrimRight line '\n').data.drop 20).head? ≠ some '-' ∧ d = 0) ∨
       (∃ c tok rest,
          (TrimRight line '\n').data.drop 20 = '-' :: c :: (tok ++ ' ' :: rest) ∧
          ' ' ∉ tok ∧ env.ParseDuration ⟨tok⟩ = some d)) ∧
      ∀ e ∈ s2.g.out.drop s.g.out.length, e.Ph = "X" ∨ e.Ph = "B" →
        e.Dur = Int.tdiv (max d Second) 1000 := by
  rcases processLine_ok env s s2 line h with ⟨hb, rfl⟩ | ⟨ts, d, msg, hd, ht⟩
  · refine ⟨0, Or.inl ⟨by rw [hb]; simp, rfl⟩, ?_⟩
    intro e he
    simp at he
  · refine ⟨d, decode_duration env _ ts d msg hd, ?_⟩
    obtain ⟨pre, pid, tid, phase, name, e1, e2, _⟩ := Shape_translate s ts d msg s2 ht
    intro e he hph
    rw [e1, List.append_assoc, List.drop_left] at he
    rcases List.mem_append.1 he with he | he
    · rcases e2 e he with hM | hE
      · rw [hM] at hph; exact absurd hph (by decide)
      · rw [hE] at hph; exact absurd hph (by decide)
    · simp only [List.mem_singleton] at he
      rw [he]
      simp only [finalEvent, clamp_eq_max]

/-! ## Records of a cluster-operator condition -/

theorem translate_operator (s : Run) (ts d : Int) (o c st : String)
    (ho : ' ' ∉ o.data) (hc : ' ' ∉ c.data) :
    translate s ts d ("clusteroperator/" ++ o ++ " condition/" ++ c ++ " " ++ st) =
      operatorRecord s ts d ("clusteroperator/" ++ o) ("condition/" ++ c) st
        ("clusteroperator/" ++ o ++ " condition/" ++ c ++ " " ++ st) := by
  have hs1 : SplitN ("clusteroperator/" ++ o ++ " condition/" ++ c ++ " " ++ st) =
      ("clusteroperator/" ++ o, some ("condition/" ++ c ++ " " ++ st)) := by
    have := SplitN_of_data ("clusteroperator/" ++ o ++ " condition/" ++ c ++ " " ++ st)
      ("clusteroperator/" ++ o).data ("condition/" ++ c ++ " " ++ st).data
      (by simp [String.data_append]) (by simp [String.data_append, ho])
    rw [this]
  have hs2 : SplitN ("condition/" ++ c ++ " " ++ st) = ("condition/" ++ c, some st) :=
    SplitN_append _ _ (by simp [String.data_append, hc])
  have p1 : HasPrefix ("clusteroperator/" ++ o) "ns/e2e-" = false := by
    simp [HasPrefix, String.data_append, List.isPrefixOf]
  have p2 : HasPrefix ("clusteroperator/" ++ o) "ns/" = false := by
    simp [HasPrefix, String.data_append, List.isPrefixOf]
  have p3 : HasPrefix ("clusteroperator/" ++ o) "node/" = false := by
    simp [HasPrefix, String.data_append, List.isPrefixOf]
  have p4 : HasPrefix ("clusteroperator/" ++ o) "clusteroperator/" = true :=
    HasPrefix_append _ _
  have p5 : HasPrefix ("condition/" ++ c) "condition/" = true := HasPrefix_append _ _
  unfold translate operatorRecord
  simp only [hs1, hs2, p1, p2, p3, p4, p5, if_true, Bool.false_eq_true, if_false]

theorem track_append2 (a b : List traceEvent) (pid tid : Int) :
    track (a ++ b) pid tid = track a pid tid ++ track b pid tid := by
  simp [track, List.filter_append]

theorem track_meta (ms : List traceEvent) (pid tid : Int) (h : ∀ e ∈ ms, e.Ph = "M") :
    track ms pid tid = [] := by
  simp only [track, List.filter_eq_nil_iff]
  intro e he
  rw [isPairEvent_of_ph e pid tid (by rw [h e he]; decide) (by rw [h e he]; decide)]
  simp

theorem tdiv_mono (a b : Int) (h : a ≤ b) : Int.tdiv a 1000 ≤ Int.tdiv b 1000 := by
  rcases Int.le_total 0 a with ha | ha
  · rw [Int.tdiv_eq_ediv ha (by decide), Int.tdiv_eq_ediv (by omega) (by decide)]
    omega
  · rcases Int.le_total 0 b with hb | hb
    · have h1 : Int.tdiv a 1000 = -Int.tdiv (-a) 1000 := by rw [Int.neg_tdiv, neg_neg]
      rw [h1, Int.tdiv_eq_ediv (by omega) (by decide), Int.tdiv_eq_ediv hb (by decide)]
      omega
    · have h1 : Int.tdiv a 1000 = -Int.tdiv (-a) 1000 := by rw [Int.neg_tdiv, neg_neg]
      have h2 : Int.tdiv b 1000 = -Int.tdiv (-b) 1000 := by rw [Int.neg_tdiv, neg_neg]
      rw [h1, h2, Int.tdiv_eq_ediv (by omega) (by decide),
        Int.tdiv_eq_ediv (by omega) (by decide)]
      omega

theorem GetPID_known (g : traceEventsGenerator) (ip : List (String × String)) (n : String)
    (id : Int) (hI : Inv g ip) (h : GoMap.get g.tids (sprintfTidKey 0 n) = some id) :
    GetPID g n = (g, id) := by
  rcases GetPID_cases g ip n hI with ⟨id2, h2, e⟩ | ⟨h2, _⟩
  · rw [h] at h2; cases h2; exact e
  · rw [h] at h2; cases h2

/-- An abnormal observation on a closed pair opens an interval. -/
theorem operator_open (s : Run) (ts d : Int) (op cond st msg : String) (pid tid : Int)
    (hs : RunInv s)
    (hpid : (GetPID s.g op).2 = pid)
    (htid : (GetTID (GetPID s.g op).1 pid cond).2 = tid)
    (hopen : GoMap.get s.inProgress (sprintfKey pid tid) = none)
    (hab : isAbnormal cond st = true) :
    ∃ g2 ms, operatorRecord s ts d op cond st msg =
        .ok { s with g := Emit g2 (finalEvent pid tid "B" msg ts d),
                     inProgress := GoMap.set s.inProgress (sprintfKey pid tid) msg } ∧
      g2.out = s.g.out ++ ms ∧ (∀ e ∈ ms, e.Ph = "M") ∧
      GoMap.get g2.tids (sprintfTidKey 0 op) = some pid ∧
      GoMap.get g2.tids (sprintfTidKey pid cond) = some tid ∧ 1 ≤ tid := by
  subst hpid
  subst htid
  obtain ⟨hI1, hp1, hk1, ms1, hext1, hM1⟩ := GetPID_spec s.g s.inProgress op hs.inv
  have hne : (GetPID s.g op).2 ≠ 0 := by
    have := pidSeen_range _ _ hI1 _ hp1
    omega
  obtain ⟨hI2, ht2, hk2, ms2, hext2, hM2⟩ :=
    GetTID_spec (GetPID s.g op).1 s.inProgress (GetPID s.g op).2 cond hI1 hne
  refine ⟨(GetTID (GetPID s.g op).1 (GetPID s.g op).2 cond).1, ms1 ++ ms2, ?_, ?_, ?_,
    hext2.tids_mono _ _ hk1, hk2, ht2.1⟩
  · unfold operatorRecord
    simp only [hab, if_true]
    rw [closePrevious_none _ _ _ _ _ _ hopen, finish_eq]
  · rw [hext2.out_eq, hext1.out_eq, List.append_assoc]
  · intro e he
    rcases List.mem_append.1 he with he | he
    · exact hM1 e he
    · exact hM2 e he

/-- A normal observation on an open pair closes the interval. -/
theorem operator_close (s : Run) (ts d : Int) (op cond st msg prev : String) (pid tid : Int)
    (hs : RunInv s)
    (hk1 : GoMap.get s.g.tids (sprintfTidKey 0 op) = some pid)
    (hk2 : GoMap.get s.g.tids (sprintfTidKey pid cond) = some tid)
    (hprev : GoMap.get s.inProgress (sprintfKey pid tid) = some prev)
    (hab : isAbnormal cond st = false) :
    operatorRecord s ts d op cond st msg =
      .ok { s with
            g := Emit (Emit s.g (endEvent prev pid tid ts)) (finalEvent pid tid "X" msg ts d),
            inProgress := GoMap.delete s.inProgress (sprintfKey pid tid) } := by
  unfold operatorRecord
  simp only [GetPID_known s.g s.inProgress op pid hs.inv hk1, GetTID_hit s.g pid cond tid hk2,
    hab, Bool.false_eq_true, if_false]
  rw [closePrevious_some _ _ _ _ _ _ prev hprev, finish_eq]

/-! ## `translate` is the classification followed by its exit -/

theorem translate_eq_applyRule (s : Run) (ts d : Int) (msg : String) :
    translate s ts d msg = applyRule s ts d msg (classify msg) := by
  unfold translate classify
  simp only
  repeat' split
  all_goals first
    | rfl
    | simp_all [applyRule, plainRecord, operatorRecord, e2eRecord]

/-! ## Lines the decoder rejects or accepts -/

theorem decode_short (env : Stdlib) (line : String)
    (h : len line < 20 ∨ line.data[19]? ≠ some ' ') : decode env line = .error .fatal := by
  have h2 : len line < 20 ∨ line.data.getD 19 'x' ≠ ' ' := by
    rcases h with h | h
    · exact Or.inl h
    · by_cases hl : len line < 20
      · exact Or.inl hl
      · refine Or.inr ?_
        have hlt : 19 < line.data.length := by simp only [len] at hl; omega
        rw [List.getElem?_eq_getElem hlt] at h
        rw [List.getD_eq_getElem _ _ hlt]
        intro hc
        exact h (by rw [hc])
  unfold decode
  rw [if_pos h2]

/-- The head of a line with a well-formed prefix: the checks of lines 118 to
124 pass and the text after byte 20 is `body`. -/
theorem decode_head (env : Stdlib) (ts19 body : String) (t : Int)
    (hlen : len ts19 = 19) (ht : env.timeParse ("2021 " ++ ts19) = some t) :
    decode env (ts19 ++ " " ++ body) =
      match body.data with
      | [] => .error .panic
      | c :: _ =>
        if c = '-' then
          if len body < 2 then .error .panic
          else
            match Index (sliceFrom body 2) " " with
            | none => .error .panic
            | some idx =>
              match env.ParseDuration (sliceTo (sliceFrom body 2) idx) with
              | none => .error .fatal
              | some duration =>
                dropSeverity t duration
                  (TrimLeft (sliceFrom (sliceFrom body 2) (idx + 1)) ' ')
        else dropSeverity t 0 body := by
  have hd : (ts19 ++ " " ++ body).data = ts19.data ++ ' ' :: body.data := by
    simp [String.data_append]
  have hl : ts19.data.length = 19 := hlen
  have h1 : ¬ (len (ts19 ++ " " ++ body) < 20 ∨
      (ts19 ++ " " ++ body).data.getD 19 'x' ≠ ' ') := by
    simp only [len, hd, not_or, not_lt, ne_eq, not_not]
    refine ⟨by simp only [List.length_append, List.length_cons, hl]; omega, ?_⟩
    rw [List.getD_eq_getElem?_getD, List.getElem?_append_right (by omega)]
    simp [hl]
  have h2 : sliceTo (ts19 ++ " " ++ body) 19 = ts19 := by
    apply String.ext
    simp only [sliceTo, hd]
    rw [← hl, List.take_left]
  have h3 : sliceFrom (ts19 ++ " " ++ body) 20 = body := by
    apply String.ext
    simp only [sliceFrom, hd]
    have : ts19.data ++ ' ' :: body.data = (ts19.data ++ [' ']) ++ body.data := by simp
    rw [this]
    have hl2 : (ts19.data ++ [' ']).length = 20 := by simp [hl]
    rw [← hl2, List.drop_left]
  unfold decode
  rw [if_neg h1]
  simp only [h2, ht, h3]

theorem decode_plain (env : Stdlib) (ts19 m : String) (a b : Char) (t : Int)
    (hlen : len ts19 = 19) (ht : env.timeParse ("2021 " ++ ts19) = some t) (ha : a ≠ '-') :
    decode env (ts19 ++ " " ++ (⟨[a, b]⟩ ++ m)) = .ok (t, 0, m) := by
  rw [decode_head env ts19 _ t hlen ht]
  simp [String.data_append, ha, dropSeverity, len, sliceFrom]

theorem dropWhile_replicate_space (k : Nat) (a : Char) (l : List Char) (ha : a ≠ ' ') :
    (List.replicate k ' ' ++ a :: l).dropWhile (· == ' ') = a :: l := by
  induction k with
  | zero =>
    have h2 : (a == ' ') = false := by simpa using ha
    simp [List.dropWhile, h2]
  | succ n ih => simpa [List.replicate_succ, List.dropWhile] using ih

theorem decode_duration_prefix (env : Stdlib) (ts19 tok m : String) (a b c : Char) (k : Nat)
    (t dur : Int) (hlen : len ts19 = 19) (ht : env.timeParse ("2021 " ++ ts19) = some t)
    (htok : ' ' ∉ tok.data) (hd : env.ParseDuration tok = some dur) (ha : a ≠ ' ') :
    decode env (ts19 ++ " " ++
      (⟨['-', c]⟩ ++ tok ++ " " ++ ⟨List.replicate k ' '⟩ ++ ⟨[a, b]⟩ ++ m)) =
      .ok (t, dur, m) := by
  rw [decode_head env ts19 _ t hlen ht]
  have hi : Index (sliceFrom (⟨['-', c]⟩ ++ tok ++ " " ++ ⟨List.replicate k ' '⟩ ++
      ⟨[a, b]⟩ ++ m) 2) " " = some tok.data.length := by
    simp only [Index, sliceFrom, String.data_append]
    have := indexIn_space_append tok.data (List.replicate k ' ' ++ a :: b :: m.data) htok
    simpa using this
  have hs : sliceTo (sliceFrom (⟨['-', c]⟩ ++ tok ++ " " ++ ⟨List.replicate k ' '⟩ ++
      ⟨[a, b]⟩ ++ m) 2) tok.data.length = tok := by
    apply String.ext
    simp [sliceTo, sliceFrom, String.data_append]
  have hr : TrimLeft (sliceFrom (sliceFrom (⟨['-', c]⟩ ++ tok ++ " " ++
      ⟨List.replicate k ' '⟩ ++ ⟨[a, b]⟩ ++ m) 2) (tok.data.length + 1)) ' ' =
      ⟨[a, b]⟩ ++ m := by
    apply String.ext
    simp only [TrimLeft, sliceFrom, String.data_append]
    have e : List.drop (tok.data.length + 1) (List.drop 2
        (['-', c] ++ tok.data ++ " ".data ++ List.replicate k ' ' ++ [a, b] ++ m.data)) =
        List.replicate k ' ' ++ a :: b :: m.data := by
      have : List.drop 2 (['-', c] ++ tok.data ++ " ".data ++ List.replicate k ' ' ++
          [a, b] ++ m.data) =
          (tok.data ++ [' ']) ++ (List.replicate k ' ' ++ a :: b :: m.data) := by simp
      rw [this]
      have hl2 : (tok.data ++ [' ']).length = tok.data.length + 1 := by simp
      rw [← hl2, List.drop_left]
    rw [e, dropWhile_replicate_space k a _ ha]
    rfl
  have hb : (⟨['-', c]⟩ ++ tok ++ " " ++ ⟨List.replicate k ' '⟩ ++ ⟨[a, b]⟩ ++ m : String).data =
      '-' :: c :: (tok.data ++ ' ' :: (List.replicate k ' ' ++ a :: b :: m.data)) := by
    simp [String.data_append]
  have hlen2 : ¬ len (⟨['-', c]⟩ ++ tok ++ " " ++ ⟨List.replicate k ' '⟩ ++ ⟨[a, b]⟩ ++ m) < 2 := by
    simp [len, hb]
  rw [hb]
  simp only [if_true, hlen2, if_false, hi, hs, hd, hr]
  simp [dropSeverity, len, sliceFrom, String.data_append]

theorem decode_one_byte (env : Stdlib) (ts19 : String) (a : Char) (t : Int)
    (hlen : len ts19 = 19) (ht : env.timeParse ("2021 " ++ ts19) = some t) (ha : a ≠ '-') :
    decode env (ts19 ++ " " ++ ⟨[a]⟩) = .error .panic := by
  rw [decode_head env ts19 _ t hlen ht]
  simp [ha, dropSeverity, len]

theorem processLine_of_decode (env : Stdlib) (s : Run) (line0 line m : String) (t d : Int)
    (htrim : TrimRight line0 '\n' = line) (hne : line ≠ "")
    (hdec : decode env line = .ok (t, d, m)) :
    processLine env s line0 = translate s t d m := by
  unfold processLine
  simp only [htrim, hne, if_false, hdec]

/-! ## States reached by a run, and events that are not metadata -/

theorem reach_facts (env : Stdlib) (lines : List String) (s : Run)
    (hs : main env lines = .ok s) :
    RunInv s ∧ s.pid1 = 1 ∧ GoMap.get s.g.tids (sprintfTidKey 0 "other") = some 1 := by
  have h := StepOk_runFrom env lines mainInit RunInv_mainInit
  unfold main at hs
  rw [hs] at h
  obtain ⟨h1, h2, ms, h3⟩ := h
  exact ⟨h1, h2, h3.tids_mono _ _ (by decide)⟩

theorem nonMeta_append (a b : List traceEvent) : nonMeta (a ++ b) = nonMeta a ++ nonMeta b := by
  simp [nonMeta, List.filter_append]

theorem nonMeta_meta (ms : List traceEvent) (h : ∀ e ∈ ms, e.Ph = "M") : nonMeta ms = [] := by
  simp only [nonMeta, List.filter_eq_nil_iff]
  intro e he
  simp [h e he]

theorem nonMeta_single (e : traceEvent) (h : e.Ph ≠ "M") : nonMeta [e] = [e] := by
  simp [nonMeta, h]

theorem HasPrefix_ns_of_e2e (x : String) (h : HasPrefix x "ns/e2e-" = true) :
    HasPrefix x "ns/" = true := by
  obtain ⟨t, rfl⟩ := (HasPrefix_iff _ _).1 h
  simp [HasPrefix, String.data_append, List.isPrefixOf]

theorem HasPrefix_operator_excl (x : String) (h : HasPrefix x "clusteroperator/" = true) :
    HasPrefix x "ns/e2e-" = false ∧ HasPrefix x "ns/" = false ∧ HasPrefix x "node/" = false := by
  obtain ⟨t, rfl⟩ := (HasPrefix_iff _ _).1 h
  simp [HasPrefix, String.data_append, List.isPrefixOf]

theorem HasPrefix_e2etest_excl (x : String) (h : HasPrefix x "e2e-test/" = true) :
    HasPrefix x "ns/e2e-" = false ∧ HasPrefix x "ns/" = false ∧ HasPrefix x "node/" = false ∧
    HasPrefix x "clusteroperator/" = false := by
  obtain ⟨t, rfl⟩ := (HasPrefix_iff _ _).1 h
  simp [HasPrefix, String.data_append, List.isPrefixOf]

theorem GetPID_frame (g : traceEventsGenerator) (ip : List (String × String)) (n : String)
    (hI : Inv g ip) (k : String) (hk : k ≠ sprintfTidKey 0 n) :
    GoMap.get (GetPID g n).1.tids k = GoMap.get g.tids k := by
  rcases GetPID_cases g ip n hI with ⟨id, _, e⟩ | ⟨_, e⟩
  · rw [e]
  · rw [e]
    show GoMap.get (allocProc g n).tids k = _
    rw [allocProc_tids, GoMap.get_set_other _ _ _ _ hk]

/-- A record that only resolves a process: metadata for the process if it is
new, then one `X` event with `tid = pid`; the open-interval map is untouched. -/
theorem plainRecord_spec (s : Run) (ts d : Int) (msg name : String) (hs : RunInv s) :
    ∃ s2 pid, plainRecord s ts d msg name = .ok s2 ∧
      GoMap.get s2.g.tids (sprintfTidKey 0 name) = some pid ∧
      nonMeta (s2.g.out.drop s.g.out.length) =
        [ { Name := msg, Ph := "X", PID := pid, TID := pid, TS := Int.tdiv ts 1000,
            Dur := Int.tdiv (max d Second) 1000 } ] ∧
      (∀ k, k ≠ sprintfTidKey 0 name → GoMap.get s2.g.tids k = GoMap.get s.g.tids k) ∧
      s2.inProgress = s.inProgress := by
  obtain ⟨hI1, hp1, hk1, ms1, hext1, hM1⟩ := GetPID_spec s.g s.inProgress name hs.inv
  refine ⟨_, (GetPID s.g name).2, rfl, hk1, ?_, fun k hk => GetPID_frame s.g _ name hs.inv k hk,
    rfl⟩
  show nonMeta (List.drop s.g.out.length ((GetPID s.g name).1.out ++ [_])) = _
  rw [hext1.out_eq, List.append_assoc, List.drop_left, nonMeta_append, nonMeta_meta ms1 hM1,
    List.nil_append, nonMeta_single _ (by simp [finalEvent])]
  simp [finalEvent, clamp_eq_max]

theorem classify_e2eNamespace (msg : String) (h : HasPrefix (SplitN msg).1 "ns/e2e-" = true) :
    classify msg = .e2eNamespace := by
  simp [classify, h]

theorem classify_other (msg : String)
    (h1 : HasPrefix (SplitN msg).1 "ns/" = false)
    (h2 : HasPrefix (SplitN msg).1 "node/" = false)
    (h3 : HasPrefix (SplitN msg).1 "clusteroperator/" = false)
    (h4 : HasPrefix (SplitN msg).1 "e2e-test/" = false) : classify msg = .other := by
  have h0 : HasPrefix (SplitN msg).1 "ns/e2e-" = false := by
    cases h : HasPrefix (SplitN msg).1 "ns/e2e-" with
    | false => rfl
    | true => rw [HasPrefix_ns_of_e2e _ h] at h1; cases h1
  simp [classify, h0, h1, h2, h3, h4]

theorem classify_ns (T rest : String) (hT : ' ' ∉ T.data)
    (h1 : HasPrefix T "ns/" = true) (h2 : HasPrefix T "ns/e2e-" = false) :
    classify (T ++ " " ++ rest) =
      if HasPrefix (SplitN rest).1 "pod/" = true then .nsPod T (SplitN rest).1
      else .nsPlain T := by
  simp [classify, SplitN_append T rest hT, h1, h2]

/-- A record of a namespace and a pod: metadata for what is new, then one `X`
event whose `tid` is the identifier of the pod under the namespace. -/
theorem podRecord_spec (s : Run) (ts d : Int) (msg ns pod : String) (hs : RunInv s) :
    ∃ s2 pid tid, applyRule s ts d msg (.nsPod ns pod) = .ok s2 ∧
      GoMap.get s2.g.tids (sprintfTidKey 0 ns) = some pid ∧
      GoMap.get s2.g.tids (sprintfTidKey pid pod) = some tid ∧ tid ≠ pid ∧
      nonMeta (s2.g.out.drop s.g.out.length) =
        [ { Name := msg, Ph := "X", PID := pid, TID := tid, TS := Int.tdiv ts 1000,
            Dur := Int.tdiv (max d Second) 1000 } ] ∧
      s2.inProgress = s.inProgress := by
  obtain ⟨hI1, hp1, hk1, ms1, hext1, hM1⟩ := GetPID_spec s.g s.inProgress ns hs.inv
  have hne : (GetPID s.g ns).2 ≠ 0 := by
    have := pidSeen_range _ _ hI1 _ hp1
    omega
  obtain ⟨hI2, ht2, hk2, ms2, hext2, hM2⟩ :=
    GetTID_spec (GetPID s.g ns).1 s.inProgress (GetPID s.g ns).2 pod hI1 hne
  have hk1b := hext2.tids_mono _ _ hk1
  have hdiff : (GetTID (GetPID s.g ns).1 (GetPID s.g ns).2 pod).2 ≠ (GetPID s.g ns).2 := by
    intro e
    rw [e] at hk2
    have := (sprintfTidKey_inj _ _ _ _ (hI2.reg.tids_inj _ _ _ hk2 hk1b)).1
    exact hne this
  have htne : (GetTID (GetPID s.g ns).1 (GetPID s.g ns).2 pod).2 ≠ 0 := by omega
  refine ⟨_, (GetPID s.g ns).2, (GetTID (GetPID s.g ns).1 (GetPID s.g ns).2 pod).2, rfl,
    hk1b, hk2, hdiff, ?_, rfl⟩
  show nonMeta (List.drop s.g.out.length
    ((GetTID (GetPID s.g ns).1 (GetPID s.g ns).2 pod).1.out ++ [_])) = _
  rw [hext2.out_eq, hext1.out_eq, List.append_assoc, List.append_assoc, List.drop_left,
    nonMeta_append, nonMeta_append, nonMeta_meta ms1 hM1, nonMeta_meta ms2 hM2,
    List.nil_append, List.nil_append, nonMeta_single _ (by simp [finalEvent])]
  simp [finalEvent, clamp_eq_max, htne]

/-! ## Index errors -/

theorem indexIn_space_none_iff (l : List Char) : indexIn [' '] l = none ↔ ' ' ∉ l := by
  refine ⟨?_, indexIn_space_none l⟩
  induction l with
  | nil => intro _; simp
  | cons c t ih =>
    intro h
    rw [indexIn_space_cons] at h
    by_cases hc : c = ' '
    · rw [if_pos hc] at h; cases h
    · rw [if_neg hc] at h
      have ht : indexIn [' '] t = none := by
        cases hi : indexIn [' '] t with
        | none => rfl
        | some j => rw [hi] at h; cases h
      intro hm
      rcases List.mem_cons.1 hm with hm | hm
      · exact hc hm.symm
      · exact ih ht hm

theorem SplitN_snd_none_iff (m : String) : (SplitN m).2 = none ↔ ' ' ∉ m.data := by
  rw [← indexIn_space_none_iff]
  unfold SplitN Index
  have : (" " : String).data = [' '] := rfl
  rw [this]
  cases indexIn [' '] m.data <;> simp

theorem operatorRecord_isOk (s : Run) (ts d : Int) (op cond st msg : String) :
    (operatorRecord s ts d op cond st msg).isPanic = false ∧
    (operatorRecord s ts d op cond st msg).isOk = true := by
  unfold operatorRecord
  simp only
  split <;> exact ⟨rfl, rfl⟩

theorem e2eRecord_isOk (s : Run) (ts d : Int) (msg test : String) (started : Bool) :
    (e2eRecord s ts d msg test started).isPanic = false ∧
    (e2eRecord s ts d msg test started).isOk = true := by
  unfold e2eRecord
  simp only
  split
  · split <;> exact ⟨rfl, rfl⟩
  · exact ⟨rfl, rfl⟩

theorem isPanic_applyRule (s : Run) (ts d : Int) (msg : String) (r : Rule) :
    (applyRule s ts d msg r).isPanic = r.panics ∧
    (applyRule s ts d msg r).isOk = !r.panics := by
  cases r with
  | opCondition op cond st => exact operatorRecord_isOk s ts d op cond st msg
  | e2eStart test => exact e2eRecord_isOk s ts d msg test true
  | e2eFinish test => exact e2eRecord_isOk s ts d msg test false
  | _ => exact ⟨rfl, rfl⟩

theorem classify_panics_iff (m : String) :
    (classify m).panics = true ↔
      ((((HasPrefix (SplitN m).1 "ns/" = true ∧ HasPrefix (SplitN m).1 "ns/e2e-" = false) ∨
          HasPrefix (SplitN m).1 "clusteroperator/" = true) ∧ ' ' ∉ m.data) ∨
       (HasPrefix (SplitN m).1 "clusteroperator/" = true ∧
          ∃ rest, (SplitN m).2 = some rest ∧ HasPrefix (SplitN rest).1 "condition/" = true ∧
            ' ' ∉ rest.data)) := by
  rw [← SplitN_snd_none_iff]
  by_cases he : HasPrefix (SplitN m).1 "ns/e2e-" = true
  · have hns := HasPrefix_ns_of_e2e _ he
    have hop : HasPrefix (SplitN m).1 "clusteroperator/" = false := by
      cases h : HasPrefix (SplitN m).1 "clusteroperator/" with
      | false => rfl
      | true => rw [(HasPrefix_operator_excl _ h).1] at he; cases he
    simp [classify, he, hop, Rule.panics]
  · have he2 : HasPrefix (SplitN m).1 "ns/e2e-" = false := by simpa using he
    by_cases hns : HasPrefix (SplitN m).1 "ns/" = true
    · have hop : HasPrefix (SplitN m).1 "clusteroperator/" = false := by
        cases h : HasPrefix (SplitN m).1 "clusteroperator/" with
        | false => rfl
        | true => rw [(HasPrefix_operator_excl _ h).2.1] at hns; cases hns
      cases h2 : (SplitN m).2 with
      | none => simp [classify, he2, hns, hop, h2, Rule.panics]
      | some rest =>
        by_cases hp : HasPrefix (SplitN rest).1 "pod/" = true <;>
          simp [classify, he2, hns, hop, h2, hp, Rule.panics]
    · have hns2 : HasPrefix (SplitN m).1 "ns/" = false := by simpa using hns
      by_cases hnode : HasPrefix (SplitN m).1 "node/" = true
      · have hop : HasPrefix (SplitN m).1 "clusteroperator/" = false := by
          cases h : HasPrefix (SplitN m).1 "clusteroperator/" with
          | false => rfl
          | true => rw [(HasPrefix_operator_excl _ h).2.2] at hnode; cases hnode
        simp [classify, he2, hns2, hnode, hop, Rule.panics]
      · have hnode2 : HasPrefix (SplitN m).1 "node/" = false := by simpa using hnode
        by_cases hop : HasPrefix (SplitN m).1 "clusteroperator/" = true
        · cases h2 : (SplitN m).2 with
          | none => simp [classify, he2, hns2, hnode2, hop, h2, Rule.panics]
          | some rest =>
            by_cases hc : HasPrefix (SplitN rest).1 "condition/" = true
            · cases h3 : (SplitN rest).2 with
              | none =>
                have := (SplitN_snd_none_iff rest).1 h3
                simp [classify, he2, hns2, hnode2, hop, h2, hc, h3, Rule.panics, this]
              | some st =>
                have : ¬ (' ' ∉ rest.data) := by
                  rw [← SplitN_snd_none_iff, h3]; simp
                simp [classify, he2, hns2, hnode2, hop, h2, hc, h3, Rule.panics, this]
            · simp [classify, he2, hns2, hnode2, hop, h2, hc, Rule.panics]
        · have hop2 : HasPrefix (SplitN m).1 "clusteroperator/" = false := by simpa using hop
          by_cases ht : HasPrefix (SplitN m).1 "e2e-test/" = true
          · simp only [classify, he2, hns2, hnode2, hop2, ht]
            repeat' split
            all_goals simp [Rule.panics]
          · simp [classify, he2, hns2, hnode2, hop2, ht, Rule.panics]

theorem classify_opNoStatus (m rest : String)
    (hop : HasPrefix (SplitN m).1 "clusteroperator/" = true) (h2 : (SplitN m).2 = some rest)
    (hc : HasPrefix (SplitN rest).1 "condition/" = true) (hr : ' ' ∉ rest.data) :
    classify m = .opNoStatus (SplitN m).1 rest := by
  obtain ⟨e1, e2, e3⟩ := HasPrefix_operator_excl _ hop
  have h3 : SplitN rest = (rest, none) := SplitN_none rest hr
  rw [h3] at hc
  simp [classify, e1, e2, e3, hop, h2, h3, hc]

/-! ## The events of one record, exit by exit -/

theorem usesInterval_classify (m : String) :
    (classify m).usesInterval = usesIntervalLogic m := by
  by_cases he : HasPrefix (SplitN m).1 "ns/e2e-" = true
  · have hns := HasPrefix_ns_of_e2e _ he
    have hop : HasPrefix (SplitN m).1 "clusteroperator/" = false := by
      cases h : HasPrefix (SplitN m).1 "clusteroperator/" with
      | false => rfl
      | true => rw [(HasPrefix_operator_excl _ h).1] at he; cases he
    have ht : HasPrefix (SplitN m).1 "e2e-test/" = false := by
      cases h : HasPrefix (SplitN m).1 "e2e-test/" with
      | false => rfl
      | true => rw [(HasPrefix_e2etest_excl _ h).1] at he; cases he
    simp [classify, usesIntervalLogic, he, hop, ht, Rule.usesInterval]
  · have he2 : HasPrefix (SplitN m).1 "ns/e2e-" = false := by simpa using he
    by_cases hns : HasPrefix (SplitN m).1 "ns/" = true
    · have hop : HasPrefix (SplitN m).1 "clusteroperator/" = false := by
        cases h : HasPrefix (SplitN m).1 "clusteroperator/" with
        | false => rfl
        | true => rw [(HasPrefix_operator_excl _ h).2.1] at hns; cases hns
      have ht : HasPrefix (SplitN m).1 "e2e-test/" = false := by
        cases h : HasPrefix (SplitN m).1 "e2e-test/" with
        | false => rfl
        | true => rw [(HasPrefix_e2etest_excl _ h).2.1] at hns; cases hns
      simp only [classify, usesIntervalLogic, he2, hns, hop, ht]
      repeat' split
      all_goals simp [Rule.usesInterval]
    · have hns2 : HasPrefix (SplitN m).1 "ns/" = false := by simpa using hns
      by_cases hnode : HasPrefix (SplitN m).1 "node/" = true
      · have hop : HasPrefix (SplitN m).1 "clusteroperator/" = false := by
          cases h : HasPrefix (SplitN m).1 "clusteroperator/" with
          | false => rfl
          | true => rw [(HasPrefix_operator_excl _ h).2.2] at hnode; cases hnode
        have ht : HasPrefix (SplitN m).1 "e2e-test/" = false := by
          cases h : HasPrefix (SplitN m).1 "e2e-test/" with
          | false => rfl
          | true => rw [(HasPrefix_e2etest_excl _ h).2.2.1] at hnode; cases hnode
        simp [classify, usesIntervalLogic, he2, hns2, hnode, hop, ht, Rule.usesInterval]
      · have hnode2 : HasPrefix (SplitN m).1 "node/" = false := by simpa using hnode
        by_cases hop : HasPrefix (SplitN m).1 "clusteroperator/" = true
        · have ht : HasPrefix (SplitN m).1 "e2e-test/" = false := by
            cases h : HasPrefix (SplitN m).1 "e2e-test/" with
            | false => rfl
            | true => rw [(HasPrefix_e2etest_excl _ h).2.2.2] at hop; cases hop
          cases h2 : (SplitN m).2 with
          | none =>
            simp [classify, usesIntervalLogic, he2, hns2, hnode2, hop, ht, h2, Rule.usesInterval]
          | some rest =>
            by_cases hc : HasPrefix (SplitN rest).1 "condition/" = true
            · cases h3 : (SplitN rest).2 <;>
                simp [classify, usesIntervalLogic, he2, hns2, hnode2, hop, ht, h2, hc, h3,
                  Rule.usesInterval]
            · simp [classify, usesIntervalLogic, he2, hns2, hnode2, hop, ht, h2, hc,
                Rule.usesInterval]
        · have hop2 : HasPrefix (SplitN m).1 "clusteroperator/" = false := by simpa using hop
          by_cases ht : HasPrefix (SplitN m).1 "e2e-test/" = true
          · by_cases hst : HasSuffix m " started" = true
            · simp [classify, usesIntervalLogic, he2, hns2, hnode2, hop2, ht, hst,
                Rule.usesInterval]
            · cases hi : Index m " finishedStatus/" <;>
                simp [classify, usesIntervalLogic, he2, hns2, hnode2, hop2, ht, hst, hi,
                  Rule.usesInterval]
          · simp [classify, usesIntervalLogic, he2, hns2, hnode2, hop2, ht, Rule.usesInterval]

/-- The events of an exit through the interval logic: the `E` event of the
open interval of the pair, if there is one, then the final event. -/
theorem interval_exit (s s2 : Run) (G : traceEventsGenerator) (ms : List traceEvent)
    (pid tid ts d : Int) (phase name : String) (ip2 : List (String × String))
    (hout : G.out = s.g.out ++ ms) (hM : ∀ e ∈ ms, e.Ph = "M") (ht : tid ≠ 0)
    (hph : phase = "X" ∨ phase = "B")
    (h : finish s (closePrevious G s.inProgress (sprintfKey pid tid) pid tid ts).1 ip2
      pid tid phase name ts d = .ok s2) :
    (finalEvent pid tid phase name ts d).PID = pid ∧
    (finalEvent pid tid phase name ts d).TID = tid ∧
    ((∃ prev, GoMap.get s.inProgress (sprintfKey pid tid) = some prev ∧
        nonMeta (s2.g.out.drop s.g.out.length) =
          [endEvent prev pid tid ts, finalEvent pid tid phase name ts d]) ∨
     (GoMap.get s.inProgress (sprintfKey pid tid) = none ∧
        nonMeta (s2.g.out.drop s.g.out.length) = [finalEvent pid tid phase name ts d])) := by
  have hfinM : (finalEvent pid tid phase name ts d).Ph ≠ "M" := by
    rcases hph with e | e <;> simp [finalEvent, e]
  rw [finish_eq] at h
  cases h
  refine ⟨rfl, by simp [finalEvent, ht], ?_⟩
  cases hg : GoMap.get s.inProgress (sprintfKey pid tid) with
  | none =>
    refine Or.inr ⟨rfl, ?_⟩
    rw [closePrevious_none _ _ _ _ _ _ hg]
    show nonMeta (List.drop s.g.out.length (G.out ++ [_])) = _
    rw [hout, List.append_assoc, List.drop_left, nonMeta_append, nonMeta_meta ms hM,
      List.nil_append, nonMeta_single _ hfinM]
  | some prev =>
    refine Or.inl ⟨prev, rfl, ?_⟩
    rw [closePrevious_some _ _ _ _ _ _ prev hg]
    show nonMeta (List.drop s.g.out.length ((G.out ++ [_]) ++ [_])) = _
    rw [hout, List.append_assoc, List.append_assoc, List.drop_left, nonMeta_append,
      nonMeta_append, nonMeta_meta ms hM, List.nil_append,
      nonMeta_single _ (by simp [endEvent]), nonMeta_single _ hfinM]
    rfl

theorem HasSuffix_trim (s suf : String) (h : HasSuffix s suf = true) :
    s = TrimSuffix s suf ++ suf := by
  have h2 : suf.data <:+ s.data := by
    simpa [HasSuffix, List.isSuffixOf_iff_suffix] using h
  obtain ⟨t, ht⟩ := h2
  apply String.ext
  simp only [TrimSuffix, h, if_true, sliceTo, len, String.data_append]
  rw [← ht]
  simp

theorem plain_exit (s s2 : Run) (ts d : Int) (msg name : String) (r : Rule) (hs : RunInv s)
    (hr : r.usesInterval = false) (h : plainRecord s ts d msg name = .ok s2) :
    ∃ fin : traceEvent, (fin.Ph = "X" ∨ fin.Ph = "B") ∧
      (fin.Name = msg ∨ r = .e2eStart fin.Name) ∧
      ((r.usesInterval = true ∧ ∃ prev,
          GoMap.get s.inProgress (sprintfKey fin.PID fin.TID) = some prev ∧
          nonMeta (s2.g.out.drop s.g.out.length) = [endEvent prev fin.PID fin.TID ts, fin]) ∨
       ((r.usesInterval = false ∨
          GoMap.get s.inProgress (sprintfKey fin.PID fin.TID) = none) ∧
          nonMeta (s2.g.out.drop s.g.out.length) = [fin])) := by
  obtain ⟨s3, pid, e1, _, e3, _, _⟩ := plainRecord_spec s ts d msg name hs
  rw [h] at e1
  cases e1
  exact ⟨_, Or.inl rfl, Or.inl rfl, Or.inr ⟨Or.inl hr, e3⟩⟩

theorem interval_exit2 (s s2 : Run) (ts d : Int) (msg : String) (r : Rule)
    (G : traceEventsGenerator) (ms : List traceEvent) (pid tid : Int) (phase name : String)
    (ip2 : List (String × String))
    (hr : r.usesInterval = true) (hname : name = msg ∨ r = .e2eStart name)
    (hout : G.out = s.g.out ++ ms) (hM : ∀ e ∈ ms, e.Ph = "M") (ht : tid ≠ 0)
    (hph : phase = "X" ∨ phase = "B")
    (h : finish s (closePrevious G s.inProgress (sprintfKey pid tid) pid tid ts).1 ip2
      pid tid phase name ts d = .ok s2) :
    ∃ fin : traceEvent, (fin.Ph = "X" ∨ fin.Ph = "B") ∧
      (fin.Name = msg ∨ r = .e2eStart fin.Name) ∧
      ((r.usesInterval = true ∧ ∃ prev,
          GoMap.get s.inProgress (sprintfKey fin.PID fin.TID) = some prev ∧
          nonMeta (s2.g.out.drop s.g.out.length) = [endEvent prev fin.PID fin.TID ts, fin]) ∨
       ((r.usesInterval = false ∨
          GoMap.get s.inProgress (sprintfKey fin.PID fin.TID) = none) ∧
          nonMeta (s2.g.out.drop s.g.out.length) = [fin])) := by
  obtain ⟨ePID, eTID, hcase⟩ := interval_exit s s2 G ms pid tid ts d phase name ip2 hout hM ht hph h
  refine ⟨finalEvent pid tid phase name ts d, hph, hname, ?_⟩
  rw [ePID, eTID]
  rcases hcase with ⟨prev, h1, h2⟩ | ⟨h1, h2⟩
  · exact Or.inl ⟨hr, prev, h1, h2⟩
  · exact Or.inr ⟨Or.inr h1, h2⟩

/-- The events of an accepted record: one final `X` or `B` event, preceded by
an `E` event exactly when the exit runs the interval logic and the pair of
the final event has an open interval. -/
theorem applyRule_events (s s2 : Run) (ts d : Int) (msg : String) (r : Rule) (hs : RunInv s)
    (h : applyRule s ts d msg r = .ok s2) :
    ∃ fin : traceEvent, (fin.Ph = "X" ∨ fin.Ph = "B") ∧
      (fin.Name = msg ∨ r = .e2eStart fin.Name) ∧
      ((r.usesInterval = true ∧ ∃ prev,
          GoMap.get s.inProgress (sprintfKey fin.PID fin.TID) = some prev ∧
          nonMeta (s2.g.out.drop s.g.out.length) = [endEvent prev fin.PID fin.TID ts, fin]) ∨
       ((r.usesInterval = false ∨
          GoMap.get s.inProgress (sprintfKey fin.PID fin.TID) = none) ∧
          nonMeta (s2.g.out.drop s.g.out.length) = [fin])) := by
  have hInt : ∀ (name0 thr : String),
      ∃ ms, (GetTID (GetPID s.g name0).1 (GetPID s.g name0).2 thr).1.out = s.g.out ++ ms ∧
        (∀ e ∈ ms, e.Ph = "M") ∧
        (GetTID (GetPID s.g name0).1 (GetPID s.g name0).2 thr).2 ≠ 0 := by
    intro name0 thr
    obtain ⟨hI1, hp1, _, ms1, hext1, hM1⟩ := GetPID_spec s.g s.inProgress name0 hs.inv
    have hne : (GetPID s.g name0).2 ≠ 0 := by
      have := pidSeen_range _ _ hI1 _ hp1
      omega
    obtain ⟨_, ht2, _, ms2, hext2, hM2⟩ :=
      GetTID_spec (GetPID s.g name0).1 s.inProgress (GetPID s.g name0).2 thr hI1 hne
    refine ⟨ms1 ++ ms2, by rw [hext2.out_eq, hext1.out_eq, List.append_assoc], ?_, by omega⟩
    intro e he
    rcases List.mem_append.1 he with he | he
    · exact hM1 e he
    · exact hM2 e he
  cases r with
  | e2eNamespace => exact plain_exit s s2 ts d msg _ _ hs rfl h
  | nsPlain ns => exact plain_exit s s2 ts d msg _ _ hs rfl h
  | node n => exact plain_exit s s2 ts d msg _ _ hs rfl h
  | opPlain op => exact plain_exit s s2 ts d msg _ _ hs rfl h
  | e2ePlain => exact plain_exit s s2 ts d msg _ _ hs rfl h
  | nsNoRest ns => cases h
  | opNoRest op => cases h
  | opNoStatus op cond => cases h
  | nsPod ns pod =>
    obtain ⟨s3, pid, tid, e1, _, _, _, e5, _⟩ := podRecord_spec s ts d msg ns pod hs
    rw [h] at e1
    cases e1
    exact ⟨_, Or.inl rfl, Or.inl rfl, Or.inr ⟨Or.inl rfl, e5⟩⟩
  | other =>
    simp only [applyRule, finish_eq] at h
    cases h
    refine ⟨finalEvent s.pid1 0 "X" msg ts d, Or.inl rfl, Or.inl rfl, Or.inr ⟨Or.inl rfl, ?_⟩⟩
    show nonMeta (List.drop s.g.out.length (s.g.out ++ [_])) = _
    rw [List.drop_left, nonMeta_single _ (by simp [finalEvent])]
  | opCondition op cond st =>
    obtain ⟨ms, hout, hM, hne⟩ := hInt op cond
    simp only [applyRule, operatorRecord] at h
    split at h
    · exact interval_exit2 s s2 ts d msg _ _ ms _ _ "B" msg _ rfl (Or.inl rfl) hout hM hne
        (Or.inr rfl) h
    · exact interval_exit2 s s2 ts d msg _ _ ms _ _ "X" msg _ rfl (Or.inl rfl) hout hM hne
        (Or.inl rfl) h
  | e2eStart test =>
    obtain ⟨ms, hout, hM, hne⟩ := hInt "e2e-test/*" test
    simp only [applyRule, e2eRecord, hne, ne_eq, not_false_eq_true, if_true] at h
    exact interval_exit2 s s2 ts d msg _ _ ms _ _ "B" test _ rfl (Or.inr rfl) hout hM hne
      (Or.inr rfl) h
  | e2eFinish test =>
    obtain ⟨ms, hout, hM, hne⟩ := hInt "e2e-test/*" test
    simp only [applyRule, e2eRecord, hne, ne_eq, not_false_eq_true, if_true,
      Bool.false_eq_true, if_false] at h
    exact interval_exit2 s s2 ts d msg _ _ ms _ _ "X" msg _ rfl (Or.inl rfl) hout hM hne
      (Or.inl rfl) h

theorem classify_e2eStart_inv (msg test : String) (h : classify msg = .e2eStart test) :
    msg = test ++ " started" := by
  unfold classify at h
  simp only at h
  repeat' split at h
  all_goals first
    | (cases h
       exact HasSuffix_trim _ _ (by assumption))
    | cases h

/-! ## The first occurrence of a separator -/

theorem indexIn_first (sep : List Char) (l : List Char) :
    ∀ i, i ≤ l.length → sep <+: l.drop i → (∀ j, j < i → ¬ sep <+: l.drop j) →
      indexIn sep l = some i := by
  induction l with
  | nil =>
    intro i hi hp _
    have : i = 0 := by simpa using hi
    subst this
    simp only [List.drop_nil] at hp
    simp [indexIn, List.isPrefixOf_iff_prefix, hp]
  | cons c t ih =>
    intro i hi hp hfirst
    cases i with
    | zero =>
      simp only [List.drop_zero] at hp
      simp [indexIn, List.isPrefixOf_iff_prefix, hp]
    | succ k =>
      have h0 : ¬ sep <+: (c :: t) := by
        have := hfirst 0 (by omega)
        simpa using this
      have hk := ih k (by simpa using hi) (by simpa using hp)
        (fun j hj => by
          have := hfirst (j + 1) (by omega)
          simpa using this)
      simp [indexIn, List.isPrefixOf_iff_prefix, h0, hk]

/-- A separator that starts with a byte it does not repeat cannot begin
inside `t` and run over into a copy of itself placed after `t`. -/
theorem no_overlap (p0 : Char) (P2 t st : List Char) (hp : p0 ∉ P2)
    (hnf : ∀ a b, t ≠ a ++ (p0 :: P2) ++ b) :
    ∀ j, j < t.length → ¬ (p0 :: P2) <+: (t ++ (p0 :: P2) ++ st).drop j := by
  intro j hj hpre
  have hd : (t ++ (p0 :: P2) ++ st).drop j = t.drop j ++ ((p0 :: P2) ++ st) := by
    rw [List.append_assoc, List.drop_append_of_le_length (by omega)]
  rw [hd] at hpre
  obtain ⟨x, hx⟩ := hpre
  rcases List.append_eq_append_iff.1 hx with ⟨a2, e1, _⟩ | ⟨c2, e1, e2⟩
  · apply hnf (t.take j) a2
    have := List.take_append_drop j t
    rw [e1] at this
    rw [List.append_assoc]
    exact this.symm
  · cases hu : t.drop j with
    | nil =>
      have : (t.drop j).length = t.length - j := List.length_drop j t
      rw [hu] at this
      simp at this
      omega
    | cons u0 u2 =>
      rw [hu] at e1
      cases c2 with
      | nil =>
        apply hnf (t.take j) []
        have := List.take_append_drop j t
        rw [hu] at this
        simp only [List.append_nil] at e1
        rw [List.append_nil, e1]
        exact this.symm
      | cons c0 c3 =>
        simp only [List.cons_append, List.cons.injEq] at e1 e2
        have hc0 : c0 = p0 := e2.1.symm
        apply hp
        rw [e1.2, hc0]
        simp

theorem Index_finished (t st : String) (hnf : ∀ a b : String, t ≠ a ++ " finishedStatus/" ++ b) :
    Index (t ++ " finishedStatus/" ++ st) " finishedStatus/" = some (len t) := by
  have hsep : (" finishedStatus/" : String).data = ' ' :: "finishedStatus/".data := rfl
  have hnf2 : ∀ a b : List Char, t.data ≠ a ++ (' ' :: "finishedStatus/".data) ++ b := by
    intro a b e
    apply hnf ⟨a⟩ ⟨b⟩
    apply String.ext
    simp only [String.data_append, hsep, e]
  unfold Index len
  simp only [String.data_append, hsep]
  apply indexIn_first
  · simp
  · rw [List.append_assoc, List.drop_left]
    exact List.prefix_append _ _
  · exact no_overlap ' ' _ t.data st.data (by decide) hnf2

theorem HasPrefix_first_token (m p : String) (hp : ' ' ∉ p.data) (h : HasPrefix m p = true) :
    HasPrefix (SplitN m).1 p = true := by
  unfold SplitN
  cases hi : Index m " " with
  | none => exact h
  | some i =>
    obtain ⟨a, b, e1, e2, e3⟩ := indexIn_space_some _ _ hi
    have hpm : p.data <+: m.data := by
      simpa [HasPrefix, List.isPrefixOf_iff_prefix] using h
    have hta : (sliceTo m i).data = a := by
      simp only [sliceTo, e1, ← e3, List.take_left]
    simp only [HasPrefix, List.isPrefixOf_iff_prefix, hta]
    have ham : a <+: m.data := ⟨' ' :: b, e1.symm⟩
    by_cases hl : p.data.length ≤ a.length
    · exact List.prefix_of_prefix_length_le hpm ham hl
    · exfalso
      have h1 : (a ++ [' ']) <+: m.data := ⟨b, by rw [e1]; simp⟩
      have h2 : (a ++ [' ']) <+: p.data :=
        List.prefix_of_prefix_length_le h1 hpm (by
          rw [List.length_append, List.length_singleton]; omega)
      obtain ⟨r, hr⟩ := h2
      apply hp
      rw [← hr]
      simp

theorem HasSuffix_append (t suf : String) : HasSuffix (t ++ suf) suf = true := by
  simp [HasSuffix, List.isSuffixOf_iff_suffix, String.data_append]

theorem TrimSuffix_append (t suf : String) : TrimSuffix (t ++ suf) suf = t := by
  apply String.ext
  simp [TrimSuffix, HasSuffix_append, sliceTo, len, String.data_append]

theorem HasPrefix_append_right (t x p : String) (h : HasPrefix t p = true) :
    HasPrefix (t ++ x) p = true := by
  obtain ⟨u, rfl⟩ := (HasPrefix_iff _ _).1 h
  exact (HasPrefix_iff _ _).2 ⟨u ++ x, by rw [String.append_assoc]⟩

theorem classify_e2eStart (t : String) (ht : HasPrefix t "e2e-test/" = true) :
    classify (t ++ " started") = .e2eStart t := by
  have h1 := HasPrefix_first_token (t ++ " started") "e2e-test/" (by decide)
    (HasPrefix_append_right t _ _ ht)
  obtain ⟨e1, e2, e3, e4⟩ := HasPrefix_e2etest_excl _ h1
  simp [classify, h1, e1, e2, e3, e4, HasSuffix_append, TrimSuffix_append]

theorem classify_e2eFinish (t st : String) (ht : HasPrefix t "e2e-test/" = true)
    (hnf : ∀ a b : String, t ≠ a ++ " finishedStatus/" ++ b)
    (hns : HasSuffix (t ++ " finishedStatus/" ++ st) " started" = false) :
    classify (t ++ " finishedStatus/" ++ st) = .e2eFinish t := by
  have h0 : HasPrefix (t ++ " finishedStatus/" ++ st) "e2e-test/" = true := by
    rw [String.append_assoc]
    exact HasPrefix_append_right t _ _ ht
  have h1 := HasPrefix_first_token _ "e2e-test/" (by decide) h0
  obtain ⟨e1, e2, e3, e4⟩ := HasPrefix_e2etest_excl _ h1
  have hs : sliceTo (t ++ " finishedStatus/" ++ st) (len t) = t := by
    apply String.ext
    simp [sliceTo, len, String.data_append]
  simp [classify, h1, e1, e2, e3, e4, hns, Index_finished t st hnf, hs]

/-- A start observation of an e2e test: an `E` event if the pair was open,
then a `B` event named after the test, which the map now holds. -/
theorem e2e_open (s : Run) (ts d : Int) (msg t : String) (pid tid : Int) (hs : RunInv s)
    (hpid : (GetPID s.g "e2e-test/*").2 = pid)
    (htid : (GetTID (GetPID s.g "e2e-test/*").1 pid t).2 = tid) :
    ∃ G pre ip2, e2eRecord s ts d msg t true =
        .ok { s with g := Emit G (finalEvent pid tid "B" t ts d),
                     inProgress := GoMap.set ip2 (sprintfKey pid tid) t } ∧
      G.out = s.g.out ++ pre ∧ (∀ e ∈ pre, e.Ph = "M" ∨ e.Ph = "E") ∧
      GoMap.get G.tids (sprintfTidKey 0 "e2e-test/*") = some pid ∧
      GoMap.get G.tids (sprintfTidKey pid t) = some tid ∧ 1 ≤ tid := by
  subst hpid
  subst htid
  obtain ⟨hI1, hp1, hk1, ms1, hext1, hM1⟩ := GetPID_spec s.g s.inProgress "e2e-test/*" hs.inv
  have hne : (GetPID s.g "e2e-test/*").2 ≠ 0 := by
    have := pidSeen_range _ _ hI1 _ hp1
    omega
  obtain ⟨hI2, ht2, hk2, ms2, hext2, hM2⟩ :=
    GetTID_spec (GetPID s.g "e2e-test/*").1 s.inProgress (GetPID s.g "e2e-test/*").2 t hI1 hne
  have hne2 : (GetTID (GetPID s.g "e2e-test/*").1 (GetPID s.g "e2e-test/*").2 t).2 ≠ 0 := by
    omega
  obtain ⟨hI3, _, hcnt, ms3, hext3⟩ := closePrevious_spec
    (GetTID (GetPID s.g "e2e-test/*").1 (GetPID s.g "e2e-test/*").2 t).1 s.inProgress
    (GetPID s.g "e2e-test/*").2
    (GetTID (GetPID s.g "e2e-test/*").1 (GetPID s.g "e2e-test/*").2 t).2 ts hI2
    (hext2.pids_mono _ hp1) ht2
  obtain ⟨pre, hpre, hpreM⟩ := Grows_trans _ _ _ (Grows_GetPID s.g "e2e-test/*")
    (Grows_trans _ _ _ (Grows_GetTID _ (GetPID s.g "e2e-test/*").2 t)
      (Grows_closePrevious _ s.inProgress
        (sprintfKey (GetPID s.g "e2e-test/*").2
          (GetTID (GetPID s.g "e2e-test/*").1 (GetPID s.g "e2e-test/*").2 t).2)
        (GetPID s.g "e2e-test/*").2
        (GetTID (GetPID s.g "e2e-test/*").1 (GetPID s.g "e2e-test/*").2 t).2 ts))
  refine ⟨(closePrevious (GetTID (GetPID s.g "e2e-test/*").1 (GetPID s.g "e2e-test/*").2 t).1
      s.inProgress (sprintfKey (GetPID s.g "e2e-test/*").2
        (GetTID (GetPID s.g "e2e-test/*").1 (GetPID s.g "e2e-test/*").2 t).2)
      (GetPID s.g "e2e-test/*").2
      (GetTID (GetPID s.g "e2e-test/*").1 (GetPID s.g "e2e-test/*").2 t).2 ts).1, pre,
    (closePrevious (GetTID (GetPID s.g "e2e-test/*").1 (GetPID s.g "e2e-test/*").2 t).1
      s.inProgress (sprintfKey (GetPID s.g "e2e-test/*").2
        (GetTID (GetPID s.g "e2e-test/*").1 (GetPID s.g "e2e-test/*").2 t).2)
      (GetPID s.g "e2e-test/*").2
      (GetTID (GetPID s.g "e2e-test/*").1 (GetPID s.g "e2e-test/*").2 t).2 ts).2,
    ?_, hpre, hpreM, hext3.tids_mono _ _ (hext2.tids_mono _ _ hk1),
    hext3.tids_mono _ _ hk2, ht2.1⟩
  unfold e2eRecord
  simp only [hne2, ne_eq, not_false_eq_true, if_true]
  rw [finish_eq]

/-- A finish observation of an e2e test whose pair is open: the `E` event of
the stored label, then an `X` event for the record; the pair is closed. -/
theorem e2e_close (s : Run) (ts d : Int) (msg t prev : String) (pid tid : Int)
    (hs : RunInv s)
    (hk1 : GoMap.get s.g.tids (sprintfTidKey 0 "e2e-test/*") = some pid)
    (hk2 : GoMap.get s.g.tids (sprintfTidKey pid t) = some tid)
    (hprev : GoMap.get s.inProgress (sprintfKey pid tid) = some prev) :
    e2eRecord s ts d msg t false =
      .ok { s with
            g := Emit (Emit s.g (endEvent prev pid tid ts)) (finalEvent pid tid "X" msg ts d),
            inProgress := GoMap.delete s.inProgress (sprintfKey pid tid) } := by
  have hne : tid ≠ 0 := by
    have := hs.inv.reg.tids_range _ _ hk2
    omega
  unfold e2eRecord
  simp only [GetPID_known s.g s.inProgress "e2e-test/*" pid hs.inv hk1,
    GetTID_hit s.g pid t tid hk2, hne, ne_eq, not_false_eq_true, if_true,
    Bool.false_eq_true, if_false]
  rw [closePrevious_some _ _ _ _ _ _ prev hprev, finish_eq]

/-! ## The duration prefix and the bytes after it -/

theorem dropSeverity_ne_fatal (t d : Int) (m : String) :
    dropSeverity t d m ≠ .error .fatal := by
  unfold dropSeverity
  split
  · intro h; cases h
  · intro h; cases h

theorem dropSeverity_short (t d : Int) (m : String) (h : len m < 2) :
    dropSeverity t d m = .error .panic := by
  unfold dropSeverity
  rw [if_pos h]

theorem dropWhile_replicate_space_head (k : Nat) (r : List Char) (hr : r.head? ≠ some ' ') :
    (List.replicate k ' ' ++ r).dropWhile (· == ' ') = r := by
  cases r with
  | nil =>
    induction k with
    | zero => rfl
    | succ n ih => simp [List.replicate_succ, List.dropWhile]
  | cons a l =>
    have ha : a ≠ ' ' := by
      intro e
      exact hr (by rw [e]; rfl)
    exact dropWhile_replicate_space k a l ha

/-- A line whose text after the timestamp starts with `-`: lines 132 to 139
skip that byte and the next, take the bytes up to the first space as the
duration and trim the spaces that follow. -/
theorem decode_dash (env : Stdlib) (ts19 tok rest : String) (c : Char) (t : Int)
    (hlen : len ts19 = 19) (ht : env.timeParse ("2021 " ++ ts19) = some t)
    (htok : ' ' ∉ tok.data) :
    decode env (ts19 ++ " " ++ (⟨['-', c]⟩ ++ tok ++ " " ++ rest)) =
      match env.ParseDuration tok with
      | none => .error .fatal
      | some dur => dropSeverity t dur (TrimLeft rest ' ') := by
  rw [decode_head env ts19 _ t hlen ht]
  generalize hbd : (⟨['-', c]⟩ ++ tok ++ " " ++ rest : String) = body
  have hb : body.data = '-' :: c :: (tok.data ++ ' ' :: rest.data) := by
    rw [← hbd]
    simp [String.data_append]
  have h2 : sliceFrom body 2 = ⟨tok.data ++ ' ' :: rest.data⟩ := by
    apply String.ext
    simp [sliceFrom, hb]
  have hi : Index (sliceFrom body 2) " " = some tok.data.length := by
    rw [h2]
    exact indexIn_space_append tok.data rest.data htok
  have hs : sliceTo (sliceFrom body 2) tok.data.length = tok := by
    rw [h2]
    apply String.ext
    simp [sliceTo]
  have hr : sliceFrom (sliceFrom body 2) (tok.data.length + 1) = rest := by
    rw [h2]
    apply String.ext
    simp only [sliceFrom]
    have e : tok.data ++ ' ' :: rest.data = (tok.data ++ [' ']) ++ rest.data := by simp
    have hl2 : (tok.data ++ [' ']).length = tok.data.length + 1 := by simp
    rw [e, ← hl2, List.drop_left]
  have hlen2 : ¬ len body < 2 := by simp [len, hb]
  rw [hb]
  simp only [if_true, hlen2, if_false, hi, hs, hr]

theorem decode_dash_trimmed (env : Stdlib) (ts19 tok r : String) (c : Char) (k : Nat)
    (t : Int) (hlen : len ts19 = 19) (ht : env.timeParse ("2021 " ++ ts19) = some t)
    (htok : ' ' ∉ tok.data) (hr : r.data.head? ≠ some ' ') :
    decode env (ts19 ++ " " ++ (⟨['-', c]⟩ ++ tok ++ " " ++ (⟨List.replicate k ' '⟩ ++ r))) =
      match env.ParseDuration tok with
      | none => .error .fatal
      | some dur => dropSeverity t dur r := by
  rw [decode_dash env ts19 tok _ c t hlen ht htok]
  have e : TrimLeft (⟨List.replicate k ' '⟩ ++ r) ' ' = r := by
    apply String.ext
    simp only [TrimLeft, String.data_append]
    exact dropWhile_replicate_space_head k r.data hr
  rw [e]

theorem decode_empty_body (env : Stdlib) (ts19 : String) (t : Int)
    (hlen : len ts19 = 19) (ht : env.timeParse ("2021 " ++ ts19) = some t) :
    decode env (ts19 ++ " " ++ "") = .error .panic := by
  rw [decode_head env ts19 _ t hlen ht]

theorem decode_dash_only (env : Stdlib) (ts19 : String) (t : Int)
    (hlen : len ts19 = 19) (ht : env.timeParse ("2021 " ++ ts19) = some t) :
    decode env (ts19 ++ " " ++ "-") = .error .panic := by
  rw [decode_head env ts19 _ t hlen ht]
  rfl

theorem decode_dash_no_space (env : Stdlib) (ts19 rest : String) (c : Char) (t : Int)
    (hlen : len ts19 = 19) (ht : env.timeParse ("2021 " ++ ts19) = some t)
    (h : ' ' ∉ rest.data) :
    decode env (ts19 ++ " " ++ (⟨['-', c]⟩ ++ rest)) = .error .panic := by
  rw [decode_head env ts19 _ t hlen ht]
  have hb : (⟨['-', c]⟩ ++ rest : String).data = '-' :: c :: rest.data := by
    simp [String.data_append]
  have h2 : sliceFrom (⟨['-', c]⟩ ++ rest) 2 = rest := by
    apply String.ext
    simp [sliceFrom, hb]
  have hi : Index rest " " = none := indexIn_space_none rest.data h
  have hlen2 : ¬ len (⟨['-', c]⟩ ++ rest) < 2 := by simp [len, hb]
  rw [hb]
  simp only [if_true, hlen2, if_false, h2, hi]

/-- The decoder stops in `log.Fatal` on a line with a well-formed timestamp
only at line 137: the text starts with `-` and the token after the next byte,
up to the first space, is no duration. -/
theorem decode_fatal_only (env : Stdlib) (ts19 body : String) (t : Int)
    (hlen : len ts19 = 19) (ht : env.timeParse ("2021 " ++ ts19) = some t)
    (h : decode env (ts19 ++ " " ++ body) = .error .fatal) :
    ∃ (c : Char) (tok rest : String),
      body = ⟨['-', c]⟩ ++ tok ++ " " ++ rest ∧ ' ' ∉ tok.data ∧
      env.ParseDuration tok = none := by
  rw [decode_head env ts19 body t hlen ht] at h
  rcases hb : body.data with _ | ⟨c0, l⟩
  · rw [hb] at h
    cases h
  · rw [hb] at h
    simp only at h
    by_cases hc : c0 = '-'
    · rw [if_pos hc] at h
      by_cases hl : len body < 2
      · rw [if_pos hl] at h
        cases h
      · rw [if_neg hl] at h
        cases hi : Index (sliceFrom body 2) " " with
        | none =>
          rw [hi] at h
          cases h
        | some idx =>
          rw [hi] at h
          simp only at h
          cases hp : env.ParseDuration (sliceTo (sliceFrom body 2) idx) with
          | some d =>
            rw [hp] at h
            exact absurd h (dropSeverity_ne_fatal _ _ _)
          | none =>
            obtain ⟨a, b, e1, e2, e3⟩ := indexIn_space_some _ _ hi
            cases l with
            | nil => simp [len, hb] at hl
            | cons c l2 =>
              have hd2 : (sliceFrom body 2).data = l2 := by simp [sliceFrom, hb]
              rw [hd2] at e1
              have hs : sliceTo (sliceFrom body 2) idx = ⟨a⟩ := by
                apply String.ext
                simp only [sliceTo, hd2, e1]
                rw [← e3, List.take_left]
              rw [hs] at hp
              refine ⟨c, ⟨a⟩, ⟨b⟩, ?_, e2, hp⟩
              apply String.ext
              rw [hb, hc, e1]
              simp [String.data_append]
    · rw [if_neg hc] at h
      exact absurd h (dropSeverity_ne_fatal _ _ _)

/-! ## The claims -/

/-- C3: `isAbnormal condition status` holds exactly when either the condition
is the string `condition/Available` and the status starts with `status/False`,
or the condition is any other string and the status starts with `status/True`.
In particular `condition/Available` with a status starting `status/True` is not
abnormal, and no other condition is abnormal on a status starting
`status/False`. -/
theorem isAbnormal_iff (condition status t : String) :
    (isAbnormal condition status = true ↔
      (condition = "condition/Available" ∧ ∃ r : String, status = "status/False" ++ r) ∨
      (condition ≠ "condition/Available" ∧ ∃ r : String, status = "status/True" ++ r)) ∧
    isAbnormal "condition/Available" ("status/True" ++ t) = false ∧
    (condition ≠ "condition/Available" →
      isAbnormal condition ("status/False" ++ t) = false) := by
  refine ⟨?_, ?_, ?_⟩
  · unfold isAbnormal
    by_cases h : condition = "condition/Available"
    · simp [h, HasPrefix_iff]
    · simp [h, HasPrefix_iff]
  · simp [isAbnormal, HasPrefix, String.data_append, List.isPrefixOf]
  · intro h
    simp [isAbnormal, h, HasPrefix, String.data_append, List.isPrefixOf]

/-- C4: in a registry reached from the empty one by any sequence of calls,
`GetTID p1 n1` and a later `GetTID p2 n2` return the same identifier exactly
when `p1 = p2` and `n1 = n2` (whatever characters the names hold); the
identifiers are positive; repeating `GetTID p1 n1` at once returns the same
identifier and leaves the generator, output included, as it was; and after any
further calls `GetTID p1 n1` still returns that identifier without changing
anything. -/
theorem GetTID_stable_unique (calls1 calls2 : List RegCall) (p1 p2 : Int) (n1 n2 : String) :
    ((GetTID (regRun newTraceEventsGenerator calls1) p1 n1).2 =
        (GetTID (regRun (GetTID (regRun newTraceEventsGenerator calls1) p1 n1).1 calls2)
          p2 n2).2 ↔ p1 = p2 ∧ n1 = n2) ∧
    0 < (GetTID (regRun newTraceEventsGenerator calls1) p1 n1).2 ∧
    GetTID (GetTID (regRun newTraceEventsGenerator calls1) p1 n1).1 p1 n1 =
      ((GetTID (regRun newTraceEventsGenerator calls1) p1 n1).1,
        (GetTID (regRun newTraceEventsGenerator calls1) p1 n1).2) ∧
    GetTID (regRun (GetTID (regRun newTraceEventsGenerator calls1) p1 n1).1 calls2) p1 n1 =
      (regRun (GetTID (regRun newTraceEventsGenerator calls1) p1 n1).1 calls2,
        (GetTID (regRun newTraceEventsGenerator calls1) p1 n1).2) := by
  have hg := RegInv_regRun calls1 _ RegInv_new
  generalize regRun newTraceEventsGenerator calls1 = g at hg
  have h1 := GetTID_stored g p1 n1
  have hr1 := RegInv_GetTID g p1 n1 hg
  have h2 := regRun_mono calls2 _ _ _ h1
  have hr2 := RegInv_regRun calls2 _ hr1
  generalize regRun (GetTID g p1 n1).1 calls2 = g2 at h2 hr2
  have h3 := GetTID_stored g2 p2 n2
  have h4 := GetTID_mono g2 p2 n2 _ _ h2
  have hr3 := RegInv_GetTID g2 p2 n2 hr2
  refine ⟨⟨fun e => ?_, fun e => ?_⟩, ?_, GetTID_hit _ _ _ _ h1, GetTID_hit _ _ _ _ h2⟩
  · rw [← e] at h3
    exact sprintfTidKey_inj _ _ _ _ (hr3.tids_inj _ _ _ h4 h3)
  · obtain ⟨rfl, rfl⟩ := e
    rw [h4] at h3
    exact Option.some.inj h3
  · have := hr1.tids_range _ _ h1
    omega

/-- C2: at the end of any run, whether all lines were accepted or the run
stopped on one, and for every pair `(pid, tid)`: the `B` and `E` events of the
pair start with a `B`; they alternate, each `E` carrying the name of the `B`
just before it; the open-interval map holds `n` under the key of the pair
exactly when the last of these events is a `B` named `n`. No key occurs twice
in the map, and the number of `B` events is the number of `E` events plus the
number of entries left in the map: nothing closes an interval at end of input. -/
theorem intervals_alternate (env : Stdlib) (lines : List String) (pid tid : Int) :
    (∀ a post, track (main env lines).state.g.out pid tid = a :: post → a.Ph = "B") ∧
    (∀ pre a b post, track (main env lines).state.g.out pid tid = pre ++ a :: b :: post →
      (a.Ph = "B" ∧ b.Ph = "E" ∧ b.Name = a.Name) ∨ (a.Ph = "E" ∧ b.Ph = "B")) ∧
    (∀ n, GoMap.get (main env lines).state.inProgress (sprintfKey pid tid) = some n ↔
      ∃ pre a, track (main env lines).state.g.out pid tid = pre ++ [a] ∧
        a.Ph = "B" ∧ a.Name = n) ∧
    ((main env lines).state.inProgress.map Prod.fst).Nodup ∧
    countPh "B" (main env lines).state.g.out =
      countPh "E" (main env lines).state.g.out + (main env lines).state.inProgress.length := by
  have hI := (RunInv_main env lines).inv
  obtain ⟨hA, hB, _, hD⟩ := pairing_explicit _ _ (hI.paired pid tid)
  exact ⟨hA, hB, hD, hI.ip_nodup, hI.count_eq⟩

/-- C5: at the end of any run, for every process name the registry holds
(a name resolved through `GetPID` is stored under parent 0, the default
process `other` and the synthetic processes included) with identifier `id`,
the output is `pre ++ [p] ++ post` where `p` is the `process_name` metadata
event with `pid = tid = id` and argument `name`, no other event of the
output is a `process_name` metadata event with that argument, and no event
before `p` that is not metadata has `pid = id`. -/
theorem process_announced_once (env : Stdlib) (lines : List String) (name : String) (id : Int)
    (h : GoMap.get (main env lines).state.g.tids (sprintfTidKey 0 name) = some id) :
    ∃ pre post,
      (main env lines).state.g.out =
        pre ++ { Name := "process_name", Ph := "M", PID := id, TID := id,
                 Args := [("name", name)] } :: post ∧
      (∀ e ∈ pre ++ post,
        ¬ (e.Name = "process_name" ∧ e.Ph = "M" ∧ GoMap.get e.Args "name" = some name)) ∧
      (∀ e ∈ pre, e.Ph ≠ "M" → e.PID ≠ id) := by
  obtain ⟨pre, post, h1, h2, h3, h4⟩ := ((RunInv_main env lines).inv.proc_decl name id h).2
  refine ⟨pre, post, h1, ?_, h4⟩
  intro e he
  rcases List.mem_append.1 he with he | he
  · exact h2 e he
  · exact h3 e he

/-- Witness of C5 on a one-line run: the namespace `ns/default` gets identifier 2. -/
theorem process_announced_once_witness :
    GoMap.get (main exampleStdlib
        ["Jan 01 00:00:00.000 I ns/default pod/foo Created\n"]).state.g.tids
      (sprintfTidKey 0 "ns/default") = some 2 ∧
    ∃ pre post,
      (main exampleStdlib ["Jan 01 00:00:00.000 I ns/default pod/foo Created\n"]).state.g.out =
        pre ++ { Name := "process_name", Ph := "M", PID := 2, TID := 2,
                 Args := [("name", "ns/default")] } :: post ∧
      (∀ e ∈ pre ++ post,
        ¬ (e.Name = "process_name" ∧ e.Ph = "M" ∧
          GoMap.get e.Args "name" = some "ns/default")) ∧
      (∀ e ∈ pre, e.Ph ≠ "M" → e.PID ≠ 2) :=
  ⟨by decide, process_announced_once exampleStdlib _ "ns/default" 2 (by decide)⟩

/-- C6: at the end of any run, for every pair of a parent process identifier
`p` and a name the registry holds (a pair resolved through `GetTID`) with
identifier `id`, the output is `pre ++ [t] ++ post` where `t` is the
`thread_name` metadata event with `tid = id` and argument `name`, whose `pid`
is `p` when `p` is not zero and `id` itself when `p` is zero; no other event
of the output is a `thread_name` metadata event with that argument and that
`tid`, and no event before `t` that is not metadata has `tid = id`. -/
theorem thread_announced_once (env : Stdlib) (lines : List String) (p : Int) (name : String)
    (id : Int)
    (h : GoMap.get (main env lines).state.g.tids (sprintfTidKey p name) = some id) :
    ∃ pre post,
      (main env lines).state.g.out =
        pre ++ { Name := "thread_name", Ph := "M", PID := if p = 0 then id else p, TID := id,
                 Args := [("name", name)] } :: post ∧
      (∀ e ∈ pre ++ post,
        ¬ (e.Name = "thread_name" ∧ e.Ph = "M" ∧ GoMap.get e.Args "name" = some name ∧
          e.TID = id)) ∧
      (∀ e ∈ pre, e.Ph ≠ "M" → e.TID ≠ id) := by
  obtain ⟨pre, post, h1, h2, h3, h4⟩ := (RunInv_main env lines).inv.thread_decl p name id h
  refine ⟨pre, post, h1, ?_, h4⟩
  intro e he
  rcases List.mem_append.1 he with he | he
  · exact h2 e he
  · exact h3 e he

/-- Witness of C6 on a one-line run: the pod `pod/foo` of process 2 gets identifier 3. -/
theorem thread_announced_once_witness :
    GoMap.get (main exampleStdlib
        ["Jan 01 00:00:00.000 I ns/default pod/foo Created\n"]).state.g.tids
      (sprintfTidKey 2 "pod/foo") = some 3 ∧
    ∃ pre post,
      (main exampleStdlib ["Jan 01 00:00:00.000 I ns/default pod/foo Created\n"]).state.g.out =
        pre ++ { Name := "thread_name", Ph := "M", PID := if (2 : Int) = 0 then 3 else 2,
                 TID := 3, Args := [("name", "pod/foo")] } :: post ∧
      (∀ e ∈ pre ++ post,
        ¬ (e.Name = "thread_name" ∧ e.Ph = "M" ∧ GoMap.get e.Args "name" = some "pod/foo" ∧
          e.TID = 3)) ∧
      (∀ e ∈ pre, e.Ph ≠ "M" → e.TID ≠ 3) :=
  ⟨by decide, thread_announced_once exampleStdlib _ 2 "pod/foo" 3 (by decide)⟩

/-- C7: for every line the loop accepts, from any state, there is a duration
`d` such that `d` is zero when no `-` follows the timestamp and otherwise is
what `ParseDuration` returns on the token between the two-byte prefix and the
next space, and every event with phase `X` emitted for the line has
`dur = max d 1s` in microseconds, which is at least 1,000,000 and is exactly
1,000,000 when `d` is at most one second (absent, zero, short or negative). -/
theorem complete_event_duration (env : Stdlib) (s s2 : Run) (line : String)
    (h : processLine env s line = .ok s2) :
    ∃ d : Int,
      ((((TrimRight line '\n').data.drop 20).head? ≠ some '-' ∧ d = 0) ∨
       (∃ c tok rest,
          (TrimRight line '\n').data.drop 20 = '-' :: c :: (tok ++ ' ' :: rest) ∧
          ' ' ∉ tok ∧ env.ParseDuration ⟨tok⟩ = some d)) ∧
      ∀ e ∈ s2.g.out.drop s.g.out.length, e.Ph = "X" →
        e.Dur = Int.tdiv (max d Second) 1000 ∧ 1000000 ≤ e.Dur ∧
        (d ≤ Second → e.Dur = 1000000) := by
  obtain ⟨d, hd, hall⟩ := processLine_final env s s2 line h
  refine ⟨d, hd, fun e he hX => ?_⟩
  have := hall e he (Or.inl hX)
  refine ⟨this, by rw [this]; exact clamp_tdiv_ge d, fun hle => ?_⟩
  rw [this, max_eq_right hle]
  decide

/-- Witness of C7: a line with the prefix `- 300ms`, accepted from the initial state. -/
theorem complete_event_duration_witness :
    processLine exampleStdlib mainInit "Jan 01 00:00:00.000 - 300ms I node/a Ready\n" =
      .ok (processLine exampleStdlib mainInit
        "Jan 01 00:00:00.000 - 300ms I node/a Ready\n").state ∧
    ∃ d : Int,
      ((((TrimRight "Jan 01 00:00:00.000 - 300ms I node/a Ready\n" '\n').data.drop 20).head? ≠
          some '-' ∧ d = 0) ∨
       (∃ c tok rest,
          (TrimRight "Jan 01 00:00:00.000 - 300ms I node/a Ready\n" '\n').data.drop 20 =
            '-' :: c :: (tok ++ ' ' :: rest) ∧
          ' ' ∉ tok ∧ exampleStdlib.ParseDuration ⟨tok⟩ = some d)) ∧
      ∀ e ∈ (processLine exampleStdlib mainInit
          "Jan 01 00:00:00.000 - 300ms I node/a Ready\n").state.g.out.drop mainInit.g.out.length,
        e.Ph = "X" → e.Dur = Int.tdiv (max d Second) 1000 ∧ 1000000 ≤ e.Dur ∧
          (d ≤ Second → e.Dur = 1000000) :=
  ⟨by decide, complete_event_duration exampleStdlib mainInit _ _ (by decide)⟩

/-- C8, as the code has it: the event with phase `B` emitted for an accepted
line is the final event of the record, built by the same call as an `X`
event, and it carries `dur = max d 1s` in microseconds, at least 1,000,000,
where `d` is the duration of the line as in C7. -/
theorem begin_event_duration (env : Stdlib) (s s2 : Run) (line : String)
    (h : processLine env s line = .ok s2) :
    ∃ d : Int,
      ((((TrimRight line '\n').data.drop 20).head? ≠ some '-' ∧ d = 0) ∨
       (∃ c tok rest,
          (TrimRight line '\n').data.drop 20 = '-' :: c :: (tok ++ ' ' :: rest) ∧
          ' ' ∉ tok ∧ env.ParseDuration ⟨tok⟩ = some d)) ∧
      ∀ e ∈ s2.g.out.drop s.g.out.length, e.Ph = "B" →
        e.Dur = Int.tdiv (max d Second) 1000 ∧ 1000000 ≤ e.Dur := by
  obtain ⟨d, hd, hall⟩ := processLine_final env s s2 line h
  refine ⟨d, hd, fun e he hB => ?_⟩
  have := hall e he (Or.inr hB)
  exact ⟨this, by rw [this]; exact clamp_tdiv_ge d⟩

/-- Witness of the amended C8: an abnormal operator condition, accepted from
the initial state. -/
theorem begin_event_duration_witness :
    processLine exampleStdlib mainInit
        "Jan 01 00:00:00.000 I clusteroperator/dns condition/Degraded status/True\n" =
      .ok (processLine exampleStdlib mainInit
        "Jan 01 00:00:00.000 I clusteroperator/dns condition/Degraded status/True\n").state ∧
    ∃ d : Int,
      ((((TrimRight "Jan 01 00:00:00.000 I clusteroperator/dns condition/Degraded status/True\n"
          '\n').data.drop 20).head? ≠ some '-' ∧ d = 0) ∨
       (∃ c tok rest,
          (TrimRight "Jan 01 00:00:00.000 I clusteroperator/dns condition/Degraded status/True\n"
            '\n').data.drop 20 = '-' :: c :: (tok ++ ' ' :: rest) ∧
          ' ' ∉ tok ∧ exampleStdlib.ParseDuration ⟨tok⟩ = some d)) ∧
      ∀ e ∈ (processLine exampleStdlib mainInit
          "Jan 01 00:00:00.000 I clusteroperator/dns condition/Degraded status/True\n"
          ).state.g.out.drop mainInit.g.out.length,
        e.Ph = "B" → e.Dur = Int.tdiv (max d Second) 1000 ∧ 1000000 ≤ e.Dur :=
  ⟨by decide, begin_event_duration exampleStdlib mainInit _ _ (by decide)⟩

/-- Counterexample to C8 as stated: the line that reports the operator
`authentication` unavailable is accepted and opens an interval, and its one
`B` event has `dur = 1000000`, not zero. -/
theorem begin_event_duration_counterexample :
    (processLine exampleStdlib mainInit
      "Jan 01 00:00:00.000 I clusteroperator/authentication condition/Available status/False\n"
      ).isOk = true ∧
    ((processLine exampleStdlib mainInit
      "Jan 01 00:00:00.000 I clusteroperator/authentication condition/Available status/False\n"
      ).state.g.out.filter (fun e => decide (e.Ph = "B"))).map (fun e => e.Dur) = [1000000] ∧
    (1000000 : Int) ≠ 0 := by
  decide

/-- C1: let `s` be a state reached by a run, `o` and `c` an operator and a
condition name without a space, and `(pid, tid)` the identifiers the registry
gives them, with no interval open on the pair. Then the record
`clusteroperator/o condition/c st1` with `isAbnormal` true is accepted; and
after any further accepted lines that emit no `B` or `E` event on the pair,
the record `clusteroperator/o condition/c st2` with `isAbnormal` false is
accepted, the `B` and `E` events emitted on the pair since `s` are exactly one
`B` followed by one `E`, both named after the first record, the `E` stamped
with the time of the second record, the pair has no open interval at the end,
and the `E` is not stamped before the `B` when the times do not decrease. -/
theorem operator_interval_pairing (env : Stdlib) (lines : List String) (s : Run)
    (o c st1 st2 : String) (t1 d1 t2 d2 pid tid : Int)
    (hs : main env lines = .ok s)
    (ho : ' ' ∉ o.data) (hc : ' ' ∉ c.data)
    (hpid : (GetPID s.g ("clusteroperator/" ++ o)).2 = pid)
    (htid : (GetTID (GetPID s.g ("clusteroperator/" ++ o)).1 pid ("condition/" ++ c)).2 = tid)
    (hopen : GoMap.get s.inProgress (sprintfKey pid tid) = none)
    (hab1 : isAbnormal ("condition/" ++ c) st1 = true)
    (hab2 : isAbnormal ("condition/" ++ c) st2 = false) :
    ∃ s1,
      translate s t1 d1 ("clusteroperator/" ++ o ++ " condition/" ++ c ++ " " ++ st1) = .ok s1 ∧
      ∀ (mid : List String) (s2 : Run), runFrom env s1 mid = .ok s2 →
        track (s2.g.out.drop s1.g.out.length) pid tid = [] →
        ∃ s3,
          translate s2 t2 d2 ("clusteroperator/" ++ o ++ " condition/" ++ c ++ " " ++ st2) =
            .ok s3 ∧
          track (s3.g.out.drop s.g.out.length) pid tid =
            [ { Name := "clusteroperator/" ++ o ++ " condition/" ++ c ++ " " ++ st1,
                Ph := "B", PID := pid, TID := tid, TS := Int.tdiv t1 1000,
                Dur := Int.tdiv (max d1 Second) 1000 },
              { Name := "clusteroperator/" ++ o ++ " condition/" ++ c ++ " " ++ st1,
                Ph := "E", PID := pid, TID := tid, TS := Int.tdiv t2 1000 } ] ∧
          GoMap.get s3.inProgress (sprintfKey pid tid) = none ∧
          (t1 ≤ t2 → Int.tdiv t1 1000 ≤ Int.tdiv t2 1000) := by
  have hR : RunInv s := by
    have := RunInv_main env lines
    rw [hs] at this
    exact this
  obtain ⟨g2, ms, e1, hout, hM, hk1, hk2, htid1⟩ :=
    operator_open s t1 d1 ("clusteroperator/" ++ o) ("condition/" ++ c) st1
      ("clusteroperator/" ++ o ++ " condition/" ++ c ++ " " ++ st1) pid tid hR hpid htid hopen hab1
  have hne : tid ≠ 0 := by omega
  have hstep := StepOk_translate s t1 d1
    ("clusteroperator/" ++ o ++ " condition/" ++ c ++ " " ++ st1) hR
  rw [translate_operator s t1 d1 o c st1 ho hc, e1] at hstep
  refine ⟨_, by rw [translate_operator s t1 d1 o c st1 ho hc, e1], ?_⟩
  have hR1 := hstep.1
  simp only [Outcome.state] at hR1
  have hp1 := hR1.inv.paired pid tid
  generalize hs1 : ({ s with
      g := Emit g2 (finalEvent pid tid "B"
        ("clusteroperator/" ++ o ++ " condition/" ++ c ++ " " ++ st1) t1 d1),
      inProgress := GoMap.set s.inProgress (sprintfKey pid tid)
        ("clusteroperator/" ++ o ++ " condition/" ++ c ++ " " ++ st1) } : Run) = s1 at hR1
  have hs1out : s1.g.out = s.g.out ++ (ms ++ [finalEvent pid tid "B"
      ("clusteroperator/" ++ o ++ " condition/" ++ c ++ " " ++ st1) t1 d1]) := by
    rw [← hs1]; simp only [Emit_out, hout, List.append_assoc]
  have hs1k1 : GoMap.get s1.g.tids (sprintfTidKey 0 ("clusteroperator/" ++ o)) = some pid := by
    rw [← hs1]; exact hk1
  have hs1k2 : GoMap.get s1.g.tids (sprintfTidKey pid ("condition/" ++ c)) = some tid := by
    rw [← hs1]; exact hk2
  intro mid s2 hmid hquiet
  have hrun := StepOk_runFrom env mid s1 hR1
  rw [hmid] at hrun
  obtain ⟨hR2, _, ms2, hext⟩ := hrun
  simp only [Outcome.state] at hR2 hext
  have hout2 := hext.out_eq
  rw [hout2, List.drop_left] at hquiet
  have hp2 := hR2.inv.paired pid tid
  rw [hs1] at hp1
  rw [hout2, track_append2, hquiet, List.append_nil, hp1] at hp2
  have hprev : GoMap.get s2.inProgress (sprintfKey pid tid) =
      some ("clusteroperator/" ++ o ++ " condition/" ++ c ++ " " ++ st1) := by
    have := Option.some.inj hp2
    rw [← this, ← hs1]
    exact GoMap.get_set_same _ _ _
  have e3 := operator_close s2 t2 d2 ("clusteroperator/" ++ o) ("condition/" ++ c) st2
    ("clusteroperator/" ++ o ++ " condition/" ++ c ++ " " ++ st2) _ pid tid hR2
    (hext.tids_mono _ _ hs1k1) (hext.tids_mono _ _ hs1k2) hprev hab2
  refine ⟨_, by rw [translate_operator s2 t2 d2 o c st2 ho hc, e3], ?_,
    GoMap.get_delete_same _ _, tdiv_mono t1 t2⟩
  have hall : (Emit (Emit s2.g (endEvent
        ("clusteroperator/" ++ o ++ " condition/" ++ c ++ " " ++ st1) pid tid t2))
        (finalEvent pid tid "X"
          ("clusteroperator/" ++ o ++ " condition/" ++ c ++ " " ++ st2) t2 d2)).out =
      s.g.out ++ (ms ++ [finalEvent pid tid "B"
        ("clusteroperator/" ++ o ++ " condition/" ++ c ++ " " ++ st1) t1 d1] ++ ms2 ++
        [endEvent ("clusteroperator/" ++ o ++ " condition/" ++ c ++ " " ++ st1) pid tid t2] ++
        [finalEvent pid tid "X"
          ("clusteroperator/" ++ o ++ " condition/" ++ c ++ " " ++ st2) t2 d2]) := by
    simp only [Emit_out, hout2, hs1out, List.append_assoc]
  show track (List.drop s.g.out.length (Emit (Emit s2.g _) _).out) pid tid = _
  rw [hall, List.drop_left]
  simp only [track_append2, track_meta ms pid tid hM, hquiet, List.nil_append, List.append_nil]
  simp [track, isPairEvent, finalEvent, endEvent, hne, clamp_eq_max]

/-- Witness of C1: from the initial state, the operator `dns` and the
condition `Degraded`, which get identifiers 2 and 3. -/
theorem operator_interval_pairing_witness :
    ∃ s1,
      translate mainInit 0 0 ("clusteroperator/" ++ "dns" ++ " condition/" ++ "Degraded" ++ " " ++
        "status/True") = .ok s1 ∧
      ∀ (mid : List String) (s2 : Run), runFrom exampleStdlib s1 mid = .ok s2 →
        track (s2.g.out.drop s1.g.out.length) 2 3 = [] →
        ∃ s3,
          translate s2 10000000000 0 ("clusteroperator/" ++ "dns" ++ " condition/" ++
            "Degraded" ++ " " ++ "status/False") = .ok s3 ∧
          track (s3.g.out.drop mainInit.g.out.length) 2 3 =
            [ { Name := "clusteroperator/" ++ "dns" ++ " condition/" ++ "Degraded" ++ " " ++
                  "status/True",
                Ph := "B", PID := 2, TID := 3, TS := Int.tdiv 0 1000,
                Dur := Int.tdiv (max 0 Second) 1000 },
              { Name := "clusteroperator/" ++ "dns" ++ " condition/" ++ "Degraded" ++ " " ++
                  "status/True",
                Ph := "E", PID := 2, TID := 3, TS := Int.tdiv 10000000000 1000 } ] ∧
          GoMap.get s3.inProgress (sprintfKey 2 3) = none ∧
          ((0 : Int) ≤ 10000000000 → Int.tdiv 0 1000 ≤ Int.tdiv 10000000000 1000) :=
  operator_interval_pairing exampleStdlib [] mainInit "dns" "Degraded" "status/True"
    "status/False" 0 0 10000000000 0 2 3 rfl (by decide) (by decide) (by decide) (by decide)
    (by decide) (by decide) (by decide)

/-- C9, as the code has it: from a fresh run, the record
`clusteroperator/authentication condition/Available status/False` at time `t`
and then the record `... status/True` at `t + 10s` are both accepted, and the
events that are not metadata are exactly three: a `B` at `t` named after the
first record, an `E` at `t + 10s` with the same name, and one `X` for the
second record. The first record gets no `X` event: its own event is the `B`. -/
theorem operator_scenario (t d1 d2 : Int) :
    ∃ s1 s2,
      translate mainInit t d1
        "clusteroperator/authentication condition/Available status/False" = .ok s1 ∧
      translate s1 (t + 10 * Second) d2
        "clusteroperator/authentication condition/Available status/True" = .ok s2 ∧
      s2.g.out.filter (fun e => decide (e.Ph ≠ "M")) =
        [ { Name := "clusteroperator/authentication condition/Available status/False",
            Ph := "B", PID := 2, TID := 3, TS := Int.tdiv t 1000,
            Dur := Int.tdiv (max d1 Second) 1000 },
          { Name := "clusteroperator/authentication condition/Available status/False",
            Ph := "E", PID := 2, TID := 3, TS := Int.tdiv (t + 10 * Second) 1000 },
          { Name := "clusteroperator/authentication condition/Available status/True",
            Ph := "X", PID := 2, TID := 3, TS := Int.tdiv (t + 10 * Second) 1000,
            Dur := Int.tdiv (max d2 Second) 1000 } ] := by
  refine ⟨_, _, rfl, rfl, ?_⟩
  simp only [← clamp_eq_max]
  rfl

/-- Counterexample to C9 as stated: on the two lines of the scenario, ten
seconds apart, the run is accepted and the phases of the events that are not
metadata are `B`, `E`, `X`: there is one complete event, not two. -/
theorem operator_scenario_counterexample :
    (main exampleStdlib
      ["Jan 01 00:00:00.000 I clusteroperator/authentication condition/Available status/False\n",
       "Jan 01 00:00:10.000 I clusteroperator/authentication condition/Available status/True\n"]
      ).isOk = true ∧
    ((main exampleStdlib
      ["Jan 01 00:00:00.000 I clusteroperator/authentication condition/Available status/False\n",
       "Jan 01 00:00:10.000 I clusteroperator/authentication condition/Available status/True\n"]
      ).state.g.out.filter (fun e => decide (e.Ph ≠ "M"))).map (fun e => e.Ph) =
      ["B", "E", "X"] ∧
    countPh "X" (main exampleStdlib
      ["Jan 01 00:00:00.000 I clusteroperator/authentication condition/Available status/False\n",
       "Jan 01 00:00:10.000 I clusteroperator/authentication condition/Available status/True\n"]
      ).state.g.out ≠ 2 := by
  decide

/-- C10, as the code has it: from a fresh run, the record
`e2e-test/"Foo" started` at time `t` and then the record
`e2e-test/"Foo" finishedStatus/passed` at `t + 60s` are both accepted; the
events that are not metadata are a `B` at `t`, an `E` at `t + 60s` and an `X`
for the second record; the `B` and the `E` are both named `e2e-test/"Foo"`,
the first message without its suffix ` started`, and both have `pid = 2`,
the process `e2e-test/*`, and `tid = 3`, its thread `e2e-test/"Foo"`. -/
theorem e2e_scenario (t d1 d2 : Int) :
    ∃ s1 s2,
      translate mainInit t d1 "e2e-test/\"Foo\" started" = .ok s1 ∧
      translate s1 (t + 60 * Second) d2 "e2e-test/\"Foo\" finishedStatus/passed" = .ok s2 ∧
      s2.g.out.filter (fun e => decide (e.Ph ≠ "M")) =
        [ { Name := "e2e-test/\"Foo\"", Ph := "B", PID := 2, TID := 3,
            TS := Int.tdiv t 1000, Dur := Int.tdiv (max d1 Second) 1000 },
          { Name := "e2e-test/\"Foo\"", Ph := "E", PID := 2, TID := 3,
            TS := Int.tdiv (t + 60 * Second) 1000 },
          { Name := "e2e-test/\"Foo\" finishedStatus/passed", Ph := "X", PID := 2, TID := 3,
            TS := Int.tdiv (t + 60 * Second) 1000, Dur := Int.tdiv (max d2 Second) 1000 } ] ∧
      GoMap.get s2.g.tids (sprintfTidKey 0 "e2e-test/*") = some 2 ∧
      GoMap.get s2.g.tids (sprintfTidKey 2 "e2e-test/\"Foo\"") = some 3 ∧
      s2.inProgress = [] := by
  refine ⟨_, _, rfl, rfl, ?_, rfl, rfl, rfl⟩
  simp only [← clamp_eq_max]
  rfl

/-- Counterexample to C10 as stated: on the two lines of the scenario, one
minute apart, the run is accepted and the one `B` event and the one `E` event
are named `e2e-test/"Foo"`, which is not the bare name `Foo`. -/
theorem e2e_scenario_counterexample :
    (main exampleStdlib
      ["Jan 01 00:00:00.000 I e2e-test/\"Foo\" started\n",
       "Jan 01 00:01:00.000 I e2e-test/\"Foo\" finishedStatus/passed\n"]).isOk = true ∧
    ((main exampleStdlib
      ["Jan 01 00:00:00.000 I e2e-test/\"Foo\" started\n",
       "Jan 01 00:01:00.000 I e2e-test/\"Foo\" finishedStatus/passed\n"]
      ).state.g.out.filter (fun e => decide (e.Ph = "B" ∨ e.Ph = "E"))).map (fun e => e.Name) =
      ["e2e-test/\"Foo\"", "e2e-test/\"Foo\""] ∧
    "e2e-test/\"Foo\"" ≠ "Foo" := by
  decide

/-- C20: the key of the open-interval map renders each identifier as
`%!s(int=N)`, and two pairs of integers, of any sign, give the same key exactly
when they are the same pair. Hence closing the interval of the pair
`(p1, t1)` or storing a label for it changes what the map holds for the pair
`(p2, t2)` only when the two pairs are equal. -/
theorem sprintfKey_separates_pairs (p1 t1 p2 t2 ts : Int) (g : traceEventsGenerator)
    (ip : List (String × String)) (v : String) :
    sprintfKey 12 7 = "%!s(int=12) %!s(int=7)" ∧
    (sprintfKey p1 t1 = sprintfKey p2 t2 ↔ p1 = p2 ∧ t1 = t2) ∧
    GoMap.get (closePrevious g ip (sprintfKey p1 t1) p1 t1 ts).2 (sprintfKey p2 t2) =
      (if p1 = p2 ∧ t1 = t2 then none else GoMap.get ip (sprintfKey p2 t2)) ∧
    GoMap.get (GoMap.set ip (sprintfKey p1 t1) v) (sprintfKey p2 t2) =
      (if p1 = p2 ∧ t1 = t2 then some v else GoMap.get ip (sprintfKey p2 t2)) := by
  have hiff : sprintfKey p1 t1 = sprintfKey p2 t2 ↔ p1 = p2 ∧ t1 = t2 :=
    ⟨sprintfKey_inj p1 t1 p2 t2, fun h => by rw [h.1, h.2]⟩
  refine ⟨by decide, hiff, ?_, ?_⟩
  · by_cases h : p1 = p2 ∧ t1 = t2
    · rw [if_pos h, ← hiff.2 h]
      cases hg : GoMap.get ip (sprintfKey p1 t1) with
      | none => rw [closePrevious_none _ _ _ _ _ _ hg]; exact hg
      | some prev =>
        rw [closePrevious_some _ _ _ _ _ _ prev hg]
        exact GoMap.get_delete_same _ _
    · have hne : sprintfKey p2 t2 ≠ sprintfKey p1 t1 := fun e => h (hiff.1 e.symm)
      rw [if_neg h]
      cases hg : GoMap.get ip (sprintfKey p1 t1) with
      | none => rw [closePrevious_none _ _ _ _ _ _ hg]
      | some prev =>
        rw [closePrevious_some _ _ _ _ _ _ prev hg]
        exact GoMap.get_delete_other _ _ _ hne
  · by_cases h : p1 = p2 ∧ t1 = t2
    · rw [if_pos h, ← hiff.2 h]
      exact GoMap.get_set_same _ _ _
    · have hne : sprintfKey p2 t2 ≠ sprintfKey p1 t1 := fun e => h (hiff.1 e.symm)
      rw [if_neg h]
      exact GoMap.get_set_other _ _ _ _ hne

/-- C12: a line that is not blank once its end-of-line byte is removed, and
that has fewer than 20 bytes or a byte 19 other than a space, ends the
iteration in `log.Fatal` with the state unchanged (no event, same registry,
same open-interval map), and the loop stops there whatever lines follow. -/
theorem malformed_line_fatal (env : Stdlib) (s : Run) (line : String) (rest : List String)
    (hnb : TrimRight line '\n' ≠ "")
    (hbad : len (TrimRight line '\n') < 20 ∨ (TrimRight line '\n').data[19]? ≠ some ' ') :
    processLine env s line = .fatal s ∧ runFrom env s (line :: rest) = .fatal s := by
  have h1 : processLine env s line = .fatal s := by
    unfold processLine
    simp only [hnb, if_false, decode_short env _ hbad]
  exact ⟨h1, by rw [runFrom, h1]⟩

/-- Witness of C12: a line of eleven bytes after an accepted one. -/
theorem malformed_line_fatal_witness :
    TrimRight "short line\n" '\n' ≠ "" ∧
    (len (TrimRight "short line\n" '\n') < 20 ∨
      (TrimRight "short line\n" '\n').data[19]? ≠ some ' ') ∧
    processLine exampleStdlib mainInit "short line\n" = .fatal mainInit ∧
    runFrom exampleStdlib mainInit ["short line\n", "Jan 01 00:00:00.000 I node/a Ready\n"] =
      .fatal mainInit :=
  ⟨by decide, by decide,
    malformed_line_fatal exampleStdlib mainInit "short line\n"
      ["Jan 01 00:00:00.000 I node/a Ready\n"] (by decide) (by decide)⟩

/-- C11, as the code has it: the line of the scenario written with the
year-less 19-byte timestamp the decoder expects,
`Jan 01 00:00:00.000 I ns/default pod/foo Created`, is accepted from a fresh
run whenever the library parses the timestamp, and the output is then: the
two metadata events of the default process, a `thread_name` and a
`process_name` event for `ns/default` with identifier 2, a `thread_name` event
for `pod/foo` with `pid = 2` and `tid = 3`, and one `X` event named
`ns/default pod/foo Created` with `dur = 1000000`, `pid = 2` and `tid = 3`. -/
theorem namespace_pod_scenario (env : Stdlib) (t : Int)
    (h : env.timeParse "2021 Jan 01 00:00:00.000" = some t) :
    ∃ s, main env ["Jan 01 00:00:00.000 I ns/default pod/foo Created"] = .ok s ∧
      s.g.out =
        [ { Name := "thread_name", Ph := "M", PID := 1, TID := 1, Args := [("name", "other")] },
          { Name := "process_name", Ph := "M", PID := 1, TID := 1, Args := [("name", "other")] },
          { Name := "thread_name", Ph := "M", PID := 2, TID := 2,
            Args := [("name", "ns/default")] },
          { Name := "process_name", Ph := "M", PID := 2, TID := 2,
            Args := [("name", "ns/default")] },
          { Name := "thread_name", Ph := "M", PID := 2, TID := 3,
            Args := [("name", "pod/foo")] },
          { Name := "ns/default pod/foo Created", Ph := "X", PID := 2, TID := 3,
            TS := Int.tdiv t 1000, Dur := 1000000 } ] := by
  have hd : decode env "Jan 01 00:00:00.000 I ns/default pod/foo Created" =
      .ok (t, 0, "ns/default pod/foo Created") :=
    decode_plain env "Jan 01 00:00:00.000" "ns/default pod/foo Created" 'I' ' ' t rfl h
      (by decide)
  have hp : processLine env mainInit "Jan 01 00:00:00.000 I ns/default pod/foo Created" =
      translate mainInit t 0 "ns/default pod/foo Created" := by
    unfold processLine
    have ht : TrimRight "Jan 01 00:00:00.000 I ns/default pod/foo Created" '\n' =
        "Jan 01 00:00:00.000 I ns/default pod/foo Created" := by decide
    simp only [ht, hd]
    rfl
  refine ⟨(translate mainInit t 0 "ns/default pod/foo Created").state, ?_, ?_⟩
  · unfold main
    rw [runFrom, hp]
    rfl
  · rfl

/-- Witness of C11 as amended, with the table of the examples as parser. -/
theorem namespace_pod_scenario_witness :
    exampleStdlib.timeParse "2021 Jan 01 00:00:00.000" = some 1609459200000000000 ∧
    ∃ s, main exampleStdlib ["Jan 01 00:00:00.000 I ns/default pod/foo Created"] = .ok s ∧
      s.g.out =
        [ { Name := "thread_name", Ph := "M", PID := 1, TID := 1, Args := [("name", "other")] },
          { Name := "process_name", Ph := "M", PID := 1, TID := 1, Args := [("name", "other")] },
          { Name := "thread_name", Ph := "M", PID := 2, TID := 2,
            Args := [("name", "ns/default")] },
          { Name := "process_name", Ph := "M", PID := 2, TID := 2,
            Args := [("name", "ns/default")] },
          { Name := "thread_name", Ph := "M", PID := 2, TID := 3,
            Args := [("name", "pod/foo")] },
          { Name := "ns/default pod/foo Created", Ph := "X", PID := 2, TID := 3,
            TS := Int.tdiv 1609459200000000000 1000, Dur := 1000000 } ] :=
  ⟨by decide, namespace_pod_scenario exampleStdlib 1609459200000000000 (by decide)⟩

/-- Counterexample to C11 as stated: the line of the claim starts with the
year, so its byte 19 is the digit `0` and not a space; the run stops on it in
`log.Fatal` with nothing emitted beyond the two metadata events of the
default process. -/
theorem namespace_pod_scenario_counterexample :
    ("2021 Jan 01 00:00:00 I ns/default pod/foo Created".data)[19]? = some '0' ∧
    main exampleStdlib ["2021 Jan 01 00:00:00 I ns/default pod/foo Created"] =
      .fatal mainInit ∧
    mainInit.g.out.map (fun e => e.Ph) = ["M", "M"] := by
  decide

/-- C13, as the code has it: the bytes in the severity position are never
compared with anything, and no line is rejected on their account. For a line
with a 19-byte timestamp the library parses and a space after it:
(1) when the text after the timestamp does not start with `-`, its first two
bytes `a`, `b` are dropped whatever they are, a space included, and the line
decodes to duration 0 and the text after them;
(2) when it starts with `-` it is read as a duration prefix: `-` and the byte
`c` after it are skipped, the token up to the next space is the duration and
the spaces after it are skipped, so the severity position starts at the first
byte `a` that is not a space; `a` (which may be `-`) and `b` are dropped
whatever they are, and the line decodes to the duration of the token and the
text after them; in both cases the line is translated as that record;
(3) the decoder ends in `log.Fatal` exactly when the text is such a prefix
whose token is no duration, whatever follows;
(4) the remaining rejections are index errors: an empty text, a single byte,
fewer than two bytes left after the prefix and its spaces, and a text that
starts with `-` and has no space from its third byte on. -/
theorem severity_not_checked (env : Stdlib) (ts19 : String) (t : Int)
    (hlen : len ts19 = 19) (ht : env.timeParse ("2021 " ++ ts19) = some t) :
    (∀ (a b : Char) (m : String), a ≠ '-' →
      decode env (ts19 ++ " " ++ (⟨[a, b]⟩ ++ m)) = .ok (t, 0, m) ∧
      ∀ (s : Run) (line0 : String),
        TrimRight line0 '\n' = ts19 ++ " " ++ (⟨[a, b]⟩ ++ m) →
        processLine env s line0 = translate s t 0 m) ∧
    (∀ (c a b : Char) (tok m : String) (k : Nat) (dur : Int),
      ' ' ∉ tok.data → env.ParseDuration tok = some dur → a ≠ ' ' →
      decode env (ts19 ++ " " ++
        (⟨['-', c]⟩ ++ tok ++ " " ++ ⟨List.replicate k ' '⟩ ++ ⟨[a, b]⟩ ++ m)) =
        .ok (t, dur, m) ∧
      ∀ (s : Run) (line0 : String),
        TrimRight line0 '\n' = ts19 ++ " " ++
          (⟨['-', c]⟩ ++ tok ++ " " ++ ⟨List.replicate k ' '⟩ ++ ⟨[a, b]⟩ ++ m) →
        processLine env s line0 = translate s t dur m) ∧
    (∀ body : String, decode env (ts19 ++ " " ++ body) = .error .fatal ↔
      ∃ (c : Char) (tok rest : String),
        body = ⟨['-', c]⟩ ++ tok ++ " " ++ rest ∧ ' ' ∉ tok.data ∧
        env.ParseDuration tok = none) ∧
    decode env (ts19 ++ " " ++ "") = .error .panic ∧
    (∀ a : Char, a ≠ '-' → decode env (ts19 ++ " " ++ ⟨[a]⟩) = .error .panic) ∧
    (∀ (c : Char) (tok r : String) (k : Nat) (dur : Int),
      ' ' ∉ tok.data → env.ParseDuration tok = some dur →
      r.data.head? ≠ some ' ' → len r < 2 →
      decode env (ts19 ++ " " ++
        (⟨['-', c]⟩ ++ tok ++ " " ++ ⟨List.replicate k ' '⟩ ++ r)) = .error .panic) ∧
    (∀ (c : Char) (rest : String), ' ' ∉ rest.data →
      decode env (ts19 ++ " " ++ (⟨['-', c]⟩ ++ rest)) = .error .panic) ∧
    decode env (ts19 ++ " " ++ "-") = .error .panic := by
  have hne : ∀ body : String, ts19 ++ " " ++ body ≠ "" := by
    intro body e
    have hl : (ts19 ++ " " ++ body).data.length = 0 := by rw [e]; rfl
    simp [String.data_append] at hl
  refine ⟨?_, ?_, ?_, decode_empty_body env ts19 t hlen ht,
    fun a ha => decode_one_byte env ts19 a t hlen ht ha, ?_,
    fun c rest h => decode_dash_no_space env ts19 rest c t hlen ht h,
    decode_dash_only env ts19 t hlen ht⟩
  · intro a b m ha
    have h1 := decode_plain env ts19 m a b t hlen ht ha
    exact ⟨h1, fun s line0 htrim =>
      processLine_of_decode env s line0 _ m t 0 htrim (hne _) h1⟩
  · intro c a b tok m k dur htok hd ha
    have h2 := decode_duration_prefix env ts19 tok m a b c k t dur hlen ht htok hd ha
    exact ⟨h2, fun s line0 htrim =>
      processLine_of_decode env s line0 _ m t dur htrim (hne _) h2⟩
  · intro body
    constructor
    · exact decode_fatal_only env ts19 body t hlen ht
    · rintro ⟨c, tok, rest, rfl, htok, hd⟩
      rw [decode_dash env ts19 tok rest c t hlen ht htok, hd]
  · intro c tok r k dur htok hd hr hlt
    rw [String.append_assoc _ _ r,
      decode_dash_trimmed env ts19 tok r c k t hlen ht htok hr, hd]
    exact dropSeverity_short t dur r hlt

/-- Witness of C13 as amended, with the table of the examples as library:
a space and `!` as the two bytes of a line without a duration; `-` and `!`
after the prefix `- 5s `; the text `-!node/a Ready`, which is read as a
prefix with the token `node/a` and ends in `log.Fatal`; the text
`- 5s  !node/a Ready`, where the second space is trimmed and the two bytes
dropped are `!n`; a single byte; and the first line as the run handles it. -/
theorem severity_not_checked_witness :
    decode exampleStdlib "Jan 01 00:00:00.000  !node/a Ready" =
      .ok (1609459200000000000, 0, "node/a Ready") ∧
    decode exampleStdlib "Jan 01 00:00:00.000 - 5s -!node/a Ready" =
      .ok (1609459200000000000, 5000000000, "node/a Ready") ∧
    decode exampleStdlib "Jan 01 00:00:00.000 -!node/a Ready" = .error .fatal ∧
    decode exampleStdlib "Jan 01 00:00:00.000 - 5s  !node/a Ready" =
      .ok (1609459200000000000, 5000000000, "ode/a Ready") ∧
    decode exampleStdlib "Jan 01 00:00:00.000 ?" = .error .panic ∧
    decode exampleStdlib "Jan 01 00:00:00.000 - 5s ?" = .error .panic ∧
    processLine exampleStdlib mainInit "Jan 01 00:00:00.000  !node/a Ready\n" =
      translate mainInit 1609459200000000000 0 "node/a Ready" :=
  have H := severity_not_checked exampleStdlib "Jan 01 00:00:00.000" 1609459200000000000
    (by decide) (by decide)
  ⟨(H.1 ' ' '!' "node/a Ready" (by decide)).1,
    (H.2.1 ' ' '-' '!' "5s" "node/a Ready" 0 5000000000 (by decide) (by decide)
      (by decide)).1,
    (H.2.2.1 "-!node/a Ready").2 ⟨'!', "node/a", "Ready", by decide, by decide, by decide⟩,
    (H.2.1 ' ' '!' 'n' "5s" "ode/a Ready" 1 5000000000 (by decide) (by decide)
      (by decide)).1,
    H.2.2.2.2.1 '?' (by decide),
    H.2.2.2.2.2.1 ' ' "5s" "?" 0 5000000000 (by decide) (by decide) (by decide) (by decide),
    (H.1 ' ' '!' "node/a Ready" (by decide)).2 mainInit
      "Jan 01 00:00:00.000  !node/a Ready\n" (by decide)⟩

/-- Counterexample to C13 as stated: a line whose severity position holds
`?!`, neither a severity marker nor followed by a space, is accepted and its
record `node/a Ready` is emitted as an `X` event. -/
theorem severity_not_checked_counterexample :
    (processLine exampleStdlib mainInit "Jan 01 00:00:00.000 ?!node/a Ready\n").isOk = true ∧
    nonMeta ((processLine exampleStdlib mainInit
      "Jan 01 00:00:00.000 ?!node/a Ready\n").state.g.out.drop mainInit.g.out.length) =
      [ { Name := "node/a Ready", Ph := "X", PID := 2, TID := 2, TS := 1609459200000000,
          Dur := 1000000 } ] := by
  decide

/-- C17: in a state reached by a run, a record whose first token has none of
the prefixes `ns/`, `node/`, `clusteroperator/`, `e2e-test/` is accepted and
adds exactly one event to the output, no metadata: an `X` event named after
the whole message with `pid = tid = 1`, the identifier of the process `other`,
which is the identifier the run allocates first. The registry (map, counter,
announced processes) and the open-interval map are as before. -/
theorem default_rule (env : Stdlib) (lines : List String) (s : Run) (ts d : Int) (msg : String)
    (hs : main env lines = .ok s)
    (h1 : HasPrefix (SplitN msg).1 "ns/" = false)
    (h2 : HasPrefix (SplitN msg).1 "node/" = false)
    (h3 : HasPrefix (SplitN msg).1 "clusteroperator/" = false)
    (h4 : HasPrefix (SplitN msg).1 "e2e-test/" = false) :
    ∃ s2, translate s ts d msg = .ok s2 ∧
      s2.g.out = s.g.out ++
        [ { Name := msg, Ph := "X", PID := 1, TID := 1, TS := Int.tdiv ts 1000,
            Dur := Int.tdiv (max d Second) 1000 } ] ∧
      GoMap.get s.g.tids (sprintfTidKey 0 "other") = some 1 ∧
      (GetTID newTraceEventsGenerator 0 "other").2 = 1 ∧
      s2.g.tids = s.g.tids ∧ s2.g.tidsCount = s.g.tidsCount ∧ s2.g.pids = s.g.pids ∧
      s2.inProgress = s.inProgress ∧ s2.pid1 = s.pid1 := by
  obtain ⟨_, hp, hk⟩ := reach_facts env lines s hs
  rw [translate_eq_applyRule, classify_other msg h1 h2 h3 h4]
  refine ⟨_, rfl, ?_, hk, by decide, rfl, rfl, rfl, rfl, rfl⟩
  show s.g.out ++ [finalEvent s.pid1 0 "X" msg ts d] = _
  rw [hp]
  simp [finalEvent, clamp_eq_max]

/-- Witness of C17: the record `kubelet restarted` from the initial state. -/
theorem default_rule_witness :
    ∃ s2, translate mainInit 0 0 "kubelet restarted" = .ok s2 ∧
      s2.g.out = mainInit.g.out ++
        [ { Name := "kubelet restarted", Ph := "X", PID := 1, TID := 1, TS := Int.tdiv 0 1000,
            Dur := Int.tdiv (max 0 Second) 1000 } ] ∧
      GoMap.get mainInit.g.tids (sprintfTidKey 0 "other") = some 1 ∧
      (GetTID newTraceEventsGenerator 0 "other").2 = 1 ∧
      s2.g.tids = mainInit.g.tids ∧ s2.g.tidsCount = mainInit.g.tidsCount ∧
      s2.g.pids = mainInit.g.pids ∧
      s2.inProgress = mainInit.inProgress ∧ s2.pid1 = mainInit.pid1 :=
  default_rule exampleStdlib [] mainInit 0 0 "kubelet restarted" rfl (by decide) (by decide)
    (by decide) (by decide)

/-- C16: in a state reached by a run, a record whose first token has the
prefix `ns/e2e-`, whatever follows it, is accepted; its one event that is not
metadata is an `X` event with `pid = tid = id`, the identifier of the process
`ns/e2e-*`; the registry changes at most under the key of that process, so
nothing is allocated for the namespace as written or for a pod; the
open-interval map is unchanged. Any later record of the run with such a first
token adds one `X` event with the same `pid = tid = id` and nothing else. -/
theorem e2e_namespace_rule (env : Stdlib) (lines : List String) (s : Run) (ts d : Int)
    (msg : String) (hs : main env lines = .ok s)
    (h : HasPrefix (SplitN msg).1 "ns/e2e-" = true) :
    ∃ s2 id, translate s ts d msg = .ok s2 ∧
      GoMap.get s2.g.tids (sprintfTidKey 0 "ns/e2e-*") = some id ∧
      nonMeta (s2.g.out.drop s.g.out.length) =
        [ { Name := msg, Ph := "X", PID := id, TID := id, TS := Int.tdiv ts 1000,
            Dur := Int.tdiv (max d Second) 1000 } ] ∧
      (∀ k, k ≠ sprintfTidKey 0 "ns/e2e-*" → GoMap.get s2.g.tids k = GoMap.get s.g.tids k) ∧
      s2.inProgress = s.inProgress ∧
      ∀ (mid : List String) (s3 : Run) (ts2 d2 : Int) (msg2 : String),
        runFrom env s2 mid = .ok s3 → HasPrefix (SplitN msg2).1 "ns/e2e-" = true →
        ∃ s4, translate s3 ts2 d2 msg2 = .ok s4 ∧
          s4.g.out = s3.g.out ++
            [ { Name := msg2, Ph := "X", PID := id, TID := id, TS := Int.tdiv ts2 1000,
                Dur := Int.tdiv (max d2 Second) 1000 } ] ∧
          s4.g.tids = s3.g.tids ∧ s4.g.tidsCount = s3.g.tidsCount ∧
          s4.inProgress = s3.inProgress := by
  obtain ⟨hR, _, _⟩ := reach_facts env lines s hs
  obtain ⟨s2, id, e1, e2, e3, e4, e5⟩ := plainRecord_spec s ts d msg "ns/e2e-*" hR
  have hstep := StepOk_translate s ts d msg hR
  rw [translate_eq_applyRule, classify_e2eNamespace msg h] at hstep ⊢
  have e1b : applyRule s ts d msg Rule.e2eNamespace = .ok s2 := e1
  rw [e1b] at hstep
  refine ⟨s2, id, e1b, e2, e3, e4, e5, ?_⟩
  intro mid s3 ts2 d2 msg2 hmid h2
  have hrun := StepOk_runFrom env mid s2 hstep.1
  rw [hmid] at hrun
  obtain ⟨hR3, _, ms, hext⟩ := hrun
  simp only [Outcome.state] at hR3 hext
  have hk3 := hext.tids_mono _ _ e2
  rw [translate_eq_applyRule, classify_e2eNamespace msg2 h2]
  have e6 : applyRule s3 ts2 d2 msg2 Rule.e2eNamespace =
      .ok { s3 with g := Emit s3.g (finalEvent id 0 "X" msg2 ts2 d2) } := by
    show plainRecord s3 ts2 d2 msg2 "ns/e2e-*" = _
    unfold plainRecord
    rw [GetPID_known s3.g s3.inProgress "ns/e2e-*" id hR3.inv hk3, finish_eq]
  refine ⟨_, e6, ?_, rfl, rfl, rfl⟩
  simp [Emit, finalEvent, clamp_eq_max]

/-- Witness of C16: from the initial state, a record of namespace
`ns/e2e-test-1234` with a pod. -/
theorem e2e_namespace_rule_witness :
    ∃ s2 id, translate mainInit 0 0 "ns/e2e-test-1234 pod/foo Created" = .ok s2 ∧
      GoMap.get s2.g.tids (sprintfTidKey 0 "ns/e2e-*") = some id ∧
      nonMeta (s2.g.out.drop mainInit.g.out.length) =
        [ { Name := "ns/e2e-test-1234 pod/foo Created", Ph := "X", PID := id, TID := id,
            TS := Int.tdiv 0 1000, Dur := Int.tdiv (max 0 Second) 1000 } ] ∧
      (∀ k, k ≠ sprintfTidKey 0 "ns/e2e-*" →
        GoMap.get s2.g.tids k = GoMap.get mainInit.g.tids k) ∧
      s2.inProgress = mainInit.inProgress ∧
      ∀ (mid : List String) (s3 : Run) (ts2 d2 : Int) (msg2 : String),
        runFrom exampleStdlib s2 mid = .ok s3 → HasPrefix (SplitN msg2).1 "ns/e2e-" = true →
        ∃ s4, translate s3 ts2 d2 msg2 = .ok s4 ∧
          s4.g.out = s3.g.out ++
            [ { Name := msg2, Ph := "X", PID := id, TID := id, TS := Int.tdiv ts2 1000,
                Dur := Int.tdiv (max d2 Second) 1000 } ] ∧
          s4.g.tids = s3.g.tids ∧ s4.g.tidsCount = s3.g.tidsCount ∧
          s4.inProgress = s3.inProgress :=
  e2e_namespace_rule exampleStdlib [] mainInit 0 0 "ns/e2e-test-1234 pod/foo Created" rfl
    (by decide)

/-- C15: in a state reached by a run, a record `T rest` whose first token `T`
has the prefix `ns/` but not `ns/e2e-` is accepted; its one event that is not
metadata is an `X` event named after the whole message with `pid` the
identifier the registry holds for the process `T`. When the first token of
`rest` has the prefix `pod/`, `tid` is the identifier the registry holds for
that token under `pid`, and it differs from `pid`; otherwise `tid = pid`. The
open-interval map is unchanged. -/
theorem namespace_rule (env : Stdlib) (lines : List String) (s : Run) (ts d : Int)
    (T rest : String) (hs : main env lines = .ok s) (hT : ' ' ∉ T.data)
    (h1 : HasPrefix T "ns/" = true) (h2 : HasPrefix T "ns/e2e-" = false) :
    ∃ s2 pid tid, translate s ts d (T ++ " " ++ rest) = .ok s2 ∧
      GoMap.get s2.g.tids (sprintfTidKey 0 T) = some pid ∧
      nonMeta (s2.g.out.drop s.g.out.length) =
        [ { Name := T ++ " " ++ rest, Ph := "X", PID := pid, TID := tid,
            TS := Int.tdiv ts 1000, Dur := Int.tdiv (max d Second) 1000 } ] ∧
      (HasPrefix (SplitN rest).1 "pod/" = true →
        GoMap.get s2.g.tids (sprintfTidKey pid (SplitN rest).1) = some tid ∧ tid ≠ pid) ∧
      (HasPrefix (SplitN rest).1 "pod/" = false → tid = pid) ∧
      s2.inProgress = s.inProgress := by
  obtain ⟨hR, _, _⟩ := reach_facts env lines s hs
  rw [translate_eq_applyRule, classify_ns T rest hT h1 h2]
  by_cases hp : HasPrefix (SplitN rest).1 "pod/" = true
  · rw [if_pos hp]
    obtain ⟨s2, pid, tid, e1, e2, e3, e4, e5, e6⟩ :=
      podRecord_spec s ts d (T ++ " " ++ rest) T (SplitN rest).1 hR
    refine ⟨s2, pid, tid, e1, e2, e5, fun _ => ⟨e3, e4⟩, ?_, e6⟩
    intro hc
    rw [hp] at hc
    cases hc
  · rw [if_neg hp]
    obtain ⟨s2, pid, e1, e2, e3, _, e5⟩ := plainRecord_spec s ts d (T ++ " " ++ rest) T hR
    exact ⟨s2, pid, pid, e1, e2, e3, fun hc => absurd hc hp, fun _ => rfl, e5⟩

/-- Witness of C15: the record `ns/default pod/foo Created` from the initial state. -/
theorem namespace_rule_witness :
    ∃ s2 pid tid, translate mainInit 0 0 ("ns/default" ++ " " ++ "pod/foo Created") = .ok s2 ∧
      GoMap.get s2.g.tids (sprintfTidKey 0 "ns/default") = some pid ∧
      nonMeta (s2.g.out.drop mainInit.g.out.length) =
        [ { Name := "ns/default" ++ " " ++ "pod/foo Created", Ph := "X", PID := pid, TID := tid,
            TS := Int.tdiv 0 1000, Dur := Int.tdiv (max 0 Second) 1000 } ] ∧
      (HasPrefix (SplitN "pod/foo Created").1 "pod/" = true →
        GoMap.get s2.g.tids (sprintfTidKey pid (SplitN "pod/foo Created").1) = some tid ∧
          tid ≠ pid) ∧
      (HasPrefix (SplitN "pod/foo Created").1 "pod/" = false → tid = pid) ∧
      s2.inProgress = mainInit.inProgress :=
  namespace_rule exampleStdlib [] mainInit 0 0 "ns/default" "pod/foo Created" rfl (by decide)
    (by decide) (by decide)

/-- C19: for a decoded message `m` and any state, `translate` ends in an
index error exactly when (1) the first token of `m` has the prefix `ns/` but
not `ns/e2e-`, or the prefix `clusteroperator/`, and `m` holds no space, or
(2) the first token has the prefix `clusteroperator/`, the first token of the
remaining text has the prefix `condition/`, and the remaining text holds no
space. In every other case it ends normally: it never ends in `log.Fatal`.
In case (2), when the pair of the operator and the condition has an open
interval labelled `prev`, the state at the failure has the `E` event for
`prev` as last output and the entry of the pair removed from the map. Here the
first token and the remaining text are the two results of `SplitN`: a message
without a space is its own first token, and `a ++ " " ++ b` with no space in
`a` splits into `a` and `b`. -/
theorem translate_index_errors (s : Run) (ts d : Int) (m : String) :
    ((translate s ts d m).isPanic = true ↔
      ((((HasPrefix (SplitN m).1 "ns/" = true ∧ HasPrefix (SplitN m).1 "ns/e2e-" = false) ∨
          HasPrefix (SplitN m).1 "clusteroperator/" = true) ∧ ' ' ∉ m.data) ∨
       (HasPrefix (SplitN m).1 "clusteroperator/" = true ∧
          ∃ rest, (SplitN m).2 = some rest ∧ HasPrefix (SplitN rest).1 "condition/" = true ∧
            ' ' ∉ rest.data))) ∧
    (translate s ts d m).isOk = !(translate s ts d m).isPanic ∧
    (translate s ts d m).isFatal = false ∧
    (∀ rest prev : String,
      HasPrefix (SplitN m).1 "clusteroperator/" = true → (SplitN m).2 = some rest →
      HasPrefix (SplitN rest).1 "condition/" = true → ' ' ∉ rest.data →
      GoMap.get s.inProgress
        (sprintfKey (GetPID s.g (SplitN m).1).2
          (GetTID (GetPID s.g (SplitN m).1).1 (GetPID s.g (SplitN m).1).2 rest).2) = some prev →
      translate s ts d m = .panic { s with
        g := Emit (GetTID (GetPID s.g (SplitN m).1).1 (GetPID s.g (SplitN m).1).2 rest).1
          { Name := prev, Ph := "E", PID := (GetPID s.g (SplitN m).1).2,
            TID := (GetTID (GetPID s.g (SplitN m).1).1 (GetPID s.g (SplitN m).1).2 rest).2,
            TS := Int.tdiv ts 1000 },
        inProgress := GoMap.delete s.inProgress
          (sprintfKey (GetPID s.g (SplitN m).1).2
            (GetTID (GetPID s.g (SplitN m).1).1 (GetPID s.g (SplitN m).1).2 rest).2) }) ∧
    (' ' ∉ m.data → SplitN m = (m, none)) ∧
    (∀ a b : String, ' ' ∉ a.data → SplitN (a ++ " " ++ b) = (a, some b)) := by
  refine ⟨?_, ?_, ?_, ?_, SplitN_none m, fun a b h => SplitN_append a b h⟩
  · rw [translate_eq_applyRule, (isPanic_applyRule s ts d m _).1]
    exact classify_panics_iff m
  · rw [translate_eq_applyRule, (isPanic_applyRule s ts d m _).1,
      (isPanic_applyRule s ts d m _).2]
  · have h1 := (isPanic_applyRule s ts d m (classify m)).1
    have h2 := (isPanic_applyRule s ts d m (classify m)).2
    rw [translate_eq_applyRule]
    cases h : applyRule s ts d m (classify m) with
    | ok _ => rfl
    | panic _ => rfl
    | fatal _ =>
      rw [h] at h1 h2
      simp only [Outcome.isPanic, Outcome.isOk] at h1 h2
      rw [← h1] at h2
      cases h2
  · intro rest prev hop h2 hc hr hprev
    rw [translate_eq_applyRule, classify_opNoStatus m rest hop h2 hc hr]
    simp only [applyRule]
    rw [closePrevious_some _ _ _ _ _ _ prev hprev]
    rfl

/-- C14: in a state `s` reached by a run, a blank line leaves the whole state
as it is (no event, same registry, same open-interval map); and when the line
`line`, not blank, is accepted, it decodes to a record `(ts, d, msg)` and the
events it adds that are not metadata end with one final event `fin` of phase
`X` or `B`, named `msg` or, for an e2e-test start, `msg` without its suffix
` started`. They are exactly `[E, fin]`, with `E` the end event of the label
the map held for the pair of `fin`, when `msg` reaches the interval logic and
the map held a label for that pair; otherwise they are exactly `[fin]`. -/
theorem events_per_line (env : Stdlib) (lines : List String) (s s2 : Run) (line : String)
    (hs : main env lines = .ok s) (hnb : TrimRight line '\n' ≠ "")
    (hok : processLine env s line = .ok s2) :
    (∀ blank : String, TrimRight blank '\n' = "" → processLine env s blank = .ok s) ∧
    (∃ (ts d : Int) (msg : String) (fin : traceEvent),
        decode env (TrimRight line '\n') = .ok (ts, d, msg) ∧
        (fin.Ph = "X" ∨ fin.Ph = "B") ∧
        (fin.Name = msg ∨ msg = fin.Name ++ " started") ∧
        ((usesIntervalLogic msg = true ∧ ∃ prev,
            GoMap.get s.inProgress (sprintfKey fin.PID fin.TID) = some prev ∧
            nonMeta (s2.g.out.drop s.g.out.length) =
              [ { Name := prev, Ph := "E", PID := fin.PID, TID := fin.TID,
                  TS := Int.tdiv ts 1000 }, fin ]) ∨
         ((usesIntervalLogic msg = false ∨
            GoMap.get s.inProgress (sprintfKey fin.PID fin.TID) = none) ∧
            nonMeta (s2.g.out.drop s.g.out.length) = [fin]))) := by
  obtain ⟨hR, _, _⟩ := reach_facts env lines s hs
  refine ⟨?_, ?_⟩
  · intro blank hb
    unfold processLine
    simp only [hb, if_true]
  · rcases processLine_ok env s s2 line hok with ⟨hb, _⟩ | ⟨ts, d, msg, hd, ht⟩
    · exact absurd hb hnb
    · rw [translate_eq_applyRule] at ht
      obtain ⟨fin, hph, hname, hcase⟩ := applyRule_events s s2 ts d msg _ hR ht
      rw [usesInterval_classify] at hcase
      refine ⟨ts, d, msg, fin, hd, hph, ?_, hcase⟩
      rcases hname with e | e
      · exact Or.inl e
      · exact Or.inr (classify_e2eStart_inv msg _ e)

/-- Witness of C14: a node record, accepted from the initial state. -/
theorem events_per_line_witness :
    (∀ blank : String, TrimRight blank '\n' = "" →
      processLine exampleStdlib mainInit blank = .ok mainInit) ∧
    (∃ (ts d : Int) (msg : String) (fin : traceEvent),
        decode exampleStdlib (TrimRight "Jan 01 00:00:00.000 I node/a Ready\n" '\n') =
          .ok (ts, d, msg) ∧
        (fin.Ph = "X" ∨ fin.Ph = "B") ∧
        (fin.Name = msg ∨ msg = fin.Name ++ " started") ∧
        ((usesIntervalLogic msg = true ∧ ∃ prev,
            GoMap.get mainInit.inProgress (sprintfKey fin.PID fin.TID) = some prev ∧
            nonMeta ((processLine exampleStdlib mainInit
                "Jan 01 00:00:00.000 I node/a Ready\n").state.g.out.drop
                mainInit.g.out.length) =
              [ { Name := prev, Ph := "E", PID := fin.PID, TID := fin.TID,
                  TS := Int.tdiv ts 1000 }, fin ]) ∨
         ((usesIntervalLogic msg = false ∨
            GoMap.get mainInit.inProgress (sprintfKey fin.PID fin.TID) = none) ∧
            nonMeta ((processLine exampleStdlib mainInit
                "Jan 01 00:00:00.000 I node/a Ready\n").state.g.out.drop
                mainInit.g.out.length) = [fin]))) :=
  events_per_line exampleStdlib [] mainInit _ "Jan 01 00:00:00.000 I node/a Ready\n" rfl
    (by decide) (by decide)

/-- C18: let `s` be a state reached by a run, `t` a text that begins with
`e2e-test/`, and `(pid, tid)` the identifiers the registry gives the process
`e2e-test/*` and, under it, the thread `t`. The record `t started` is handled
as a start observation keyed by `t` (also when `t` holds ` finishedStatus/`):
it is accepted, its last event is a `B` event named `t` on `(pid, tid)`,
preceded by metadata and end events only, and the map then holds `t` for the
pair. If `t` does not hold ` finishedStatus/` and `t finishedStatus/st` does
not end in ` started`, then after any accepted lines that emit no `B` or `E`
event on the pair, the record `t finishedStatus/st` is handled as a finish
observation keyed by `t`, the text before the first ` finishedStatus/`: it is
accepted and adds exactly an `E` event named `t` and an `X` event named after
the record, both on `(pid, tid)`; the pair is closed and nothing is allocated. -/
theorem e2e_start_finish (env : Stdlib) (lines : List String) (s : Run) (t : String)
    (t1 d1 pid tid : Int) (hs : main env lines = .ok s)
    (ht : HasPrefix t "e2e-test/" = true)
    (hpid : (GetPID s.g "e2e-test/*").2 = pid)
    (htid : (GetTID (GetPID s.g "e2e-test/*").1 pid t).2 = tid) :
    translate s t1 d1 (t ++ " started") = e2eRecord s t1 d1 (t ++ " started") t true ∧
    ∃ s1 pre, translate s t1 d1 (t ++ " started") = .ok s1 ∧
      s1.g.out = s.g.out ++ pre ++
        [ { Name := t, Ph := "B", PID := pid, TID := tid, TS := Int.tdiv t1 1000,
            Dur := Int.tdiv (max d1 Second) 1000 } ] ∧
      (∀ e ∈ pre, e.Ph = "M" ∨ e.Ph = "E") ∧
      GoMap.get s1.g.tids (sprintfTidKey 0 "e2e-test/*") = some pid ∧
      GoMap.get s1.g.tids (sprintfTidKey pid t) = some tid ∧
      GoMap.get s1.inProgress (sprintfKey pid tid) = some t ∧
      ∀ (st : String) (mid : List String) (s2 : Run) (t2 d2 : Int),
        (∀ a b : String, t ≠ a ++ " finishedStatus/" ++ b) →
        HasSuffix (t ++ " finishedStatus/" ++ st) " started" = false →
        runFrom env s1 mid = .ok s2 →
        track (s2.g.out.drop s1.g.out.length) pid tid = [] →
        translate s2 t2 d2 (t ++ " finishedStatus/" ++ st) =
          e2eRecord s2 t2 d2 (t ++ " finishedStatus/" ++ st) t false ∧
        ∃ s3, translate s2 t2 d2 (t ++ " finishedStatus/" ++ st) = .ok s3 ∧
          s3.g.out = s2.g.out ++
            [ { Name := t, Ph := "E", PID := pid, TID := tid, TS := Int.tdiv t2 1000 },
              { Name := t ++ " finishedStatus/" ++ st, Ph := "X", PID := pid, TID := tid,
                TS := Int.tdiv t2 1000, Dur := Int.tdiv (max d2 Second) 1000 } ] ∧
          GoMap.get s3.inProgress (sprintfKey pid tid) = none ∧
          s3.g.tids = s2.g.tids ∧ s3.g.tidsCount = s2.g.tidsCount := by
  obtain ⟨hR, _, _⟩ := reach_facts env lines s hs
  have hcl : translate s t1 d1 (t ++ " started") =
      e2eRecord s t1 d1 (t ++ " started") t true := by
    rw [translate_eq_applyRule, classify_e2eStart t ht]
    rfl
  obtain ⟨G, pre, ip2, e1, hout, hM, hk1, hk2, htid1⟩ :=
    e2e_open s t1 d1 (t ++ " started") t pid tid hR hpid htid
  have hne : tid ≠ 0 := by omega
  have hstep := StepOk_translate s t1 d1 (t ++ " started") hR
  rw [hcl, e1] at hstep
  refine ⟨hcl, _, pre, by rw [hcl, e1], ?_, hM, hk1, hk2, GoMap.get_set_same _ _ _, ?_⟩
  · show G.out ++ [finalEvent pid tid "B" t t1 d1] = _
    rw [hout]
    simp [finalEvent, hne, clamp_eq_max]
  have hR1 := hstep.1
  simp only [Outcome.state] at hR1
  have hp1 := hR1.inv.paired pid tid
  generalize hs1 : ({ s with
      g := Emit G (finalEvent pid tid "B" t t1 d1),
      inProgress := GoMap.set ip2 (sprintfKey pid tid) t } : Run) = s1 at hR1
  have hs1k1 : GoMap.get s1.g.tids (sprintfTidKey 0 "e2e-test/*") = some pid := by
    rw [← hs1]; exact hk1
  have hs1k2 : GoMap.get s1.g.tids (sprintfTidKey pid t) = some tid := by
    rw [← hs1]; exact hk2
  intro st mid s2 t2 d2 hnf hns hmid hquiet
  have hcl2 : translate s2 t2 d2 (t ++ " finishedStatus/" ++ st) =
      e2eRecord s2 t2 d2 (t ++ " finishedStatus/" ++ st) t false := by
    rw [translate_eq_applyRule, classify_e2eFinish t st ht hnf hns]
    rfl
  have hrun := StepOk_runFrom env mid s1 hR1
  rw [hmid] at hrun
  obtain ⟨hR2, _, ms2, hext⟩ := hrun
  simp only [Outcome.state] at hR2 hext
  have hout2 := hext.out_eq
  rw [hout2, List.drop_left] at hquiet
  have hp2 := hR2.inv.paired pid tid
  rw [hs1] at hp1
  rw [hout2, track_append2, hquiet, List.append_nil, hp1] at hp2
  have hprev : GoMap.get s2.inProgress (sprintfKey pid tid) = some t := by
    have := Option.some.inj hp2
    rw [← this, ← hs1]
    exact GoMap.get_set_same _ _ _
  have e3 := e2e_close s2 t2 d2 (t ++ " finishedStatus/" ++ st) t t pid tid hR2
    (hext.tids_mono _ _ hs1k1) (hext.tids_mono _ _ hs1k2) hprev
  refine ⟨hcl2, { s2 with
      g := Emit (Emit s2.g (endEvent t pid tid t2))
        (finalEvent pid tid "X" (t ++ " finishedStatus/" ++ st) t2 d2),
      inProgress := GoMap.delete s2.inProgress (sprintfKey pid tid) },
    by rw [hcl2, e3], ?_, GoMap.get_delete_same _ _, rfl, rfl⟩
  simp [Emit, finalEvent, endEvent, hne, clamp_eq_max]

/-- Witness of C18: from the initial state, the test `e2e-test/"Foo"`, whose
process and thread get identifiers 2 and 3. -/
theorem e2e_start_finish_witness :
    translate mainInit 0 0 ("e2e-test/\"Foo\"" ++ " started") =
      e2eRecord mainInit 0 0 ("e2e-test/\"Foo\"" ++ " started") "e2e-test/\"Foo\"" true ∧
    ∃ s1 pre, translate mainInit 0 0 ("e2e-test/\"Foo\"" ++ " started") = .ok s1 ∧
      s1.g.out = mainInit.g.out ++ pre ++
        [ { Name := "e2e-test/\"Foo\"", Ph := "B", PID := 2, TID := 3, TS := Int.tdiv 0 1000,
            Dur := Int.tdiv (max 0 Second) 1000 } ] ∧
      (∀ e ∈ pre, e.Ph = "M" ∨ e.Ph = "E") ∧
      GoMap.get s1.g.tids (sprintfTidKey 0 "e2e-test/*") = some 2 ∧
      GoMap.get s1.g.tids (sprintfTidKey 2 "e2e-test/\"Foo\"") = some 3 ∧
      GoMap.get s1.inProgress (sprintfKey 2 3) = some "e2e-test/\"Foo\"" ∧
      ∀ (st : String) (mid : List String) (s2 : Run) (t2 d2 : Int),
        (∀ a b : String, "e2e-test/\"Foo\"" ≠ a ++ " finishedStatus/" ++ b) →
        HasSuffix ("e2e-test/\"Foo\"" ++ " finishedStatus/" ++ st) " started" = false →
        runFrom exampleStdlib s1 mid = .ok s2 →
        track (s2.g.out.drop s1.g.out.length) 2 3 = [] →
        translate s2 t2 d2 ("e2e-test/\"Foo\"" ++ " finishedStatus/" ++ st) =
          e2eRecord s2 t2 d2 ("e2e-test/\"Foo\"" ++ " finishedStatus/" ++ st)
            "e2e-test/\"Foo\"" false ∧
        ∃ s3, translate s2 t2 d2 ("e2e-test/\"Foo\"" ++ " finishedStatus/" ++ st) = .ok s3 ∧
          s3.g.out = s2.g.out ++
            [ { Name := "e2e-test/\"Foo\"", Ph := "E", PID := 2, TID := 3,
                TS := Int.tdiv t2 1000 },
              { Name := "e2e-test/\"Foo\"" ++ " finishedStatus/" ++ st, Ph := "X", PID := 2,
                TID := 3, TS := Int.tdiv t2 1000, Dur := Int.tdiv (max d2 Second) 1000 } ] ∧
          GoMap.get s3.inProgress (sprintfKey 2 3) = none ∧
          s3.g.tids = s2.g.tids ∧ s3.g.tidsCount = s2.g.tidsCount :=
  e2e_start_finish exampleStdlib [] mainInit "e2e-test/\"Foo\"" 0 0 2 3 rfl (by decide)
    (by decide) (by decide)

end Timeline
